import Mathlib

/-!
Data broker: scatter-gather codec and completion mapping.

A shallow embedding of `backend/common/sge.h` and of the errno mapping of
`src/lib/completion.c`, with the properties proved about them.

Conventions of the embedding

* A byte is a natural number (its character code); `'\n'` is 10, `'\0'` is 0.
* C integers are mathematical integers wrapped to their width at every
  conversion (`to_int`, `to_long`, `to_size_t`, `to_unsigned`).
* A pointer into a buffer is an offset from the start of that buffer.
* The input of the parser is the C string found at `data`: a list of bytes,
  every byte past the end of the list reading as `'\0'`.
* The output buffer of the serializer is a flat memory `Int → Nat` addressed
  relative to `data`, so that writes past `space` are visible.
-/

namespace DataBroker

/-! ## Constants of `errno.h` (Linux values) -/

def EPERM : Int := 1
def ENOENT : Int := 2
def E2BIG : Int := 7
def EBADF : Int := 9
def EAGAIN : Int := 11
def ENOMEM : Int := 12
def EEXIST : Int := 17
def EINVAL : Int := 22
def ENOSYS : Int := 38
def ENOMSG : Int := 42
def ENODATA : Int := 61
def EPROTO : Int := 71
def EBADMSG : Int := 74
def EMSGSIZE : Int := 90
def ENOTSUP : Int := 95
def ENOTCONN : Int := 107
def ETIMEDOUT : Int := 110

/-- The `DBBE_SGE_MAX` constant: max number of SGEs in one list. -/
def DBBE_SGE_MAX : Int := 256

/-! ## Machine integers -/

/-- Value of a C `int` (32 bit, two's complement) after storing `v`. -/
def to_int (v : Int) : Int := (v + 2147483648) % 4294967296 - 2147483648

/-- Value of a C `long` / `ssize_t` / `int64_t` (64 bit) after storing `v`. -/
def to_long (v : Int) : Int :=
  (v + 9223372036854775808) % 18446744073709551616 - 9223372036854775808

/-- Value of a C `size_t` (64 bit, unsigned) after storing `v`. -/
def to_size_t (v : Int) : Nat := (v % 18446744073709551616).toNat

/-- Value of a C `unsigned` (32 bit) after storing `v`. -/
def to_unsigned (v : Int) : Nat := (v % 4294967296).toNat

/-- The type `dbBE_sge_t` (a `struct iovec`): base address and length. -/
structure dbBE_sge_t where
  iov_base : Nat
  iov_len : Nat
deriving DecidableEq, Repr

instance : Inhabited dbBE_sge_t := ⟨⟨0, 0⟩⟩

/-! ## Formatted output (`snprintf`) -/

/-- Decimal digits of `n`, most significant first, with `fuel` division steps. -/
def dec_aux : Nat → Nat → List Nat → List Nat
  | 0, _, acc => acc
  | fuel + 1, n, acc =>
    if n < 10 then (48 + n) :: acc
    else dec_aux fuel (n / 10) ((48 + n % 10) :: acc)

/-- Text printed for an unsigned decimal number. -/
def dec (n : Nat) : List Nat := dec_aux (n + 1) n []

/-- Text printed by the conversions `%d` and `%ld` for the value `v`. -/
def print_int (v : Int) : List Nat :=
  if v < 0 then 45 :: dec v.natAbs else dec v.toNat

/-- Memory after writing the bytes `bs` at address `pos`. -/
def store (m : Int → Nat) (pos : Int) (bs : List Nat) : Int → Nat :=
  fun a => if pos ≤ a ∧ a < pos + bs.length then bs.getD (a - pos).toNat 0 else m a

/-- Memory after `snprintf( data, space, ... )` whose formatted text is `t`:
at most `space - 1` characters of `t` and a terminating `'\0'` are written,
nothing at all when `space` is 0.  The call returns `t.length`. -/
def snprintf (m : Int → Nat) (pos : Int) (space : Nat) (t : List Nat) : Int → Nat :=
  if space = 0 then m else store m pos (t.take (space - 1) ++ [0])

/-- Memory after `memcpy( data, base, n )` from the source memory `mem`. -/
def memcpy (m : Int → Nat) (pos : Int) (mem : Nat → Nat) (base : Nat) (n : Nat) : Int → Nat :=
  fun a => if pos ≤ a ∧ a < pos + n then mem (base + (a - pos).toNat) else m a

/-- The first `n` bytes of a memory, as a list. -/
def buffer_bytes (m : Int → Nat) (n : Nat) : List Nat :=
  (List.range n).map (fun (k : Nat) => m (Int.ofNat k))

/-! ## `dbBE_SGE_get_len` and `dbBE_SGE_serialize` -/

/-- Loop of `dbBE_SGE_get_len`: `k` is `i + 1`, the index runs downwards. -/
def get_len_loop (sge : List dbBE_sge_t) : Nat → Nat → Nat
  | 0, len => len
  | i + 1, len => get_len_loop sge i (to_size_t (len + (sge.getD i default).iov_len))

/-- Total size in bytes of an SGE list (a `size_t`). -/
def dbBE_SGE_get_len (sge : Option (List dbBE_sge_t)) (sge_count : Int) : Nat :=
  match sge with
  | none => 0
  | some a => get_len_loop a sge_count.toNat 0

/-- State of the serializer between statements. -/
structure ser_state where
  pos : Int
  space : Nat
  total : Int
  mem : Int → Nat

/-- First loop of `dbBE_SGE_serialize`: one length line per element, while
`(i < sge_count) && (space > 0)`.  `n` counts the elements still to visit.
The flag of the result is `false` when the loop left through the
`plen <= 0` exit, which returns `-EBADMSG`. -/
def serialize_lens (sge : List dbBE_sge_t) : Nat → Nat → ser_state → Bool × ser_state
  | 0, _, s => (true, s)
  | n + 1, i, s =>
    if s.space > 0 then
      let t := print_int (to_long (sge.getD i default).iov_len) ++ [10]
      let plen : Int := to_int t.length
      let m1 := snprintf s.mem s.pos s.space t
      if plen ≤ 0 then (false, { s with mem := m1 })
      else serialize_lens sge n (i + 1)
        { pos := s.pos + plen
          space := to_size_t (s.space - plen)
          total := to_long (s.total + plen)
          mem := m1 }
    else (true, s)

/-- Second loop of `dbBE_SGE_serialize`: each payload followed by `'\n'`. -/
def serialize_payloads (src : Nat → Nat) (sge : List dbBE_sge_t) : Nat → Nat → ser_state → ser_state
  | 0, _, s => s
  | n + 1, i, s =>
    if s.space > 0 then
      let e := sge.getD i default
      let plen : Int := to_int e.iov_len
      let m1 := memcpy s.mem s.pos src e.iov_base (to_size_t plen)
      let m2 := store m1 (s.pos + plen) [10]
      let plen1 : Int := to_int (plen + 1)
      serialize_payloads src sge n (i + 1)
        { pos := s.pos + plen1
          space := to_size_t (s.space - plen1)
          total := to_long (s.total + plen1)
          mem := m2 }
    else s

/-- Result of `dbBE_SGE_serialize`: return value and memory at `data`. -/
structure serialize_result where
  ret : Int
  mem : Int → Nat

/-- The function `dbBE_SGE_serialize`.  `src` is the memory the SGE bases
point into, `sge` and `data` are `none` for a NULL pointer, `data` is the
memory found at the target pointer before the call. -/
def dbBE_SGE_serialize (src : Nat → Nat) (sge : Option (List dbBE_sge_t)) (sge_count : Int)
    (data : Option (Int → Nat)) (space : Nat) : serialize_result :=
  match data, sge with
  | none, _ => ⟨-EINVAL, fun _ => 0⟩
  | some m, none => ⟨-EINVAL, m⟩
  | some m, some a =>
    if sge_count < 1 ∨ sge_count > DBBE_SGE_MAX then ⟨-EINVAL, m⟩
    else
      let t := print_int (to_long (dbBE_SGE_get_len (some a) sge_count)) ++ [10]
                 ++ print_int sge_count ++ [10]
      let plen : Int := to_int t.length
      if plen ≤ 0 then ⟨-EBADMSG, snprintf m 0 space t⟩
      else
        let s0 : ser_state :=
          { pos := plen, space := to_size_t (space - plen), total := plen,
            mem := snprintf m 0 space t }
        let r1 := serialize_lens a sge_count.toNat 0 s0
        if r1.1 = false then ⟨-EBADMSG, r1.2.mem⟩
        else
          let s2 := serialize_payloads src a sge_count.toNat 0 r1.2
          if s2.space = 0 then ⟨-E2BIG, s2.mem⟩
          else ⟨s2.total, store s2.mem s2.pos [0]⟩

/-! ## Formatted input (`sscanf`) -/

/-- The C predicate `isspace` in the "C" locale. -/
def isspace (c : Nat) : Bool := c == 32 || (9 ≤ c && c ≤ 13)

/-- The C predicate `isdigit`. -/
def isdigit (c : Nat) : Bool := 48 ≤ c && c ≤ 57

/-- Number denoted by a run of decimal digits. -/
def digits_value (ds : List Nat) : Nat := ds.foldl (fun a c => a * 10 + (c - 48)) 0

/-- Clamp to the range of `long`, as `strtol` does on overflow. -/
def sat_long (v : Int) : Int :=
  if v < -9223372036854775808 then -9223372036854775808
  else if v > 9223372036854775807 then 9223372036854775807 else v

/-- Outcome of one integer conversion of `sscanf`. -/
inductive conv where
  | eof : conv
  | nomatch : conv
  | ok (v : Int) (n : Nat) : conv
deriving DecidableEq, Repr

/-- One conversion `%d` or `%ld` on the string `s`: white space is skipped,
then an optional sign and a non-empty run of digits is read.  `eof` is an
input failure (the string ends before the number), `nomatch` a matching
failure, `ok v n` gives the value as a `long` and the number of bytes read,
white space included. -/
def scan_int (s : List Nat) : conv :=
  let w := (s.takeWhile isspace).length
  match s.drop w with
  | [] => conv.eof
  | c :: t =>
    if c = 0 then conv.eof
    else
      let k := if c = 45 ∨ c = 43 then 1 else 0
      let ds := ((c :: t).drop k).takeWhile isdigit
      if ds.isEmpty then conv.nomatch
      else conv.ok (sat_long (if c = 45 then -(digits_value ds : Int) else digits_value ds))
        (w + k + ds.length)

/-- Locals of `dbBE_SGE_extract_header` after its first `sscanf`. -/
structure header_scan where
  plen : Int
  total : Nat
  i_sge_count : Int
  offset : Int
deriving DecidableEq, Repr

/-- The call `sscanf( data, "%ld\n%d\n%n", &total, &i_sge_count, &offset )`.
A white-space directive reads any amount of white space, `%n` stores the
number of bytes read so far.  Locals that are not assigned keep their
initial value 0; `%d` stores the `long` it read into an `int`. -/
def sscanf_header (s : List Nat) : header_scan :=
  match scan_int s with
  | conv.eof => ⟨-1, 0, 0, 0⟩
  | conv.nomatch => ⟨0, 0, 0, 0⟩
  | conv.ok v n =>
    match scan_int (s.drop n) with
    | conv.ok c k =>
      let w := ((s.drop (n + k)).takeWhile isspace).length
      ⟨2, to_size_t v, to_int c, to_int (n + k + w)⟩
    | _ => ⟨1, to_size_t v, 0, 0⟩

/-- Locals of the length loop after its `sscanf`. -/
structure len_scan where
  plen : Int
  len : Nat
  offset : Int
deriving DecidableEq, Repr

/-- The call `sscanf( data, "%ld\n%n", &len, &offset )`.  On failure the
two locals are not assigned; the caller returns without reading them. -/
def sscanf_len (s : List Nat) : len_scan :=
  match scan_int s with
  | conv.eof => ⟨-1, 0, 0⟩
  | conv.nomatch => ⟨0, 0, 0⟩
  | conv.ok v n =>
    let w := ((s.drop n).takeWhile isspace).length
    ⟨1, to_size_t v, to_int (n + w)⟩

/-- The byte at index `i` of the C string `data`. -/
def peek (data : List Nat) (i : Int) : Nat :=
  if i < 0 then 0 else data.getD i.toNat 0

/-! ## `dbBE_SGE_extract_header` -/

/-- Locals of `dbBE_SGE_extract_header` inside the length loop; `pos` is
the offset of the moving pointer `data` from its initial value. -/
structure hdr_state where
  i : Nat
  pos : Int
  space : Nat
  parsed : Nat
  sge : List dbBE_sge_t
deriving DecidableEq, Repr

/-- The length loop `for( i=0; (i < i_sge_count) && (space > 1); ++i )`.
`n` counts the iterations still allowed by `i < i_sge_count`.  The first
component is the value of an early `return`, if one was taken. -/
def extract_lens (data : List Nat) : Nat → hdr_state → Option Int × hdr_state
  | 0, s => (none, s)
  | n + 1, s =>
    if s.space > 1 then
      let r := sscanf_len (data.drop s.pos.toNat)
      if r.plen < 1 ∨ to_size_t r.offset > s.space then (some (-EBADMSG), s)
      else if peek data (s.pos + r.offset - 1) ≠ 10 then (some (-EAGAIN), s)
      else extract_lens data n
        { i := s.i + 1
          pos := s.pos + r.offset
          space := to_size_t (s.space - to_size_t r.offset)
          parsed := to_size_t (s.parsed + to_size_t r.offset)
          sge := s.sge.set s.i { s.sge.getD s.i default with iov_len := r.len } }
    else (none, s)

/-- Result of `dbBE_SGE_extract_header`: return value, `*sge_out` and
`*parsed` after the call. -/
structure extract_result where
  ret : Int
  sge_out : Option (List dbBE_sge_t)
  parsed : Nat
deriving DecidableEq, Repr

/-- The function `dbBE_SGE_extract_header`.  `calloc_ok` tells whether an
allocation succeeds.  A pointer argument is `none` when NULL; `sge_out` and
`parsed` carry the value of the cell they point to.  An array passed as
`sge_in` is updated in place and is what `*sge_out` holds afterwards. -/
def dbBE_SGE_extract_header (calloc_ok : Bool) (sge_in : Option (List dbBE_sge_t))
    (sge_count : Int) (data : Option (List Nat)) (space : Nat)
    (sge_out : Option (Option (List dbBE_sge_t))) (parsed : Option Nat) : extract_result :=
  match parsed, data, sge_out with
  | some p0, some d, some o0 =>
    if space < 4 ∨ (sge_in.isSome ∧ sge_count < 1) ∨ (sge_in.isNone ∧ sge_count ≠ 0) then
      ⟨-EINVAL, o0, p0⟩
    else
      let h := sscanf_header d
      if h.plen < 2 ∨ h.offset < 0 ∨ to_size_t h.offset > space ∨ h.i_sge_count < 1
          ∨ h.total < 4 ∨ space < to_unsigned (to_unsigned h.i_sge_count * 2) then
        ⟨-EBADMSG, o0, p0⟩
      else
        let p1 := to_size_t h.offset
        let sge : Option (List dbBE_sge_t) :=
          match sge_in with
          | some a => some a
          | none => if calloc_ok then some (List.replicate (to_size_t h.i_sge_count) ⟨0, 0⟩)
                    else none
        match sge with
        | none => ⟨-ENOMEM, o0, p1⟩
        | some a =>
          if sge_in.isSome ∧ sge_count < h.i_sge_count then ⟨-E2BIG, some a, p1⟩
          else
            let r := extract_lens d h.i_sge_count.toNat
              { i := 0, pos := h.offset, space := to_size_t (space - h.offset), parsed := p1,
                sge := a }
            match r.1 with
            | some e => ⟨e, some r.2.sge, r.2.parsed⟩
            | none =>
              if (r.2.i : Int) < h.i_sge_count ∧ r.2.space < 1 then
                ⟨-EAGAIN, some r.2.sge, r.2.parsed⟩
              else ⟨h.i_sge_count, some r.2.sge, r.2.parsed⟩
  | _, _, _ => ⟨-EINVAL, sge_out.getD none, parsed.getD 0⟩

/-! ## `dbBE_SGE_deserialize` -/

/-- The loop of `dbBE_SGE_deserialize`: element `i` gets the current
position as base, a `'\0'` is written behind its `iov_len` bytes, and the
position moves past that byte.  Positions are offsets from the start of the
buffer in the arithmetic of pointers and `size_t`, which wraps at `2^64`; a
store at an offset outside the buffer leaves the buffer as it is (the
function `deserialize_outside` lists these stores).  `n` counts the
iterations left. -/
def deserialize_loop : Nat → Nat → Nat → List Nat → List dbBE_sge_t → List Nat × List dbBE_sge_t
  | 0, _, _, d, a => (d, a)
  | n + 1, i, pos, d, a =>
    let a1 := a.set i { a.getD i default with iov_base := pos }
    let len := (a1.getD i default).iov_len
    deserialize_loop n (i + 1) (to_size_t (pos + len + 1)) (d.set (to_size_t (pos + len)) 0) a1

/-- The stores of the loop of `dbBE_SGE_deserialize` that fall outside the
buffer of `size` bytes: the offsets from the start of the buffer at which a
`'\0'` is written there, in the order of the stores. -/
def deserialize_outside : Nat → Nat → Nat → Nat → List dbBE_sge_t → List Nat
  | 0, _, _, _, _ => []
  | n + 1, i, pos, size, a =>
    let a1 := a.set i { a.getD i default with iov_base := pos }
    let len := (a1.getD i default).iov_len
    (if size ≤ to_size_t (pos + len) then [to_size_t (pos + len)] else [])
      ++ deserialize_outside n (i + 1) (to_size_t (pos + len + 1)) size a1

/-- Result of `dbBE_SGE_deserialize`: return value, the buffer `data` and
`*sge_out` after the call, and the offsets outside the buffer at which the
call has written a `'\0'`. -/
structure deserialize_result where
  ret : Int
  data : List Nat
  sge_out : Option (List dbBE_sge_t)
  outside : List Nat
deriving DecidableEq, Repr

/-- The function `dbBE_SGE_deserialize`.  A pointer argument is `none` when
NULL; `sge_out` and `sge_count` carry the value of the cell they point to.
The buffer is the list `data`. -/
def dbBE_SGE_deserialize (calloc_ok : Bool) (data : Option (List Nat)) (space : Nat)
    (sge_out : Option (Option (List dbBE_sge_t))) (sge_count : Option Int) : deserialize_result :=
  match data, sge_out, sge_count with
  | some d, some o, some c =>
    let total : Nat := 0
    let r := dbBE_SGE_extract_header calloc_ok o c (some d) space (some o) (some 0)
    if r.ret = -EBADMSG then ⟨-EBADMSG, d, r.sge_out, []⟩
    else if r.ret = -EAGAIN then ⟨-EAGAIN, d, r.sge_out, []⟩
    else if r.ret < 0 then ⟨r.ret, d, r.sge_out, []⟩
    else
      let space1 := to_size_t (space - r.parsed)
      match r.sge_out with
      | none => ⟨-EINVAL, d, none, []⟩
      | some a =>
        let w := deserialize_loop r.ret.toNat 0 r.parsed d a
        let out := deserialize_outside r.ret.toNat 0 r.parsed d.length a
        if space1 = 0 then ⟨-E2BIG, w.1, some w.2, out⟩
        else ⟨total, w.1, some w.2, out⟩
  | _, _, _ => ⟨-EINVAL, data.getD [], sge_out.getD none, []⟩

/-! ## Error codes and `dbrMapErrno_to_errorcode` -/

/-- Modelled from the spec: the enumeration `DBR_Errorcode_t` of
`errorcodes.h`, a header that is not among the sources.  The codes are the
ones the spec lists, in its stable numeric order. -/
inductive DBR_Errorcode_t where
  | DBR_SUCCESS
  | DBR_ERR_GENERIC
  | DBR_ERR_INVALID
  | DBR_ERR_HANDLE
  | DBR_ERR_INPROGRESS
  | DBR_ERR_TIMEOUT
  | DBR_ERR_UBUFFER
  | DBR_ERR_UNAVAIL
  | DBR_ERR_EXISTS
  | DBR_ERR_NSBUSY
  | DBR_ERR_NSINVAL
  | DBR_ERR_NOMEMORY
  | DBR_ERR_TAGERROR
  | DBR_ERR_NOFILE
  | DBR_ERR_NOAUTH
  | DBR_ERR_NOCONNECT
  | DBR_ERR_CANCELLED
  | DBR_ERR_NOTIMPL
  | DBR_ERR_INVALIDOP
  | DBR_ERR_BE_POST
  | DBR_ERR_BE_PROTO
  | DBR_ERR_BE_GENERAL
  | DBR_ERR_MAXERROR
deriving DecidableEq, Repr

open DBR_Errorcode_t in
/-- The function `dbrMapErrno_to_errorcode`: the `switch` over `rc`, its
case labels in the order of the source. -/
def dbrMapErrno_to_errorcode (rc : Int) : DBR_Errorcode_t :=
  if rc = 0 then DBR_SUCCESS
  else if rc = EINVAL ∨ rc = EMSGSIZE then DBR_ERR_INVALID
  else if rc = ETIMEDOUT then DBR_ERR_TIMEOUT
  else if rc = ENODATA ∨ rc = ENOENT then DBR_ERR_UNAVAIL
  else if rc = EEXIST then DBR_ERR_EXISTS
  else if rc = ENOMEM then DBR_ERR_NOMEMORY
  else if rc = EBADF then DBR_ERR_NOFILE
  else if rc = EPERM then DBR_ERR_NOAUTH
  else if rc = ENOTCONN then DBR_ERR_NOCONNECT
  else if rc = ENOTSUP ∨ rc = ENOSYS then DBR_ERR_NOTIMPL
  else if rc = EBADMSG then DBR_ERR_INVALIDOP
  else if rc = ENOMSG then DBR_ERR_BE_POST
  else if rc = EPROTO then DBR_ERR_BE_PROTO
  else DBR_ERR_BE_GENERAL

/-- The errno table as the specification words it: each listed errno with
its code, `none` for a value the table does not list. -/
def errno_table : List (Int × DBR_Errorcode_t) :=
  [ (0, .DBR_SUCCESS), (EINVAL, .DBR_ERR_INVALID), (EMSGSIZE, .DBR_ERR_INVALID),
    (ETIMEDOUT, .DBR_ERR_TIMEOUT), (ENODATA, .DBR_ERR_UNAVAIL), (ENOENT, .DBR_ERR_UNAVAIL),
    (EEXIST, .DBR_ERR_EXISTS), (ENOMEM, .DBR_ERR_NOMEMORY), (EBADF, .DBR_ERR_NOFILE),
    (EPERM, .DBR_ERR_NOAUTH), (ENOTCONN, .DBR_ERR_NOCONNECT), (ENOTSUP, .DBR_ERR_NOTIMPL),
    (ENOSYS, .DBR_ERR_NOTIMPL), (EBADMSG, .DBR_ERR_INVALIDOP), (ENOMSG, .DBR_ERR_BE_POST),
    (EPROTO, .DBR_ERR_BE_PROTO) ]

/-! ## Helpers for stating the properties -/

/-- Source memory holding the given bytes from address 0 on. -/
def mem_of (bs : List Nat) : Nat → Nat := fun a => bs.getD a 0


/-- The array `a` after the lengths `w` have been stored, in order, into the
`iov_len` fields of the entries `i`, `i + 1`, ... -/
def write_lens : Nat → List dbBE_sge_t → List Nat → List dbBE_sge_t
  | _, a, [] => a
  | i, a, l :: w => write_lens (i + 1) (a.set i { a.getD i default with iov_len := l }) w

/-- The caller's SGE array after one more call of `dbBE_SGE_extract_header`
on the first `k` bytes of the buffer `B`, the array `a` being passed as
`sge_in` with `*sge_out` pointing to it, as `dbBE_SGE_deserialize` does. -/
def retry (calloc_ok : Bool) (sge_count : Int) (B : List Nat) (a : List dbBE_sge_t) (k : Nat) :
    List dbBE_sge_t :=
  (dbBE_SGE_extract_header calloc_ok (some a) sge_count (some (B.take k)) k
    (some (some a)) (some 0)).sge_out.getD a

/-- The serialized form of the one-element list `["abcd"]`, without the
terminating `'\0'`: the text `"4\n1\n4\nabcd\n"`. -/
def sample_wire : List Nat := [52, 10, 49, 10, 52, 10, 97, 98, 99, 100, 10]

/-- The bytes of the element `e` in the source memory `src`. -/
def payload (src : Nat → Nat) (e : dbBE_sge_t) : List Nat :=
  (List.range e.iov_len).map (fun k => src (e.iov_base + k))

/-- Wire format, the two header lines as the specification words them: the
decimal of the sum of the lengths, `'\n'`, the decimal of the count, `'\n'`. -/
def wire_header (S : List dbBE_sge_t) : List Nat :=
  dec (S.map (fun e => e.iov_len)).sum ++ [10] ++ dec S.length ++ [10]

/-- Wire format, the length lines: each `len_i` in decimal followed by `'\n'`. -/
def wire_lens (S : List dbBE_sge_t) : List Nat :=
  (S.map (fun e => dec e.iov_len ++ [10])).flatten

/-- Wire format, the payload region: each payload followed by one `'\n'`. -/
def wire_payloads (src : Nat → Nat) (S : List dbBE_sge_t) : List Nat :=
  (S.map (fun e => payload src e ++ [10])).flatten

/-- Wire format of the specification, without the terminating `'\0'`. -/
def wire (src : Nat → Nat) (S : List dbBE_sge_t) : List Nat :=
  wire_header S ++ wire_lens S ++ wire_payloads src S

/-- Invariant of the serializer: the text `pre` has been written at the
start of the buffer, the locals `data`, `space` and `total` account for it,
and no byte before the buffer or behind the text and one more byte differs
from the initial memory `m0`. -/
def ser_inv (m0 : Int → Nat) (space : Nat) (pre : List Nat) (s : ser_state) : Prop :=
  s.pos = pre.length ∧ s.space = space - pre.length ∧ s.total = pre.length ∧
  (∀ k : Nat, k < pre.length → s.mem k = pre.getD k 0) ∧
  (∀ a : Int, a < 0 ∨ (pre.length : Int) < a → s.mem a = m0 a)

/-- The statements of `dbBE_SGE_extract_header` behind its length loop, as
a function of the header's count and of what the loop left: the value of an
early `return`, `-EAGAIN` for exhausted data, the count otherwise. -/
def extract_tail (i_sge_count : Int) (r : Option Int × hdr_state) : extract_result :=
  match r.1 with
  | some e => ⟨e, some r.2.sge, r.2.parsed⟩
  | none =>
    if (r.2.i : Int) < i_sge_count ∧ r.2.space < 1 then ⟨-EAGAIN, some r.2.sge, r.2.parsed⟩
    else ⟨i_sge_count, some r.2.sge, r.2.parsed⟩

/-- The array `dbBE_SGE_extract_header` works on for a header of `n`
elements: the caller's, or `n` zeroed entries from `calloc`. -/
def work_array (sge_in : Option (List dbBE_sge_t)) (n : Nat) : List dbBE_sge_t :=
  match sge_in with
  | some a => a
  | none => List.replicate n ⟨0, 0⟩

/-! ## Requests, completions and request contexts -/

/-- Modelled from the spec: the enumeration `dbBE_Opcode` of `dbbe_api.h`, a
header that is not among the sources.  The opcodes are the ones the spec and
the sources name; `DBBE_OPCODE_other` stands for any further value the field
`_opcode` may hold. -/
inductive dbBE_Opcode where
  | DBBE_OPCODE_UNSPEC
  | DBBE_OPCODE_PUT
  | DBBE_OPCODE_GET
  | DBBE_OPCODE_READ
  | DBBE_OPCODE_MOVE
  | DBBE_OPCODE_REMOVE
  | DBBE_OPCODE_DIRECTORY
  | DBBE_OPCODE_NSCREATE
  | DBBE_OPCODE_NSATTACH
  | DBBE_OPCODE_NSDETACH
  | DBBE_OPCODE_NSDELETE
  | DBBE_OPCODE_NSQUERY
  | DBBE_OPCODE_NSADDUNITS
  | DBBE_OPCODE_NSREMOVEUNITS
  | DBBE_OPCODE_ITERATOR
  | DBBE_OPCODE_other (code : Nat)
deriving DecidableEq, Repr

/-- Modelled from the spec: the request flags.  The spec recognizes one
flag, `PARTIAL` (accept a truncated GET); its bit is defined in a header
that is not among the sources, so the record tells whether the flag is set. -/
structure DBR_Flags_t where
  DBR_FLAGS_PARTIAL : Bool
deriving DecidableEq, Repr

/-- Modelled from the spec: the fields of `dbBE_Request_t` (declared in
`dbbe_api.h`, not among the sources) that the completion code reads or the
claims name: opcode, user pointer, SGE list and flags.  A pointer is an
address, 0 for NULL. -/
structure dbBE_Request_t where
  _opcode : dbBE_Opcode
  _user : Nat
  _flags : DBR_Flags_t
  _sge_count : Int
  _sge : List dbBE_sge_t
deriving DecidableEq, Repr

/-- Modelled from the spec: `dbBE_Completion_t` (declared in `dbbe_api.h`):
the `int64_t` return code, the status and the user pointer. -/
structure dbBE_Completion_t where
  _rc : Int
  _status : DBR_Errorcode_t
  _user : Nat
deriving DecidableEq, Repr

/-- Modelled from the spec: the status of a request context, pending or
ready (`dbrSTATUS_READY` is named by the sources). -/
inductive dbrRequest_status_t where
  | dbrSTATUS_PENDING
  | dbrSTATUS_READY
deriving DecidableEq, Repr

/-- Modelled from the spec: the fields of `dbrRequestContext_t` (declared in
`libdatabroker_int.h`, not among the sources) that the completion code uses:
the request, the stored completion, the pointer `_rc` to the caller's return
value (`none` for NULL, else the value of the cell it points to) and the
status. -/
structure dbrRequestContext_t where
  _req : dbBE_Request_t
  _cpl : dbBE_Completion_t
  _rc : Option Int
  _status : dbrRequest_status_t
deriving DecidableEq, Repr

/-- Modelled from the spec: the numeric value of an error code, its position
in the stable numeric order of the spec (`DBR_SUCCESS` is 0). -/
def errorcode_value (c : DBR_Errorcode_t) : Int := (c.toCtorIdx : Nat)

/-- Modelled from the spec: `dbrSGE_extract_size`, a function of
`libdatabroker_int.h` that is not among the sources; the spec gives its
value, `rsize` = the sum of the `len_i` of the request SGE. -/
def dbrSGE_extract_size (req : dbBE_Request_t) : Int :=
  ((req._sge.map (fun (e : dbBE_sge_t) => e.iov_len)).sum : Nat)

/-! ## `dbrCheck_response` -/

/-- Result of `dbrCheck_response`: the returned code and the request context
after the call (`none` when the pointer was NULL). -/
structure check_result where
  ret : DBR_Errorcode_t
  rctx : Option dbrRequestContext_t
deriving DecidableEq, Repr

open DBR_Errorcode_t in
/-- The statements of the `case DBBE_OPCODE_GET:` label of `dbrCheck_response`
(the `case DBBE_OPCODE_DIRECTORY:` label repeats them), entered with the local
`rc` holding the code `rc`; the READ case falls through into them. -/
def check_get (rsize : Int) (rc : DBR_Errorcode_t) (x : dbrRequestContext_t) : check_result :=
  let rc1 := if rsize < x._cpl._rc then DBR_ERR_UBUFFER else rc
  if x._cpl._status = DBR_SUCCESS then
    if x._cpl._rc < 0 then ⟨DBR_ERR_INVALID, some x⟩
    else
      match x._rc with
      | some _ => ⟨rc1, some { x with _rc := some x._cpl._rc }⟩
      | none => ⟨rc1, some x⟩
  else ⟨x._cpl._status, some x⟩

open DBR_Errorcode_t dbBE_Opcode in
/-- The function `dbrCheck_response`.  The argument is `none` for a NULL
pointer. -/
def dbrCheck_response (rctx : Option dbrRequestContext_t) : check_result :=
  match rctx with
  | none => ⟨DBR_ERR_INVALID, none⟩
  | some x =>
    let rsize : Int := dbrSGE_extract_size x._req
    if x._req._opcode ≠ DBBE_OPCODE_READ ∧ x._cpl._rc < 0 then
      ⟨dbrMapErrno_to_errorcode (-(errorcode_value x._cpl._status)), some x⟩
    else
      match x._req._opcode with
      | DBBE_OPCODE_PUT =>
        ⟨if x._cpl._rc < 1 then DBR_ERR_UBUFFER else DBR_SUCCESS, some x⟩
      | DBBE_OPCODE_READ =>
        if x._cpl._rc < 0 then
          check_get rsize DBR_ERR_UNAVAIL { x with _cpl := { x._cpl with _rc := 0 } }
        else check_get rsize DBR_SUCCESS x
      | DBBE_OPCODE_GET => check_get rsize DBR_SUCCESS x
      | DBBE_OPCODE_DIRECTORY => check_get rsize DBR_SUCCESS x
      | DBBE_OPCODE_MOVE => ⟨DBR_SUCCESS, some x⟩
      | DBBE_OPCODE_REMOVE => ⟨x._cpl._status, some x⟩
      | DBBE_OPCODE_NSCREATE =>
        ⟨if x._cpl._rc ≠ 0 then x._cpl._status else DBR_SUCCESS, some x⟩
      | DBBE_OPCODE_NSADDUNITS =>
        ⟨if x._cpl._rc ≠ 0 then x._cpl._status else DBR_SUCCESS, some x⟩
      | DBBE_OPCODE_NSREMOVEUNITS =>
        ⟨if x._cpl._rc ≠ 0 then x._cpl._status else DBR_SUCCESS, some x⟩
      | DBBE_OPCODE_NSATTACH =>
        ⟨if x._cpl._rc ≤ 0 then x._cpl._status else DBR_SUCCESS, some x⟩
      | DBBE_OPCODE_NSDETACH =>
        ⟨if x._cpl._rc ≤ 0 then x._cpl._status else DBR_SUCCESS, some x⟩
      | DBBE_OPCODE_NSDELETE =>
        if x._cpl._rc ≠ 0 then
          if x._cpl._status = DBR_SUCCESS then ⟨DBR_ERR_BE_GENERAL, some x⟩
          else ⟨x._cpl._status, some x⟩
        else ⟨DBR_SUCCESS, some x⟩
      | DBBE_OPCODE_NSQUERY =>
        ⟨if rsize < x._cpl._rc ∨ x._cpl._rc = 0 then DBR_ERR_UBUFFER else DBR_SUCCESS, some x⟩
      | _ => ⟨DBR_ERR_INVALIDOP, some x⟩

/-! ## `dbrProcess_completion` and `dbrTest_request` -/

/-- The request contexts in memory: the context found at each address. -/
abbrev ctx_heap := Nat → dbrRequestContext_t

/-- The memory after the context at address `a` has been replaced by `v`. -/
def heap_set (h : ctx_heap) (a : Nat) (v : dbrRequestContext_t) : ctx_heap :=
  fun b => if b = a then v else h b

/-- Result of a function that works on request contexts through pointers:
the returned code and the memory after the call. -/
structure heap_result where
  ret : DBR_Errorcode_t
  heap : ctx_heap

open DBR_Errorcode_t dbrRequest_status_t in
/-- The function `dbrProcess_completion`.  `rctx` is the address of the
request context (0 for NULL), `compl` the completion (`none` for NULL). -/
def dbrProcess_completion (h : ctx_heap) (rctx : Nat) (compl : Option dbBE_Completion_t) :
    heap_result :=
  match compl with
  | none => ⟨DBR_ERR_INVALID, h⟩
  | some c =>
    if rctx = 0 then ⟨DBR_ERR_INVALID, h⟩
    else if c._user ≠ rctx then ⟨DBR_ERR_HANDLE, h⟩
    else if c._rc = -ENOENT then
      ⟨DBR_SUCCESS, heap_set h rctx
        { h rctx with
          _cpl := { (h rctx)._cpl with _rc := -1, _status := DBR_ERR_UNAVAIL }
          _status := dbrSTATUS_READY }⟩
    else if c._rc = -ENOTCONN then
      ⟨DBR_SUCCESS, heap_set h rctx
        { h rctx with
          _cpl := { (h rctx)._cpl with _rc := -1, _status := DBR_ERR_NOCONNECT }
          _status := dbrSTATUS_READY }⟩
    else
      ⟨DBR_SUCCESS, heap_set h rctx
        { h rctx with
          _cpl := { (h rctx)._cpl with _rc := c._rc, _status := c._status }
          _status := dbrSTATUS_READY }⟩

/-- Modelled from the spec: the field of `dbrName_space_t` that
`dbrTest_request` reads, the backend context handed to `test_any`. -/
structure dbrName_space_t where
  _be_ctx : Nat
deriving DecidableEq, Repr

open DBR_Errorcode_t dbrRequest_status_t in
/-- The function `dbrTest_request`.  `cs` is `none` for a NULL pointer,
`req_rctx` the address of the target context.  Two things the sources do not
hold are parameters: `req_offset`, the offset of the field `_req` in
`dbrRequestContext_t` (the test `request == NULL` is on `&req_rctx->_req`),
and `test_any`, the answer of the backend's `g_dbBE.test_any` for a backend
context in this call (`none` for NULL). -/
def dbrTest_request (req_offset : Nat) (test_any : Nat → Option dbBE_Completion_t)
    (h : ctx_heap) (cs : Option dbrName_space_t) (req_rctx : Nat) : heap_result :=
  match cs with
  | none => ⟨DBR_ERR_INVALID, h⟩
  | some ns =>
    if req_rctx + req_offset = 0 then ⟨DBR_ERR_NSINVAL, h⟩
    else
      match test_any ns._be_ctx with
      | some c =>
        if c._user = 0 then ⟨DBR_ERR_BE_GENERAL, h⟩
        else
          let h1 := (dbrProcess_completion h c._user (some c)).heap
          ⟨if (h1 req_rctx)._status = dbrSTATUS_READY then (h1 req_rctx)._cpl._status
            else DBR_ERR_INPROGRESS, h1⟩
      | none =>
        ⟨if (h req_rctx)._status = dbrSTATUS_READY then (h req_rctx)._cpl._status
          else DBR_ERR_INPROGRESS, h⟩

/-- A request context as the completion test of the sources builds its
request: one SGE of 126 bytes; opcode, flag, stored completion, return-value
cell and status as given. -/
def sample_rctx (op : dbBE_Opcode) (flag : Bool) (rc : Int) (st : DBR_Errorcode_t)
    (out : Option Int) (status : dbrRequest_status_t) : dbrRequestContext_t :=
  { _req := { _opcode := op, _user := 0, _flags := ⟨flag⟩, _sge_count := 1, _sge := [⟨0, 126⟩] }
    _cpl := { _rc := rc, _status := st, _user := 0 }
    _rc := out
    _status := status }

/-- A heap in which every address holds the same request context. -/
def sample_heap (x : dbrRequestContext_t) : ctx_heap := fun _ => x

/-- A heap with the request context `x` at address 8 and the request context
`y` at every other address. -/
def sample_heap2 (x y : dbrRequestContext_t) : ctx_heap :=
  fun a => if a = 8 then x else y


/-! ## `dbrWait_request` -/

/-- The two fields of a `struct timeval`. -/
structure timeval where
  tv_sec : Int
  tv_usec : Int
deriving DecidableEq, Repr

/-- The state that `dbrWait_request` carries from one pass of its loop to the
next: the heap of request contexts, the locals `start_time`, `elapsed.tv_sec`
and `timeloops`, and the number of `gettimeofday` calls made so far. -/
structure wait_state where
  heap : ctx_heap
  start_time : timeval
  elapsed_sec : Int
  timeloops : Nat
  clock_calls : Nat

/-- The statement `elapsed.tv_sec = (now - start_time) in microseconds;
elapsed.tv_sec /= 1e6`.  The sources compute in `double`; the model computes
in integers, which agrees as long as the microsecond values are below `2^53`
(the conversion back to `time_t` truncates towards zero). -/
def elapsed_seconds (now start : timeval) : Int :=
  Int.tdiv (to_long ((now.tv_sec * 1000000 + now.tv_usec)
    - (start.tv_sec * 1000000 + start.tv_usec))) 1000000

open DBR_Errorcode_t in
/-- One pass through the body of the `do` loop of `dbrWait_request`: the poll
with `dbrTest_request` and, under `rc == DBR_ERR_INPROGRESS && enable_timeout`,
the count of `timeloops` (a `uint64_t`) and the clock reading on every
65536th count.  `test_any` is the answer of the backend in this pass, `clock`
gives the result of the k-th call of `gettimeofday`. -/
def wait_pass (req_offset : Nat) (test_any : Nat → Option dbBE_Completion_t)
    (clock : Nat → timeval) (cs : dbrName_space_t) (hdl : Nat) (enable_timeout : Int)
    (st : wait_state) : DBR_Errorcode_t × wait_state :=
  let r := dbrTest_request req_offset test_any st.heap (some cs) hdl
  if r.ret = DBR_ERR_INPROGRESS ∧ enable_timeout ≠ 0 then
    let timeloops := (st.timeloops + 1) % 18446744073709551616
    if timeloops % 65536 = 0 then
      let now := clock st.clock_calls
      let start_time := if st.start_time.tv_sec = 0 then now else st.start_time
      (r.ret, { heap := r.heap, start_time := start_time,
                elapsed_sec := elapsed_seconds now start_time,
                timeloops := timeloops, clock_calls := st.clock_calls + 1 })
    else (r.ret, { st with heap := r.heap, timeloops := timeloops })
  else (r.ret, { st with heap := r.heap })

open DBR_Errorcode_t in
/-- The `do ... while` loop of `dbrWait_request`, from pass `i` on.  `backend i`
is the answer of `g_dbBE.test_any` in pass `i`; `timeout_sec` is
`cs->_reverse->_config._timeout_sec`.  The loop of the sources has no bound;
`fuel` bounds the number of passes of the model, `none` means the fuel ran
out. -/
def dbrWait_loop (req_offset : Nat) (backend : Nat → Nat → Option dbBE_Completion_t)
    (clock : Nat → timeval) (timeout_sec : Int) (cs : dbrName_space_t) (hdl : Nat)
    (enable_timeout : Int) : Nat → Nat → wait_state → Option heap_result
  | 0, _, _ => none
  | fuel + 1, i, st =>
    let r := wait_pass req_offset (backend i) clock cs hdl enable_timeout st
    if r.1 = DBR_ERR_INPROGRESS ∧ r.2.elapsed_sec < timeout_sec then
      dbrWait_loop req_offset backend clock timeout_sec cs hdl enable_timeout fuel (i + 1) r.2
    else some ⟨r.1, r.2.heap⟩

/-- The locals of `dbrWait_request` before the first pass. -/
def wait_start (h : ctx_heap) : wait_state :=
  { heap := h, start_time := ⟨0, 0⟩, elapsed_sec := 0, timeloops := 0, clock_calls := 0 }

open DBR_Errorcode_t in
/-- The function `dbrWait_request`.  `cs` is `none` for a NULL pointer, `hdl`
is the address of the request context (0 for NULL). -/
def dbrWait_request (req_offset : Nat) (backend : Nat → Nat → Option dbBE_Completion_t)
    (clock : Nat → timeval) (timeout_sec : Int) (fuel : Nat) (h : ctx_heap)
    (cs : Option dbrName_space_t) (hdl : Nat) (enable_timeout : Int) : Option heap_result :=
  match cs with
  | none => some ⟨DBR_ERR_INVALID, h⟩
  | some ns =>
    if hdl = 0 then some ⟨DBR_ERR_INVALID, h⟩
    else dbrWait_loop req_offset backend clock timeout_sec ns hdl enable_timeout fuel 0
      (wait_start h)

/-- The state of `dbrWait_request` after `i` passes of its loop. -/
def wait_after (req_offset : Nat) (backend : Nat → Nat → Option dbBE_Completion_t)
    (clock : Nat → timeval) (cs : dbrName_space_t) (hdl : Nat) (enable_timeout : Int)
    (h : ctx_heap) : Nat → wait_state
  | 0 => wait_start h
  | i + 1 =>
    (wait_pass req_offset (backend i) clock cs hdl enable_timeout
      (wait_after req_offset backend clock cs hdl enable_timeout h i)).2

/-- The result of the poll in pass `i` of the loop of `dbrWait_request`. -/
def wait_poll (req_offset : Nat) (backend : Nat → Nat → Option dbBE_Completion_t)
    (clock : Nat → timeval) (cs : dbrName_space_t) (hdl : Nat) (enable_timeout : Int)
    (h : ctx_heap) (i : Nat) : DBR_Errorcode_t :=
  (wait_pass req_offset (backend i) clock cs hdl enable_timeout
    (wait_after req_offset backend clock cs hdl enable_timeout h i)).1

/-- A clock that reads 100 s at the first call and 105 s at every later
call. -/
def sample_clock (k : Nat) : timeval := if k = 0 then ⟨100, 0⟩ else ⟨105, 0⟩


/-! ## The locator connection list -/

/-- The errno value `EALREADY` of Linux. -/
def EALREADY : Int := 114

/-- The macro `DBBE_REDIS_CONN_LIST_SIZE_GRANULARITY`. -/
def DBBE_REDIS_CONN_LIST_SIZE_GRANULARITY : Int := 5

/-- The macro `DBBE_REDIS_CONNECTION_INDEX_INVALID`, the value
`DBBE_REDIS_MAX_CONNECTIONS + 1`.  The bound `DBBE_REDIS_MAX_CONNECTIONS` and
the type `dbBE_Redis_connection_index_t` come from `definitions.h`, which is
not among the sources: the bound is a parameter of the model and an index is a
natural number (the test of the sources needs the invalid index to be above
the bound, so the cast does not wrap). -/
def DBBE_REDIS_CONNECTION_INDEX_INVALID (DBBE_REDIS_MAX_CONNECTIONS : Nat) : Nat :=
  DBBE_REDIS_MAX_CONNECTIONS + 1

/-- The type `dbBE_Redis_locator_connection_list_t`.  `_connections` is `none`
for a NULL pointer; otherwise it gives the cells from the address of the array
on, by index.  The cells with an index from `_size` on lie behind the allocated
block.  The counters are `int` in the sources; the model does not wrap them
(signed overflow is undefined). -/
structure dbBE_Redis_locator_connection_list_t where
  _connections : Option (Int → Nat)
  _active : Int
  _size : Int

/-- Return value of a call and the list behind the pointer `lcl` after it
(`none` for a NULL pointer). -/
structure lcl_result where
  ret : Int
  lcl : Option dbBE_Redis_locator_connection_list_t

/-- The cells `c` after the assignment `c[ n ] = v`. -/
def cell_set (c : Int → Nat) (n : Int) (v : Nat) : Int → Nat :=
  fun a => if a = n then v else c a

/-- The function `dbBE_Redis_locator_connection_list_init`. -/
def dbBE_Redis_locator_connection_list_init
    (lcl : Option dbBE_Redis_locator_connection_list_t) : lcl_result :=
  match lcl with
  | none => ⟨-EINVAL, none⟩
  | some _ => ⟨0, some { _connections := none, _active := 0, _size := 0 }⟩

/-- The function `dbBE_Redis_locator_connection_list_reset`: it frees the
array and initialises the list. -/
def dbBE_Redis_locator_connection_list_reset
    (lcl : Option dbBE_Redis_locator_connection_list_t) : lcl_result :=
  match lcl with
  | none => ⟨-EINVAL, none⟩
  | some l => dbBE_Redis_locator_connection_list_init (some l)

/-- First loop of `dbBE_Redis_locator_connection_list_append`: `true` when
`c[ n ] == index` for a visited `n`, which returns `-EALREADY`.  `k` counts the
passes still to make. -/
def append_find (c : Int → Nat) (index : Nat) : Nat → Int → Bool
  | 0, _ => false
  | k + 1, n => if c n = index then true else append_find c index k (n + 1)

/-- Second loop of `dbBE_Redis_locator_connection_list_append`:
`c[ n ] = DBBE_REDIS_CONNECTION_INDEX_INVALID` for `n` up to `_size`.  `k`
counts the passes still to make. -/
def append_fill (v : Nat) : Nat → Int → (Int → Nat) → (Int → Nat)
  | 0, _, c => c
  | k + 1, n, c => append_fill v k (n + 1) (cell_set c n v)

/-- The function `dbBE_Redis_locator_connection_list_append`.  `lcl` is `none`
for a NULL pointer.  `malloc` is the outcome of the call of `malloc` in the
growing branch: `none` for NULL, otherwise the cells of the new block as
`malloc` hands them out.  The result is `none` when the call reads or writes
through a NULL array (or copies a negative number of cells), where the
program has no result.  A store to a cell behind the block is carried out on
the cells. -/
def dbBE_Redis_locator_connection_list_append (DBBE_REDIS_MAX_CONNECTIONS : Nat)
    (malloc : Option (Int → Nat)) (lcl : Option dbBE_Redis_locator_connection_list_t)
    (index : Nat) : Option lcl_result :=
  match lcl with
  | none => some ⟨-EINVAL, none⟩
  | some l =>
    if index > DBBE_REDIS_MAX_CONNECTIONS then some ⟨-EINVAL, some l⟩
    else
      match l._connections with
      | none =>
        if 0 < l._active then none
        else if l._active < l._size then none
        else
          match malloc with
          | none =>
            some ⟨-ENOMEM, some { _connections := none, _active := l._active,
                                  _size := l._size + DBBE_REDIS_CONN_LIST_SIZE_GRANULARITY }⟩
          | some fresh =>
            if l._active < 0 then none
            else
              let size := l._size + DBBE_REDIS_CONN_LIST_SIZE_GRANULARITY
              let c := append_fill (DBBE_REDIS_CONNECTION_INDEX_INVALID DBBE_REDIS_MAX_CONNECTIONS)
                (size - l._active).toNat l._active fresh
              some ⟨0, some { _connections := some (cell_set c l._active index),
                              _active := l._active + 1, _size := size }⟩
      | some tmp =>
        if append_find tmp index l._active.toNat 0 then some ⟨-EALREADY, some l⟩
        else if l._active < l._size then
          let c := cell_set tmp l._size index
          let active := l._active + 1
          some ⟨0, some { _connections := some (cell_set c active index),
                          _active := active + 1, _size := l._size }⟩
        else
          let size := l._size + DBBE_REDIS_CONN_LIST_SIZE_GRANULARITY
          match malloc with
          | none => some ⟨-ENOMEM, some { _connections := none, _active := l._active,
                                          _size := size }⟩
          | some fresh =>
            if l._active < 0 then none
            else
              let copied : Int → Nat := fun a => if 0 ≤ a ∧ a < l._active then tmp a else fresh a
              let c := append_fill (DBBE_REDIS_CONNECTION_INDEX_INVALID DBBE_REDIS_MAX_CONNECTIONS)
                (size - l._active).toNat l._active copied
              some ⟨0, some { _connections := some (cell_set c l._active index),
                              _active := l._active + 1, _size := size }⟩

/-- Loop of `dbBE_Redis_locator_connection_list_remove`: `shift` becomes 1 at
the first `n` with `c[ n ] == index`, and `c[ n ] = c[ n + shift ]` in every
pass.  `k` counts the passes still to make. -/
def remove_loop (index : Nat) : Nat → Int → Int → (Int → Nat) → Int × (Int → Nat)
  | 0, _, shift, c => (shift, c)
  | k + 1, n, shift, c =>
    let shift1 := if c n = index then 1 else shift
    remove_loop index k (n + 1) shift1 (cell_set c n (c (n + shift1)))

/-- The function `dbBE_Redis_locator_connection_list_remove`.  The result is
`none` when the loop reads through a NULL array.  A read of the cell behind
the block gives what the cells hold there. -/
def dbBE_Redis_locator_connection_list_remove (DBBE_REDIS_MAX_CONNECTIONS : Nat)
    (lcl : Option dbBE_Redis_locator_connection_list_t) (index : Nat) : Option lcl_result :=
  match lcl with
  | none => some ⟨-EINVAL, none⟩
  | some l =>
    if index > DBBE_REDIS_MAX_CONNECTIONS then some ⟨-EINVAL, some l⟩
    else
      match l._connections with
      | none => if 0 < l._active then none else some ⟨-ENOENT, some l⟩
      | some c =>
        let r := remove_loop index l._active.toNat 0 0 c
        some ⟨if r.1 = 0 then -ENOENT else 0, some { l with _connections := some r.2 }⟩

/-- The function `dbBE_Redis_locator_connection_list_get_size`. -/
def dbBE_Redis_locator_connection_list_get_size
    (lcl : Option dbBE_Redis_locator_connection_list_t) : Int :=
  match lcl with
  | none => 0
  | some l => l._size

/-- The function `dbBE_Redis_locator_connection_list_get_active`. -/
def dbBE_Redis_locator_connection_list_get_active
    (lcl : Option dbBE_Redis_locator_connection_list_t) : Int :=
  match lcl with
  | none => 0
  | some l => l._active

/-- The function `dbBE_Redis_locator_connection_list_get_first`.  The result
is `none` when the call reads through a NULL array. -/
def dbBE_Redis_locator_connection_list_get_first (DBBE_REDIS_MAX_CONNECTIONS : Nat)
    (lcl : Option dbBE_Redis_locator_connection_list_t) : Option Nat :=
  match lcl with
  | none => some (DBBE_REDIS_CONNECTION_INDEX_INVALID DBBE_REDIS_MAX_CONNECTIONS)
  | some l =>
    match l._connections with
    | none => none
    | some c => some (c 0)


/-- The list that `dbBE_Redis_locator_connection_list_init` leaves behind. -/
def lcl_initial : dbBE_Redis_locator_connection_list_t :=
  { _connections := none, _active := 0, _size := 0 }

/-- The first `k` cells of the array of a list, none for a NULL array. -/
def lcl_cells (l : dbBE_Redis_locator_connection_list_t) (k : Nat) : List Nat :=
  match l._connections with
  | none => []
  | some c => (List.range k).map (fun (n : Nat) => c (Int.ofNat n))

/-- A call of `append` (with the outcome of `malloc`, should the call reach
it) or of `remove`. -/
inductive lcl_call where
  | append (index : Nat) (malloc : Option (Int → Nat))
  | remove (index : Nat)

/-- One call on a list. -/
def lcl_step (DBBE_REDIS_MAX_CONNECTIONS : Nat) (call : lcl_call)
    (l : dbBE_Redis_locator_connection_list_t) : Option lcl_result :=
  match call with
  | lcl_call.append index malloc =>
    dbBE_Redis_locator_connection_list_append DBBE_REDIS_MAX_CONNECTIONS malloc (some l) index
  | lcl_call.remove index =>
    dbBE_Redis_locator_connection_list_remove DBBE_REDIS_MAX_CONNECTIONS (some l) index

/-- A sequence of calls on a list: the return values and the list after the
last call, `none` when one of the calls has no result. -/
def lcl_run (DBBE_REDIS_MAX_CONNECTIONS : Nat) :
    List lcl_call → dbBE_Redis_locator_connection_list_t →
      Option (List Int × dbBE_Redis_locator_connection_list_t)
  | [], l => some ([], l)
  | call :: rest, l =>
    match lcl_step DBBE_REDIS_MAX_CONNECTIONS call l with
    | none => none
    | some r =>
      match r.lcl with
      | none => none
      | some l1 =>
        match lcl_run DBBE_REDIS_MAX_CONNECTIONS rest l1 with
        | none => none
        | some p => some (r.ret :: p.1, p.2)

/-- The members of a list in the order of insertion, in the words of the
spec: an append puts an index that is not a member behind the others, a remove
takes the index out. -/
def spec_members : List lcl_call → List Nat → List Nat
  | [], m => m
  | lcl_call.append index _ :: rest, m =>
    spec_members rest (if index ∈ m then m else m ++ [index])
  | lcl_call.remove index :: rest, m => spec_members rest (m.erase index)

/-- A bound on the connection index for the examples. -/
def sample_max : Nat := 1024

/-- A block as `malloc` may hand it out: every cell holds 0. -/
def sample_block : Int → Nat := fun _ => 0

/-- The list with the one member 2: five cells, the four behind the member
hold the invalid index. -/
def sample_lcl : dbBE_Redis_locator_connection_list_t :=
  { _connections := some (fun a => if a = 0 then 2
      else DBBE_REDIS_CONNECTION_INDEX_INVALID sample_max),
    _active := 1, _size := 5 }

/-- What a call leaves behind, for inspection: the return value and, for the
list, `_active`, `_size` and the first `k` cells. -/
def lcl_view (r : Option lcl_result) (k : Nat) : Option (Int × Option (Int × Int × List Nat)) :=
  r.map (fun x => (x.ret, x.lcl.map (fun l => (l._active, l._size, lcl_cells l k))))

/-- What a sequence of calls leaves behind, for inspection: the return values
and, for the list, `_active`, `_size` and the first `k` cells. -/
def lcl_run_view (r : Option (List Int × dbBE_Redis_locator_connection_list_t)) (k : Nat) :
    Option (List Int × Int × Int × List Nat) :=
  r.map (fun p => (p.1, p.2._active, p.2._size, lcl_cells p.2 k))

/-- The size invariant of the locator list that the calls keep: the counters
are ordered, `_size` is a multiple of the granularity, and a list with an
array has an even number of cells behind the active prefix (an append on a
list that is not full moves `_active` by two). -/
def lcl_sized (l : dbBE_Redis_locator_connection_list_t) : Prop :=
  0 ≤ l._active ∧ l._active ≤ l._size ∧ 5 ∣ l._size ∧
    (l._connections.isSome = true → 2 ∣ (l._size - l._active))


/-! ## `dbrFShip_outbound` -/

/-- Modelled from the spec: the fields of `dbrFShip_request_ctx_t` of
`fship_srv.h`, a header that is not among the sources: the user pointer of the
client, the client context and the request, as addresses (0 for NULL). -/
structure dbrFShip_request_ctx_t where
  _user_in : Nat
  _cctx : Nat
  _req : Nat
deriving DecidableEq, Repr

/-- Modelled from the spec: the state of the forwarding server that
`dbrFShip_outbound` works on.  `rctxs` holds the request contexts by address,
`pending` the queue `_pending` of each client context by the address of the
client context, as the list of the addresses of its request contexts with
`_head` first; `total_pending` is `context->_total_pending` and `s_available`
the number of bytes of the send buffer that are not sent yet. -/
structure fship_state where
  rctxs : Nat → dbrFShip_request_ctx_t
  pending : Nat → List Nat
  total_pending : Int
  s_available : Int

/-- The function `dbrFShip_outbound`.  `comp` is the answer of
`g_dbBE.test_any` (`none` for NULL), `serlen` the result of
`dbBE_Completion_serialize` and `sent` the result of `send`, should the call
reach them.  The `while` loop around `send` makes at most one pass, since
`sent` is not negative after a pass.  Modelled from the spec are the buffer
(`add_data` and `advance` move `s_available`) and the queue
(`dbrFShip_request_ctx_queue_pop` takes the head off).  The result is `none`
when `rctx->_cctx` is NULL, where the program has no result. -/
def dbrFShip_outbound (comp : Option dbBE_Completion_t) (serlen sent : Int) (s : fship_state) :
    Option (Int × fship_state) :=
  match comp with
  | none => some (0, s)
  | some c =>
    let rctx := c._user
    if rctx = 0 then some (-EPROTO, s)
    else if serlen < 0 then some (to_int serlen, s)
    else
      let available := s.s_available + serlen
      if 0 < available ∧ sent < 0 then some (-1, { s with s_available := available })
      else
        let available1 := if 0 < available then available - sent else available
        let cctx := (s.rctxs rctx)._cctx
        if cctx = 0 then none
        else
          let rctxs1 : Nat → dbrFShip_request_ctx_t :=
            fun a => if a = rctx then ⟨0, 0, 0⟩ else s.rctxs a
          let pending1 : Nat → List Nat :=
            if (s.pending cctx).head? = some rctx then
              fun a => if a = cctx then (s.pending cctx).tail else s.pending a
            else s.pending
          some (0, { rctxs := rctxs1, pending := pending1,
                     total_pending := s.total_pending - 1, s_available := available1 })

/-- A server state with one client context at address 8 whose pending queue
holds the request contexts at 16 and 24, in this order. -/
def sample_fship : fship_state :=
  { rctxs := fun a => if a = 16 then ⟨1, 8, 100⟩ else if a = 24 then ⟨2, 8, 200⟩ else ⟨0, 0, 0⟩,
    pending := fun a => if a = 8 then [16, 24] else [],
    total_pending := 2, s_available := 0 }


/-- A full list of five cells that hold 10 to 14; the cells behind the block
hold `behind`. -/
def sample_full_lcl (behind : Nat) : dbBE_Redis_locator_connection_list_t :=
  { _connections := some (fun a => if 0 ≤ a ∧ a < 5 then 10 + a.toNat else behind),
    _active := 5, _size := 5 }

/-! ## `dbrFShip_connection_wakeup` -/

/-- The value of the flag `EV_TIMEOUT` of libevent. -/
def EV_TIMEOUT : Nat := 1

/-- The value of the flag `EV_READ` of libevent. -/
def EV_READ : Nat := 2

/-- Modelled from the spec: the field of `dbrFShip_client_context_t` that
`dbrFShip_connection_wakeup` reads, the connection as an address (0 for
NULL). -/
structure dbrFShip_client_context_t where
  _conn : Nat
deriving DecidableEq, Repr

/-- Modelled from the spec: the fields of `dbrFShip_event_info_t`: the client
context behind `_cctx` and the ready queue behind `_queue` as the list of the
connections it holds, each `none` for a NULL pointer. -/
structure dbrFShip_event_info_t where
  _cctx : Option dbrFShip_client_context_t
  _queue : Option (List Nat)
deriving DecidableEq, Repr

/-- The message that `dbrFShip_connection_wakeup` logs last. -/
inductive wakeup_log where
  | null_argument
  | invalid_data
  | timeout_detected
  | activated
  | invalid_event
deriving DecidableEq, Repr

/-- What a call of `dbrFShip_connection_wakeup` leaves behind: the message it
logged last and the ready queue (`none` when there is none). -/
structure wakeup_result where
  log : wakeup_log
  queue : Option (List Nat)
deriving DecidableEq, Repr

/-- The function `dbrFShip_connection_wakeup`.  `arg` is `none` for a NULL
pointer; `ev_type` is a `short`, of which the two flag bits are tested.
`queue_push` is the effect of `dbBE_Connection_queue_push`, which is not among
the sources, on the queue.  The result is `none` when `info->_cctx` is NULL,
where the program has no result. -/
def dbrFShip_connection_wakeup (queue_push : List Nat → Nat → List Nat) (ev_type : Int)
    (arg : Option dbrFShip_event_info_t) : Option wakeup_result :=
  match arg with
  | none => some ⟨wakeup_log.null_argument, none⟩
  | some info =>
    match info._cctx with
    | none => none
    | some cctx =>
      match info._queue with
      | none => some ⟨wakeup_log.invalid_data, none⟩
      | some queue =>
        if cctx._conn = 0 then some ⟨wakeup_log.invalid_data, some queue⟩
        else
          let bits := (ev_type % 65536).toNat
          let log :=
            if bits &&& EV_TIMEOUT ≠ 0 ∧ bits &&& EV_READ = 0 then wakeup_log.timeout_detected
            else if bits &&& EV_READ ≠ 0 then wakeup_log.activated
            else wakeup_log.invalid_event
          some ⟨log, some (queue_push queue cctx._conn)⟩

/-- A push that puts the connection behind the others. -/
def sample_push (queue : List Nat) (conn : Nat) : List Nat := queue ++ [conn]

/-! # Properties -/

/-! ## Completion mapping -/

/-- C10: `dbrMapErrno_to_errorcode` equals the errno table on every integer:
a value the table lists is mapped to the code listed for it (and the table
lists no value twice with different codes), every value it does not list,
in particular every negative value, is mapped to `DBR_ERR_BE_GENERAL`. -/
theorem dbrMapErrno_to_errorcode_eq_table :
    (∀ rc c, (rc, c) ∈ errno_table → dbrMapErrno_to_errorcode rc = c) ∧
    (∀ rc, (∀ c, (rc, c) ∉ errno_table) →
      dbrMapErrno_to_errorcode rc = DBR_Errorcode_t.DBR_ERR_BE_GENERAL) ∧
    (∀ rc, rc < 0 → dbrMapErrno_to_errorcode rc = DBR_Errorcode_t.DBR_ERR_BE_GENERAL) := by
  refine ⟨?_, ?_, ?_⟩
  · intro rc c h
    simp only [errno_table, List.mem_cons, Prod.mk.injEq, List.mem_singleton, List.not_mem_nil,
      or_false] at h
    rcases h with h | h | h | h | h | h | h | h | h | h | h | h | h | h | h | h <;>
      (obtain ⟨h1, h2⟩ := h; subst h1; subst h2; decide)
  · intro rc h
    have h0 : rc ≠ 0 := fun e => h .DBR_SUCCESS (by subst e; decide)
    have h1 : rc ≠ EINVAL := fun e => h .DBR_ERR_INVALID (by subst e; decide)
    have h2 : rc ≠ EMSGSIZE := fun e => h .DBR_ERR_INVALID (by subst e; decide)
    have h3 : rc ≠ ETIMEDOUT := fun e => h .DBR_ERR_TIMEOUT (by subst e; decide)
    have h4 : rc ≠ ENODATA := fun e => h .DBR_ERR_UNAVAIL (by subst e; decide)
    have h5 : rc ≠ ENOENT := fun e => h .DBR_ERR_UNAVAIL (by subst e; decide)
    have h6 : rc ≠ EEXIST := fun e => h .DBR_ERR_EXISTS (by subst e; decide)
    have h7 : rc ≠ ENOMEM := fun e => h .DBR_ERR_NOMEMORY (by subst e; decide)
    have h8 : rc ≠ EBADF := fun e => h .DBR_ERR_NOFILE (by subst e; decide)
    have h9 : rc ≠ EPERM := fun e => h .DBR_ERR_NOAUTH (by subst e; decide)
    have h10 : rc ≠ ENOTCONN := fun e => h .DBR_ERR_NOCONNECT (by subst e; decide)
    have h11 : rc ≠ ENOTSUP := fun e => h .DBR_ERR_NOTIMPL (by subst e; decide)
    have h12 : rc ≠ ENOSYS := fun e => h .DBR_ERR_NOTIMPL (by subst e; decide)
    have h13 : rc ≠ EBADMSG := fun e => h .DBR_ERR_INVALIDOP (by subst e; decide)
    have h14 : rc ≠ ENOMSG := fun e => h .DBR_ERR_BE_POST (by subst e; decide)
    have h15 : rc ≠ EPROTO := fun e => h .DBR_ERR_BE_PROTO (by subst e; decide)
    simp [dbrMapErrno_to_errorcode, *]
  · intro rc h
    have e : ∀ k : Int, 0 ≤ k → rc ≠ k := fun k hk => by omega
    simp [dbrMapErrno_to_errorcode, e, EINVAL, EMSGSIZE, ETIMEDOUT, ENODATA, ENOENT, EEXIST,
      ENOMEM, EBADF, EPERM, ENOTCONN, ENOTSUP, ENOSYS, EBADMSG, ENOMSG, EPROTO]

/-! ## Failing inputs -/

/-- C3: with the list `["ab"]` (9 bytes before the terminator) and a space of
8 bytes, `dbBE_SGE_serialize` does not return `-E2BIG`: the unsigned `space`
wraps below zero in the payload loop, the call returns 9 and has written 10
bytes into the buffer of 8. -/
theorem serialize_space_8_returns_9 :
    (dbBE_SGE_serialize (mem_of [97, 98]) (some [⟨0, 2⟩]) 1 (some (fun _ => 255)) 8).ret = 9 ∧
    buffer_bytes (dbBE_SGE_serialize (mem_of [97, 98]) (some [⟨0, 2⟩]) 1
      (some (fun _ => 255)) 8).mem 11 = [50, 10, 49, 10, 50, 10, 97, 98, 10, 0, 255] := by
  decide

/-- C7: on the serialized form of `["abcd"]`, whose header declares a total
length of 4, `dbBE_SGE_deserialize` succeeds and returns 0, the initial value
of its local `total`, not 4. -/
theorem deserialize_abcd_returns_0 :
    dbBE_SGE_deserialize true (some [52, 10, 49, 10, 52, 10, 97, 98, 99, 100, 10]) 11
      (some none) (some 0)
    = ⟨0, [52, 10, 49, 10, 52, 10, 97, 98, 99, 100, 0], some [⟨6, 4⟩], []⟩ := by
  decide

/-- C9: the buffer `"4\n1\n4\nab"` of 8 bytes declares one element of 4
bytes but holds only 2 of the 5 bytes of its payload region;
`dbBE_SGE_deserialize` returns 0 with an element that reaches past the data
(its `'\0'` is stored at offset 10, outside the buffer), not `-E2BIG`. -/
theorem deserialize_short_payload_returns_0 :
    dbBE_SGE_deserialize true (some [52, 10, 49, 10, 52, 10, 97, 98]) 8 (some none) (some 0)
    = ⟨0, [52, 10, 49, 10, 52, 10, 97, 98], some [⟨6, 4⟩], [10]⟩ := by
  decide

/-! ## Decimal text -/

theorem dec_aux_eq : ∀ n f acc, n < f → dec_aux f n acc = dec n ++ acc := by
  intro n
  induction n using Nat.strong_induction_on with
  | _ n ih =>
    intro f acc hf
    obtain ⟨f, rfl⟩ : ∃ g, f = g + 1 := ⟨f - 1, by omega⟩
    by_cases h : n < 10
    · simp [dec, dec_aux, h]
    · have h1 : n / 10 < n := by omega
      have h2 : n / 10 < f := by omega
      rw [dec, dec_aux, dec_aux, if_neg h, if_neg h, ih _ h1 _ _ h2, ih _ h1 _ _ h1]
      simp

theorem dec_lt_ten (n : Nat) (h : n < 10) : dec n = [48 + n] := by
  simp [dec, dec_aux, h]

theorem dec_ge_ten (n : Nat) (h : ¬ n < 10) : dec n = dec (n / 10) ++ [48 + n % 10] := by
  rw [dec, dec_aux, if_neg h, dec_aux_eq _ _ _ (by omega)]

theorem dec_digits : ∀ n, ∀ c ∈ dec n, isdigit c = true := by
  intro n
  induction n using Nat.strong_induction_on with
  | _ n ih =>
    intro c hc
    by_cases h : n < 10
    · rw [dec_lt_ten n h] at hc
      simp at hc
      subst hc
      simp [isdigit]; omega
    · rw [dec_ge_ten n h] at hc
      simp at hc
      rcases hc with hc | hc
      · exact ih _ (by omega) c hc
      · subst hc
        simp [isdigit]; omega

theorem dec_ne_nil (n : Nat) : dec n ≠ [] := by
  by_cases h : n < 10
  · simp [dec_lt_ten n h]
  · simp [dec_ge_ten n h]

theorem digits_value_append (l : List Nat) (c : Nat) :
    digits_value (l ++ [c]) = digits_value l * 10 + (c - 48) := by
  simp [digits_value]

theorem digits_value_dec : ∀ n, digits_value (dec n) = n := by
  intro n
  induction n using Nat.strong_induction_on with
  | _ n ih =>
    by_cases h : n < 10
    · simp [dec_lt_ten n h, digits_value]
    · rw [dec_ge_ten n h, digits_value_append, ih _ (by omega)]
      omega

theorem dec_length_le : ∀ k n, n < 10 ^ (k + 1) → (dec n).length ≤ k + 1 := by
  intro k
  induction k with
  | zero => intro n h; simp [dec_lt_ten n (by simpa using h)]
  | succ k ih =>
    intro n h
    by_cases h10 : n < 10
    · simp [dec_lt_ten n h10]
    · rw [dec_ge_ten n h10]
      have : n / 10 < 10 ^ (k + 1) := by
        rw [Nat.div_lt_iff_lt_mul (by norm_num)]
        rw [pow_succ] at h; exact h
      have := ih _ this
      simp; omega

theorem dec_length_pos (n : Nat) : 0 < (dec n).length :=
  List.length_pos.mpr (dec_ne_nil n)

/-! ## Scanning a number -/

theorem isdigit_bounds {c : Nat} (h : isdigit c = true) : 48 ≤ c ∧ c ≤ 57 := by
  simpa [isdigit] using h

theorem isspace_of_isdigit {c : Nat} (h : isdigit c = true) : isspace c = false := by
  have := isdigit_bounds h
  simp [isspace]; omega

theorem scan_int_digits (d : Nat) (t rest : List Nat) (hd : ∀ c ∈ d :: t, isdigit c = true)
    (hr : rest.takeWhile isdigit = []) :
    scan_int (d :: t ++ rest) = conv.ok (sat_long (digits_value (d :: t))) (t.length + 1) := by
  have hd0 := isdigit_bounds (hd d (by simp))
  have hs : isspace d = false := isspace_of_isdigit (hd d (by simp))
  have h1 : (d :: t ++ rest).takeWhile isdigit = d :: t := by
    rw [List.takeWhile_append_of_pos hd, hr]; simp
  have h1' : (d :: (t ++ rest)).takeWhile isdigit = d :: t := by simpa using h1
  have h45 : d ≠ 45 := by omega
  have h43 : d ≠ 43 := by omega
  have h0 : d ≠ 0 := by omega
  simp [scan_int, hs, h45, h43, h0, h1']

theorem scan_int_dec (n : Nat) (rest : List Nat) (hr : rest.takeWhile isdigit = []) :
    scan_int (dec n ++ rest) = conv.ok (sat_long n) (dec n).length := by
  have hv := digits_value_dec n
  have hd := dec_digits n
  obtain ⟨d, t, e⟩ : ∃ d t, dec n = d :: t := by
    cases h : dec n with
    | nil => exact absurd h (dec_ne_nil n)
    | cons d t => exact ⟨d, t, rfl⟩
  rw [e] at hv hd ⊢
  rw [scan_int_digits d t rest hd hr, hv]
  simp

theorem scan_int_neg_dec (n : Nat) (rest : List Nat) (hr : rest.takeWhile isdigit = []) :
    scan_int (45 :: dec n ++ rest) = conv.ok (sat_long (-(n : Int))) ((dec n).length + 1) := by
  have hv := digits_value_dec n
  have hd := dec_digits n
  have h1 : (dec n ++ rest).takeWhile isdigit = dec n := by
    rw [List.takeWhile_append_of_pos hd, hr]; simp
  have hne := dec_ne_nil n
  simp [scan_int, isspace, h1, hne, hv]
  omega

theorem scan_int_print_int (v : Int) (rest : List Nat) (hr : rest.takeWhile isdigit = []) :
    scan_int (print_int v ++ rest) = conv.ok (sat_long v) (print_int v).length := by
  unfold print_int
  by_cases h : v < 0
  · rw [if_pos h]
    have := scan_int_neg_dec v.natAbs rest hr
    have e : -(v.natAbs : Int) = v := by omega
    rw [e] at this
    simpa using this
  · rw [if_neg h]
    have := scan_int_dec v.toNat rest hr
    have e : (v.toNat : Int) = v := by omega
    rw [e] at this
    exact this

theorem scan_int_space (ws s : List Nat) (hws : ∀ c ∈ ws, isspace c = true) :
    scan_int (ws ++ s) =
      match scan_int s with
      | conv.ok v n => conv.ok v (ws.length + n)
      | r => r := by
  have h1 : (ws ++ s).takeWhile isspace = ws ++ s.takeWhile isspace :=
    List.takeWhile_append_of_pos hws
  have h2 : (ws ++ s).drop (ws.length + (s.takeWhile isspace).length)
      = s.drop (s.takeWhile isspace).length := by
    rw [← List.drop_drop, List.drop_left]
  unfold scan_int
  simp only [h1, List.length_append, h2]
  cases hs : s.drop (s.takeWhile isspace).length with
  | nil => simp
  | cons c t =>
    simp only
    split_ifs <;> simp [Nat.add_assoc]

theorem takeWhile_isdigit_nl (rest : List Nat) : (10 :: rest).takeWhile isdigit = [] := by
  simp [isdigit]

theorem sscanf_header_print (T c : Int) (rest : List Nat) :
    sscanf_header (print_int T ++ 10 :: (print_int c ++ 10 :: rest)) =
      ⟨2, to_size_t (sat_long T), to_int (sat_long c),
        to_int (((print_int T).length + (1 + (print_int c).length)
          + (1 + (rest.takeWhile isspace).length) : Nat) : Int)⟩ := by
  have h1 := scan_int_print_int T (10 :: (print_int c ++ 10 :: rest)) (takeWhile_isdigit_nl _)
  have h2 : scan_int (10 :: (print_int c ++ 10 :: rest))
      = conv.ok (sat_long c) (1 + (print_int c).length) := by
    have := scan_int_space [10] (print_int c ++ 10 :: rest) (by simp [isspace])
    rw [scan_int_print_int c (10 :: rest) (takeWhile_isdigit_nl _)] at this
    simpa using this
  have h3 : (print_int T ++ 10 :: (print_int c ++ 10 :: rest)).drop (print_int T).length
      = 10 :: (print_int c ++ 10 :: rest) := List.drop_left _ _
  have h4 : (print_int T ++ 10 :: (print_int c ++ 10 :: rest)).drop
      ((print_int T).length + (1 + (print_int c).length)) = 10 :: rest := by
    rw [← List.drop_drop, h3]
    have : 10 :: (print_int c ++ 10 :: rest) = (10 :: print_int c) ++ 10 :: rest := by simp
    rw [this]
    exact List.drop_left' (by simp; omega)
  have h5 : (10 :: rest).takeWhile isspace = 10 :: rest.takeWhile isspace := by
    simp [isspace]
  unfold sscanf_header
  simp only [h1, h3, h2, h4, h5, List.length_cons]
  congr 2
  omega

theorem sscanf_len_print (L : Int) (rest : List Nat) :
    sscanf_len (print_int L ++ 10 :: rest) =
      ⟨1, to_size_t (sat_long L),
        to_int (((print_int L).length + (1 + (rest.takeWhile isspace).length) : Nat) : Int)⟩ := by
  have h1 := scan_int_print_int L (10 :: rest) (takeWhile_isdigit_nl _)
  have h3 : (print_int L ++ 10 :: rest).drop (print_int L).length = 10 :: rest :=
    List.drop_left _ _
  have h5 : (10 :: rest).takeWhile isspace = 10 :: rest.takeWhile isspace := by
    simp [isspace]
  unfold sscanf_len
  simp only [h1, h3, h5, List.length_cons]
  congr 2
  omega

/-! ## Header extraction: rejected counts -/

theorem to_int_of_range (v : Int) (h1 : -2147483648 ≤ v) (h2 : v < 2147483648) : to_int v = v := by
  unfold to_int; omega

theorem sat_long_of_range (v : Int) (h1 : -9223372036854775808 ≤ v)
    (h2 : v ≤ 9223372036854775807) : sat_long v = v := by
  unfold sat_long; split_ifs <;> omega

/-- C5 (amended): an input whose header declares an element count below 1
(zero or negative, a well-formed numeral in the range of `int`) is answered
with `-EBADMSG`, whatever total length it declares and whatever follows,
the arguments being valid (`space` at least 4, `sge_in` and `sge_count`
consistent). -/
theorem extract_header_count_below_one (calloc_ok : Bool) (sge_in : Option (List dbBE_sge_t))
    (sge_count : Int) (space : Nat) (o0 : Option (List dbBE_sge_t)) (p0 : Nat)
    (T c : Int) (rest : List Nat)
    (hspace : 4 ≤ space)
    (harg1 : sge_in.isSome = true → 1 ≤ sge_count)
    (harg2 : sge_in.isNone = true → sge_count = 0)
    (hc1 : -2147483648 ≤ c) (hc2 : c < 1) :
    (dbBE_SGE_extract_header calloc_ok sge_in sge_count
      (some (print_int T ++ 10 :: (print_int c ++ 10 :: rest))) space (some o0) (some p0)).ret
      = -EBADMSG := by
  have hcount : to_int (sat_long c) < 1 := by
    rw [sat_long_of_range c (by omega) (by omega), to_int_of_range c hc1 (by omega)]
    exact hc2
  have hinv : ¬ (space < 4 ∨ (sge_in.isSome = true ∧ sge_count < 1)
      ∨ (sge_in.isNone = true ∧ sge_count ≠ 0)) := by
    rintro (h | ⟨h, h'⟩ | ⟨h, h'⟩)
    · omega
    · have := harg1 h; omega
    · exact h' (harg2 h)
  unfold dbBE_SGE_extract_header
  simp only [if_neg hinv, sscanf_header_print]
  rw [if_pos]
  right; right; right; left; exact hcount

/-- The theorem `extract_header_count_below_one` at the header `"4\n0\n"`
followed by `"4\nabcd\n"`, with no caller array. -/
theorem extract_header_count_below_one_witness :
    (dbBE_SGE_extract_header true none 0
      (some (print_int 4 ++ 10 :: (print_int 0 ++ 10 :: [52, 10, 97, 98, 99, 100, 10]))) 13
      (some none) (some 0)).ret = -EBADMSG :=
  extract_header_count_below_one true none 0 13 none 0 4 0 [52, 10, 97, 98, 99, 100, 10]
    (by decide) (by simp) (by simp) (by decide) (by decide)

/-- C5: three inputs with well-formed numerals that are not answered with
`-EBADMSG`.  A header declaring 257 elements, parsed into a caller array of
256 entries, gives `-E2BIG`; a header declaring the total length -4 and an
element length -4 each give success with one element, the negative number
stored as an unsigned length. -/
theorem extract_header_not_EBADMSG :
    (dbBE_SGE_extract_header true (some (List.replicate 256 ⟨0, 0⟩)) 256
      (some ([50, 53, 55, 10, 50, 53, 55, 10] ++ (List.replicate 257 [49, 10]).flatten
        ++ (List.replicate 257 [97, 10]).flatten)) 1036
      (some (some (List.replicate 256 ⟨0, 0⟩))) (some 0)).ret = -E2BIG ∧
    dbBE_SGE_extract_header true none 0
      (some [45, 52, 10, 49, 10, 52, 10, 97, 98, 99, 100, 10]) 12 (some none) (some 0)
      = ⟨1, some [⟨0, 4⟩], 7⟩ ∧
    dbBE_SGE_extract_header true none 0
      (some [52, 10, 49, 10, 45, 52, 10, 97, 98, 99, 100, 10]) 12 (some none) (some 0)
      = ⟨1, some [⟨0, 18446744073709551612⟩], 7⟩ := by
  refine ⟨?_, ?_, ?_⟩ <;> decide

/-! ## Header extraction: independence of the caller's array -/

theorem extract_lens_array (data : List Nat) : ∀ n (s : hdr_state), ∃ w : List Nat, ∀ a,
    extract_lens data n { s with sge := a } =
      ((extract_lens data n s).1,
        { (extract_lens data n s).2 with sge := write_lens s.i a w }) := by
  intro n
  induction n with
  | zero => intro s; exact ⟨[], fun a => by simp [extract_lens, write_lens]⟩
  | succ n ih =>
    intro s
    by_cases h1 : s.space > 1
    · by_cases h2 : (sscanf_len (data.drop s.pos.toNat)).plen < 1
          ∨ to_size_t (sscanf_len (data.drop s.pos.toNat)).offset > s.space
      · exact ⟨[], fun a => by simp [extract_lens, write_lens, h1, h2]⟩
      · by_cases h3 : peek data (s.pos + (sscanf_len (data.drop s.pos.toNat)).offset - 1) ≠ 10
        · exact ⟨[], fun a => by simp [extract_lens, write_lens, h1, h2, h3]⟩
        · obtain ⟨w, hw⟩ := ih
            { i := s.i + 1
              pos := s.pos + (sscanf_len (data.drop s.pos.toNat)).offset
              space := to_size_t (s.space - to_size_t (sscanf_len (data.drop s.pos.toNat)).offset)
              parsed := to_size_t (s.parsed + to_size_t (sscanf_len (data.drop s.pos.toNat)).offset)
              sge := s.sge.set s.i
                { s.sge.getD s.i default with
                  iov_len := (sscanf_len (data.drop s.pos.toNat)).len } }
          refine ⟨(sscanf_len (data.drop s.pos.toNat)).len :: w, fun a => ?_⟩
          have := hw (a.set s.i
            { a.getD s.i default with iov_len := (sscanf_len (data.drop s.pos.toNat)).len })
          simp only [extract_lens, h1, h2, h3, if_true, if_false, write_lens] at this ⊢
          exact this
    · exact ⟨[], fun a => by simp [extract_lens, write_lens, h1]⟩

theorem extract_header_array (calloc_ok : Bool) (sge_count : Int) (data : Option (List Nat))
    (space p0 : Nat) : ∃ (ret : Int) (parsed : Nat) (w : List Nat), ∀ a,
      dbBE_SGE_extract_header calloc_ok (some a) sge_count data space (some (some a)) (some p0)
        = ⟨ret, some (write_lens 0 a w), parsed⟩ := by
  cases data with
  | none => exact ⟨-EINVAL, p0, [], fun a => by simp [dbBE_SGE_extract_header, write_lens]⟩
  | some d =>
    by_cases h1 : space < 4 ∨ sge_count < 1
    · exact ⟨-EINVAL, p0, [], fun a => by simp [dbBE_SGE_extract_header, write_lens, h1]⟩
    · by_cases h2 : (sscanf_header d).plen < 2 ∨ (sscanf_header d).offset < 0
          ∨ to_size_t (sscanf_header d).offset > space ∨ (sscanf_header d).i_sge_count < 1
          ∨ (sscanf_header d).total < 4
          ∨ space < to_unsigned (to_unsigned (sscanf_header d).i_sge_count * 2)
      · exact ⟨-EBADMSG, p0, [], fun a => by
          simp only [dbBE_SGE_extract_header, Option.isSome_some, Option.isNone_some,
            Bool.false_eq_true, false_and, or_false, true_and, h1, if_false, h2, if_true,
            write_lens]⟩
      · by_cases h3 : sge_count < (sscanf_header d).i_sge_count
        · exact ⟨-E2BIG, to_size_t (sscanf_header d).offset, [], fun a => by
            simp only [dbBE_SGE_extract_header, Option.isSome_some, Option.isNone_some,
              Bool.false_eq_true, false_and, or_false, true_and, h1, if_false, h2, h3, if_true,
              write_lens]⟩
        · obtain ⟨w, hw⟩ := extract_lens_array d (sscanf_header d).i_sge_count.toNat
            { i := 0, pos := (sscanf_header d).offset,
              space := to_size_t (space - (sscanf_header d).offset),
              parsed := to_size_t (sscanf_header d).offset, sge := [] }
          simp only at hw
          generalize extract_lens d (sscanf_header d).i_sge_count.toNat
              { i := 0, pos := (sscanf_header d).offset,
                space := to_size_t (space - (sscanf_header d).offset),
                parsed := to_size_t (sscanf_header d).offset, sge := [] } = r at hw
          obtain ⟨e, t⟩ := r
          simp only at hw
          cases e with
          | some e =>
            refine ⟨e, t.parsed, w, fun a => ?_⟩
            simp only [dbBE_SGE_extract_header, Option.isSome_some, Option.isNone_some,
              Bool.false_eq_true, false_and, or_false, true_and, h1, if_false, h2, h3, hw a]
          | none =>
            by_cases h4 : (t.i : Int) < (sscanf_header d).i_sge_count ∧ t.space < 1
            · refine ⟨-EAGAIN, t.parsed, w, fun a => ?_⟩
              simp only [dbBE_SGE_extract_header, Option.isSome_some, Option.isNone_some,
                Bool.false_eq_true, false_and, or_false, true_and, h1, if_false, h2, h3, hw a,
                h4, and_self, if_true]
            · refine ⟨(sscanf_header d).i_sge_count, t.parsed, w, fun a => ?_⟩
              simp only [dbBE_SGE_extract_header, Option.isSome_some, Option.isNone_some,
                Bool.false_eq_true, false_and, or_false, true_and, h1, if_false, h2, h3, hw a,
                h4]

/-- C6: the result of `dbBE_SGE_extract_header` on a buffer `B` does not
depend on what earlier calls left in the caller's array.  Let `a` be an
untouched array and `a1` the same array after any number of earlier calls on
pieces `B[0..k)` of the buffer; the call on `B` returns the same value and
the same `parsed` for both, and stores the same lengths `w` into the same
leading entries of both. -/
theorem extract_header_reentrant (calloc_ok : Bool) (sge_count : Int) (B : List Nat)
    (space p0 : Nat) (a : List dbBE_sge_t) (ks : List Nat) :
    (dbBE_SGE_extract_header calloc_ok (some (ks.foldl (retry calloc_ok sge_count B) a))
        sge_count (some B) space
        (some (some (ks.foldl (retry calloc_ok sge_count B) a))) (some p0)).ret
      = (dbBE_SGE_extract_header calloc_ok (some a) sge_count (some B) space
          (some (some a)) (some p0)).ret ∧
    (dbBE_SGE_extract_header calloc_ok (some (ks.foldl (retry calloc_ok sge_count B) a))
        sge_count (some B) space
        (some (some (ks.foldl (retry calloc_ok sge_count B) a))) (some p0)).parsed
      = (dbBE_SGE_extract_header calloc_ok (some a) sge_count (some B) space
          (some (some a)) (some p0)).parsed ∧
    ∃ w : List Nat,
      (dbBE_SGE_extract_header calloc_ok (some a) sge_count (some B) space
          (some (some a)) (some p0)).sge_out = some (write_lens 0 a w) ∧
      (dbBE_SGE_extract_header calloc_ok (some (ks.foldl (retry calloc_ok sge_count B) a))
        sge_count (some B) space
        (some (some (ks.foldl (retry calloc_ok sge_count B) a))) (some p0)).sge_out
        = some (write_lens 0 (ks.foldl (retry calloc_ok sge_count B) a) w) := by
  obtain ⟨ret, parsed, w, h⟩ := extract_header_array calloc_ok sge_count (some B) space p0
  rw [h a, h (ks.foldl (retry calloc_ok sge_count B) a)]
  exact ⟨rfl, rfl, w, rfl, rfl⟩

/-! ## Deserialize: the layout of the elements -/

theorem getD_set_sge (a : List dbBE_sge_t) (i j : Nat) (v : dbBE_sge_t) :
    (a.set i v).getD j default = if i = j ∧ i < a.length then v else a.getD j default := by
  simp only [List.getD_eq_getElem?_getD, List.getElem?_set]
  by_cases h : i = j
  · subst h
    by_cases h2 : i < a.length
    · simp [h2]
    · simp [h2, List.getElem?_eq_none (Nat.le_of_not_lt h2)]
  · simp [h]

theorem getD_set_nat (d : List Nat) (i j v : Nat) :
    (d.set i v).getD j 0 = if i = j ∧ i < d.length then v else d.getD j 0 := by
  simp only [List.getD_eq_getElem?_getD, List.getElem?_set]
  by_cases h : i = j
  · subst h
    by_cases h2 : i < d.length
    · simp [h2]
    · simp [h2, List.getElem?_eq_none (Nat.le_of_not_lt h2)]
  · simp [h]

theorem deserialize_loop_length : ∀ n i pos d a,
    (deserialize_loop n i pos d a).1.length = d.length ∧
    (deserialize_loop n i pos d a).2.length = a.length := by
  intro n
  induction n with
  | zero => intro i pos d a; simp [deserialize_loop]
  | succ n ih =>
    intro i pos d a
    simp only [deserialize_loop]
    constructor
    · rw [(ih _ _ _ _).1, List.length_set]
    · rw [(ih _ _ _ _).2, List.length_set]

theorem deserialize_loop_iov_len : ∀ n i pos d a j,
    ((deserialize_loop n i pos d a).2.getD j default).iov_len = (a.getD j default).iov_len := by
  intro n
  induction n with
  | zero => intro i pos d a j; simp [deserialize_loop]
  | succ n ih =>
    intro i pos d a j
    simp only [deserialize_loop]
    rw [ih, getD_set_sge]
    split_ifs with h
    · rw [h.1]
    · rfl

theorem deserialize_loop_before : ∀ n i pos d a j, j < i →
    (deserialize_loop n i pos d a).2.getD j default = a.getD j default := by
  intro n
  induction n with
  | zero => intro i pos d a j _; simp [deserialize_loop]
  | succ n ih =>
    intro i pos d a j hj
    simp only [deserialize_loop]
    rw [ih _ _ _ _ _ (by omega), getD_set_sge, if_neg (by omega)]

theorem deserialize_loop_first (n i pos : Nat) (d : List Nat) (a : List dbBE_sge_t)
    (hi : i < a.length) :
    ((deserialize_loop (n + 1) i pos d a).2.getD i default).iov_base = pos := by
  simp only [deserialize_loop]
  rw [deserialize_loop_before _ _ _ _ _ _ (by omega), getD_set_sge, if_pos ⟨rfl, hi⟩]

/-- The base stored in an element does not change its length. -/
theorem set_base_iov_len (a : List dbBE_sge_t) (i pos : Nat) :
    ((a.set i { a.getD i default with iov_base := pos }).getD i default).iov_len
      = (a.getD i default).iov_len := by
  rw [getD_set_sge]; split_ifs <;> rfl

/-- One pass of the loop of `dbBE_SGE_deserialize`. -/
theorem deserialize_loop_succ (n i pos : Nat) (d : List Nat) (a : List dbBE_sge_t) :
    deserialize_loop (n + 1) i pos d a
      = deserialize_loop n (i + 1) (to_size_t (pos + (a.getD i default).iov_len + 1))
          (d.set (to_size_t (pos + (a.getD i default).iov_len)) 0)
          (a.set i { a.getD i default with iov_base := pos }) := by
  rw [deserialize_loop]
  simp only [set_base_iov_len]

theorem deserialize_loop_next : ∀ n i pos d a k, k + 1 < n → i + k + 1 < a.length →
    ((deserialize_loop n i pos d a).2.getD (i + k + 1) default).iov_base =
      to_size_t (((deserialize_loop n i pos d a).2.getD (i + k) default).iov_base
        + ((deserialize_loop n i pos d a).2.getD (i + k) default).iov_len + 1) := by
  intro n
  induction n with
  | zero => intro i pos d a k hk; omega
  | succ n ih =>
    intro i pos d a k hk hlen
    cases k with
    | zero =>
      obtain ⟨m, rfl⟩ : ∃ m, n = m + 1 := ⟨n - 1, by omega⟩
      have h1 := deserialize_loop_first (m + 1) i pos d a (by omega)
      have h2 := deserialize_loop_iov_len (m + 1 + 1) i pos d a i
      simp only [Nat.add_zero]
      rw [h1, h2, deserialize_loop_succ]
      exact deserialize_loop_first m (i + 1) _ _ _ (by rw [List.length_set]; omega)
    | succ k =>
      rw [deserialize_loop_succ]
      have := ih (i + 1) (to_size_t (pos + (a.getD i default).iov_len + 1))
        (d.set (to_size_t (pos + (a.getD i default).iov_len)) 0)
        (a.set i { a.getD i default with iov_base := pos }) k (by omega)
        (by rw [List.length_set]; omega)
      have e1 : i + 1 + k + 1 = i + (k + 1) + 1 := by omega
      have e2 : i + 1 + k = i + (k + 1) := by omega
      rw [e1, e2] at this
      exact this

theorem deserialize_loop_other : ∀ n i pos d a x, i + n ≤ a.length →
    (∀ k, k < n →
      x ≠ to_size_t (((deserialize_loop n i pos d a).2.getD (i + k) default).iov_base
        + ((deserialize_loop n i pos d a).2.getD (i + k) default).iov_len)) →
    (deserialize_loop n i pos d a).1.getD x 0 = d.getD x 0 := by
  intro n
  induction n with
  | zero => intro i pos d a x _ _; simp [deserialize_loop]
  | succ n ih =>
    intro i pos d a x hlen hx
    have h0 := hx 0 (by omega)
    simp only [Nat.add_zero] at h0
    rw [deserialize_loop_first n i pos d a (by omega), deserialize_loop_iov_len] at h0
    rw [deserialize_loop_succ] at hx ⊢
    rw [ih _ _ _ _ _ (by rw [List.length_set]; omega), getD_set_nat,
      if_neg (fun h => h0 h.1.symm)]
    intro k hk
    have := hx (k + 1) (by omega)
    have e : i + (k + 1) = i + 1 + k := by omega
    rw [e] at this
    exact this

/-- A byte of the buffer that is `'\0'` stays so: the loop stores nothing
else. -/
theorem deserialize_loop_keeps_zero : ∀ n i pos d a x, d.getD x 0 = 0 →
    (deserialize_loop n i pos d a).1.getD x 0 = 0 := by
  intro n
  induction n with
  | zero => intro i pos d a x h; simpa [deserialize_loop] using h
  | succ n ih =>
    intro i pos d a x h
    rw [deserialize_loop_succ]
    apply ih
    rw [getD_set_nat]
    split_ifs
    · rfl
    · exact h

theorem deserialize_loop_zero : ∀ n i pos d a k, i + n ≤ a.length → k < n →
    to_size_t (((deserialize_loop n i pos d a).2.getD (i + k) default).iov_base
        + ((deserialize_loop n i pos d a).2.getD (i + k) default).iov_len) < d.length →
    (deserialize_loop n i pos d a).1.getD
      (to_size_t (((deserialize_loop n i pos d a).2.getD (i + k) default).iov_base
        + ((deserialize_loop n i pos d a).2.getD (i + k) default).iov_len)) 0 = 0 := by
  intro n
  induction n with
  | zero => intro i pos d a k _ hk; omega
  | succ n ih =>
    intro i pos d a k hlen hk
    cases k with
    | zero =>
      simp only [Nat.add_zero]
      rw [deserialize_loop_first n i pos d a (by omega), deserialize_loop_iov_len]
      intro hin
      rw [deserialize_loop_succ]
      apply deserialize_loop_keeps_zero
      rw [getD_set_nat, if_pos ⟨rfl, hin⟩]
    | succ k =>
      rw [deserialize_loop_succ]
      have := ih (i + 1) (to_size_t (pos + (a.getD i default).iov_len + 1))
        (d.set (to_size_t (pos + (a.getD i default).iov_len)) 0)
        (a.set i { a.getD i default with iov_base := pos }) k
        (by rw [List.length_set]; omega) (by omega)
      have e : i + 1 + k = i + (k + 1) := by omega
      rw [e, List.length_set] at this
      exact this

/-- One pass of the list of the stores outside the buffer. -/
theorem deserialize_outside_succ (n i pos size : Nat) (a : List dbBE_sge_t) :
    deserialize_outside (n + 1) i pos size a
      = (if size ≤ to_size_t (pos + (a.getD i default).iov_len)
          then [to_size_t (pos + (a.getD i default).iov_len)] else [])
        ++ deserialize_outside n (i + 1) (to_size_t (pos + (a.getD i default).iov_len + 1)) size
          (a.set i { a.getD i default with iov_base := pos }) := by
  rw [deserialize_outside]
  simp only [set_base_iov_len]

/-- A store of the loop that falls outside the buffer is listed. -/
theorem deserialize_outside_mem : ∀ n i pos d a k, i + n ≤ a.length → k < n →
    d.length ≤ to_size_t (((deserialize_loop n i pos d a).2.getD (i + k) default).iov_base
        + ((deserialize_loop n i pos d a).2.getD (i + k) default).iov_len) →
    to_size_t (((deserialize_loop n i pos d a).2.getD (i + k) default).iov_base
        + ((deserialize_loop n i pos d a).2.getD (i + k) default).iov_len)
      ∈ deserialize_outside n i pos d.length a := by
  intro n
  induction n with
  | zero => intro i pos d a k _ hk; omega
  | succ n ih =>
    intro i pos d a k hlen hk
    cases k with
    | zero =>
      simp only [Nat.add_zero]
      rw [deserialize_loop_first n i pos d a (by omega), deserialize_loop_iov_len]
      intro hout
      rw [deserialize_outside_succ, if_pos hout]
      simp
    | succ k =>
      rw [deserialize_loop_succ, deserialize_outside_succ]
      have := ih (i + 1) (to_size_t (pos + (a.getD i default).iov_len + 1))
        (d.set (to_size_t (pos + (a.getD i default).iov_len)) 0)
        (a.set i { a.getD i default with iov_base := pos }) k
        (by rw [List.length_set]; omega) (by omega)
      have e : i + 1 + k = i + (k + 1) := by omega
      rw [e, List.length_set] at this
      intro hout
      exact List.mem_append_right _ (this hout)

/-- Every listed offset is outside the buffer and is the place of a store of
the loop. -/
theorem deserialize_outside_sub : ∀ n i pos d a o, i + n ≤ a.length →
    o ∈ deserialize_outside n i pos d.length a →
    d.length ≤ o ∧ ∃ k, k < n ∧
      o = to_size_t (((deserialize_loop n i pos d a).2.getD (i + k) default).iov_base
        + ((deserialize_loop n i pos d a).2.getD (i + k) default).iov_len) := by
  intro n
  induction n with
  | zero =>
    intro i pos d a o _ ho
    simp [deserialize_outside] at ho
  | succ n ih =>
    intro i pos d a o hlen ho
    rw [deserialize_outside_succ] at ho
    rcases List.mem_append.mp ho with h | h
    · by_cases hc : d.length ≤ to_size_t (pos + (a.getD i default).iov_len)
      · rw [if_pos hc] at h
        have ho2 : o = to_size_t (pos + (a.getD i default).iov_len) := by simpa using h
        refine ⟨by rw [ho2]; exact hc, 0, by omega, ?_⟩
        simp only [Nat.add_zero]
        rw [deserialize_loop_first n i pos d a (by omega), deserialize_loop_iov_len]
        exact ho2
      · rw [if_neg hc] at h
        simp at h
    · have := ih (i + 1) (to_size_t (pos + (a.getD i default).iov_len + 1))
        (d.set (to_size_t (pos + (a.getD i default).iov_len)) 0)
        (a.set i { a.getD i default with iov_base := pos }) o
        (by rw [List.length_set]; omega) (by rw [List.length_set]; exact h)
      rw [List.length_set] at this
      obtain ⟨h1, k, hk, hk2⟩ := this
      refine ⟨h1, k + 1, by omega, ?_⟩
      rw [deserialize_loop_succ]
      have e : i + (k + 1) = i + 1 + k := by omega
      rw [e]
      exact hk2

theorem write_lens_length : ∀ w i a, (write_lens i a w).length = a.length := by
  intro w
  induction w with
  | nil => intro i a; rfl
  | cons l w ih => intro i a; simp [write_lens, ih]

theorem extract_lens_length (data : List Nat) (n : Nat) (s : hdr_state) :
    (extract_lens data n s).2.sge.length = s.sge.length := by
  obtain ⟨w, hw⟩ := extract_lens_array data n s
  have := hw s.sge
  have e : ({ s with sge := s.sge } : hdr_state) = s := by cases s; rfl
  rw [e] at this
  have h2 := congrArg (fun r => r.2.sge.length) this
  simp only [write_lens_length] at h2
  exact h2

theorem extract_lens_error (data : List Nat) : ∀ n s e,
    (extract_lens data n s).1 = some e → e < 0 := by
  intro n
  induction n with
  | zero => intro s e h; simp [extract_lens] at h
  | succ n ih =>
    intro s e h
    simp only [extract_lens] at h
    split_ifs at h with h1 h2 h3
    · simp at h; subst h; decide
    · simp at h; subst h; decide
    · exact ih _ _ h

theorem to_int_range (v : Int) : -2147483648 ≤ to_int v ∧ to_int v < 2147483648 := by
  unfold to_int; omega

theorem sscanf_header_count_range (d : List Nat) :
    -2147483648 ≤ (sscanf_header d).i_sge_count ∧ (sscanf_header d).i_sge_count < 2147483648 := by
  unfold sscanf_header
  split
  · simp
  · simp
  · split
    · exact to_int_range _
    all_goals simp

theorem extract_header_success (calloc_ok : Bool) (sge_in : Option (List dbBE_sge_t))
    (sge_count : Int) (d : List Nat) (space : Nat) (o0 : Option (List dbBE_sge_t)) (p0 : Nat)
    (h : 0 ≤ (dbBE_SGE_extract_header calloc_ok sge_in sge_count (some d) space
      (some o0) (some p0)).ret) :
    1 ≤ (dbBE_SGE_extract_header calloc_ok sge_in sge_count (some d) space
      (some o0) (some p0)).ret ∧
    ∃ arr, (dbBE_SGE_extract_header calloc_ok sge_in sge_count (some d) space
      (some o0) (some p0)).sge_out = some arr ∧
      ((∃ a, sge_in = some a ∧ arr.length = a.length ∧
          (dbBE_SGE_extract_header calloc_ok sge_in sge_count (some d) space
            (some o0) (some p0)).ret ≤ sge_count) ∨
        (sge_in = none ∧ (arr.length : Int) =
          (dbBE_SGE_extract_header calloc_ok sge_in sge_count (some d) space
            (some o0) (some p0)).ret)) := by
  have hr := sscanf_header_count_range d
  by_cases h1 : space < 4 ∨ (sge_in.isSome = true ∧ sge_count < 1)
      ∨ (sge_in.isNone = true ∧ sge_count ≠ 0)
  · exfalso
    simp only [dbBE_SGE_extract_header, if_pos h1] at h
    simp [EINVAL] at h
  by_cases h2 : (sscanf_header d).plen < 2 ∨ (sscanf_header d).offset < 0
      ∨ to_size_t (sscanf_header d).offset > space ∨ (sscanf_header d).i_sge_count < 1
      ∨ (sscanf_header d).total < 4
      ∨ space < to_unsigned (to_unsigned (sscanf_header d).i_sge_count * 2)
  · exfalso
    simp only [dbBE_SGE_extract_header, if_neg h1, if_pos h2] at h
    simp [EBADMSG] at h
  simp only [dbBE_SGE_extract_header, if_neg h1, if_neg h2] at h ⊢
  simp only [not_or, not_lt] at h2
  obtain ⟨_, _, _, hc1, _, _⟩ := h2
  cases sge_in with
  | none =>
    cases calloc_ok with
    | false => simp [ENOMEM] at h
    | true =>
      simp only [Option.isSome_none, Bool.false_eq_true, false_and, if_false, if_true] at h ⊢
      have hl := extract_lens_length d (sscanf_header d).i_sge_count.toNat
        { i := 0, pos := (sscanf_header d).offset,
          space := to_size_t (space - (sscanf_header d).offset),
          parsed := to_size_t (sscanf_header d).offset,
          sge := List.replicate (to_size_t (sscanf_header d).i_sge_count) ⟨0, 0⟩ }
      have he := extract_lens_error d (sscanf_header d).i_sge_count.toNat
        { i := 0, pos := (sscanf_header d).offset,
          space := to_size_t (space - (sscanf_header d).offset),
          parsed := to_size_t (sscanf_header d).offset,
          sge := List.replicate (to_size_t (sscanf_header d).i_sge_count) ⟨0, 0⟩ }
      have hsz : ((to_size_t (sscanf_header d).i_sge_count : Nat) : Int)
          = (sscanf_header d).i_sge_count := by
        unfold to_size_t; omega
      revert h hl he
      generalize extract_lens d (sscanf_header d).i_sge_count.toNat _ = r
      intro h hl he
      rcases r with ⟨_ | e, t⟩
      · simp only at h hl ⊢
        by_cases h4 : (t.i : Int) < (sscanf_header d).i_sge_count ∧ t.space < 1
        · simp only [if_pos h4] at h
          simp [EAGAIN] at h
        · simp only [if_neg h4]
          refine ⟨hc1, t.sge, rfl, Or.inr ⟨trivial, ?_⟩⟩
          rw [hl]; simpa using hsz
      · have := he e rfl
        simp only at h
        omega
  | some a =>
    simp only [Option.isSome_some, true_and] at h ⊢
    by_cases h3 : sge_count < (sscanf_header d).i_sge_count
    · simp only [if_pos h3] at h
      simp [E2BIG] at h
    · simp only [if_neg h3] at h ⊢
      have hl := extract_lens_length d (sscanf_header d).i_sge_count.toNat
        { i := 0, pos := (sscanf_header d).offset,
          space := to_size_t (space - (sscanf_header d).offset),
          parsed := to_size_t (sscanf_header d).offset, sge := a }
      have he := extract_lens_error d (sscanf_header d).i_sge_count.toNat
        { i := 0, pos := (sscanf_header d).offset,
          space := to_size_t (space - (sscanf_header d).offset),
          parsed := to_size_t (sscanf_header d).offset, sge := a }
      revert h hl he
      generalize extract_lens d (sscanf_header d).i_sge_count.toNat _ = r
      intro h hl he
      rcases r with ⟨_ | e, t⟩
      · simp only at h hl ⊢
        by_cases h4 : (t.i : Int) < (sscanf_header d).i_sge_count ∧ t.space < 1
        · simp only [if_pos h4] at h
          simp [EAGAIN] at h
        · simp only [if_neg h4]
          exact ⟨hc1, t.sge, rfl, Or.inl ⟨a, rfl, hl, by omega⟩⟩
      · have := he e rfl
        simp only at h
        omega

/-- C8: zero-copy layout.  Let `dbBE_SGE_deserialize` succeed on `data`, and
let `hdr` be what `dbBE_SGE_extract_header` reports on the same arguments:
`n = hdr.ret` elements and `hdr.parsed` header bytes (a caller's array, when
one is passed, has the `sge_count` entries it announces).  Then the array
`sge` left in `*sge_out` has at least `n` entries, its lengths are the ones
the header extraction stored, `sge[0].base` is `data + hdr.parsed`,
`sge[i+1].base` is `sge[i].base + len_i + 1` in the arithmetic of pointers
(modulo `2^64`), a `'\0'` is stored at `base_i[len_i]` for every `i < n` (the
byte of the buffer there is `'\0'`, or the store is listed as one outside the
buffer), nothing else is stored, and every other byte of the buffer is
unchanged. -/
theorem deserialize_layout (calloc_ok : Bool) (data : List Nat) (space : Nat)
    (o : Option (List dbBE_sge_t)) (c : Int) (hdr : extract_result) (res : deserialize_result)
    (hhdr : dbBE_SGE_extract_header calloc_ok o c (some data) space (some o) (some 0) = hdr)
    (hres : dbBE_SGE_deserialize calloc_ok (some data) space (some o) (some c) = res)
    (harr : ∀ a, o = some a → c ≤ a.length)
    (hok : 0 ≤ res.ret) :
    ∃ sge stored, res.sge_out = some sge ∧ hdr.sge_out = some stored ∧
      1 ≤ hdr.ret ∧ hdr.ret.toNat ≤ sge.length ∧
      (∀ i, (sge.getD i default).iov_len = (stored.getD i default).iov_len) ∧
      (sge.getD 0 default).iov_base = hdr.parsed ∧
      (∀ i, i + 1 < hdr.ret.toNat → (sge.getD (i + 1) default).iov_base
          = to_size_t ((sge.getD i default).iov_base + (sge.getD i default).iov_len + 1)) ∧
      (∀ i, i < hdr.ret.toNat →
          (to_size_t ((sge.getD i default).iov_base + (sge.getD i default).iov_len)
              < data.length →
            res.data.getD
              (to_size_t ((sge.getD i default).iov_base + (sge.getD i default).iov_len)) 0
              = 0) ∧
          (data.length
              ≤ to_size_t ((sge.getD i default).iov_base + (sge.getD i default).iov_len) →
            to_size_t ((sge.getD i default).iov_base + (sge.getD i default).iov_len)
              ∈ res.outside)) ∧
      (∀ x, (∀ i, i < hdr.ret.toNat →
            x ≠ to_size_t ((sge.getD i default).iov_base + (sge.getD i default).iov_len)) →
          res.data.getD x 0 = data.getD x 0) ∧
      (∀ x, x ∈ res.outside → data.length ≤ x ∧ ∃ i, i < hdr.ret.toNat ∧
          x = to_size_t ((sge.getD i default).iov_base + (sge.getD i default).iov_len)) ∧
      res.data.length = data.length := by
  subst hres
  have hneg : 0 ≤ hdr.ret := by
    by_contra hc
    have hlt : hdr.ret < 0 := by omega
    simp only [dbBE_SGE_deserialize, hhdr] at hok
    by_cases h1 : hdr.ret = -EBADMSG
    · simp only [if_pos h1] at hok
      simp [EBADMSG] at hok
    · by_cases h2 : hdr.ret = -EAGAIN
      · simp only [if_neg h1, if_pos h2] at hok
        simp [EAGAIN] at hok
      · simp only [if_neg h1, if_neg h2, if_pos hlt] at hok
        omega
  have hsucc := extract_header_success calloc_ok o c data space o 0 (by rw [hhdr]; exact hneg)
  rw [hhdr] at hsucc
  obtain ⟨h1, arr, harr_eq, hcap⟩ := hsucc
  have hn : hdr.ret.toNat ≤ arr.length := by
    rcases hcap with ⟨a, ha, hlen, hle⟩ | ⟨_, hlen⟩
    · have := harr a ha
      omega
    · omega
  have hb : hdr.ret ≠ -EBADMSG := by simp [EBADMSG]; omega
  have ha : hdr.ret ≠ -EAGAIN := by simp [EAGAIN]; omega
  have hlt : ¬ hdr.ret < 0 := by omega
  simp only [dbBE_SGE_deserialize, hhdr, if_neg hb, if_neg ha, if_neg hlt, harr_eq] at hok ⊢
  by_cases hsp : to_size_t (space - hdr.parsed) = 0
  · simp [hsp, E2BIG] at hok
  · simp only [if_neg hsp]
    obtain ⟨m, hm⟩ : ∃ m, hdr.ret.toNat = m + 1 := ⟨hdr.ret.toNat - 1, by omega⟩
    refine ⟨_, arr, rfl, rfl, h1, ?_, ?_, ?_, ?_, ?_, ?_, ?_, ?_⟩
    · rw [(deserialize_loop_length _ _ _ _ _).2]; exact hn
    · intro i; exact deserialize_loop_iov_len _ _ _ _ _ _
    · rw [hm]; exact deserialize_loop_first m 0 hdr.parsed data arr (by omega)
    · intro i hi
      have := deserialize_loop_next hdr.ret.toNat 0 hdr.parsed data arr i hi (by omega)
      simpa using this
    · intro i hi
      constructor
      · have := deserialize_loop_zero hdr.ret.toNat 0 hdr.parsed data arr i (by omega) hi
        simpa using this
      · have := deserialize_outside_mem hdr.ret.toNat 0 hdr.parsed data arr i (by omega) hi
        simpa using this
    · intro x hx
      apply deserialize_loop_other hdr.ret.toNat 0 hdr.parsed data arr x (by omega)
      intro k hk
      simpa using hx k hk
    · intro x hx
      have := deserialize_outside_sub hdr.ret.toNat 0 hdr.parsed data arr x (by omega) hx
      simpa using this
    · exact (deserialize_loop_length _ _ _ _ _).1

/-- The theorem `deserialize_layout` at the buffer `sample_wire`, with no
caller array. -/
theorem deserialize_layout_witness :
    ∃ sge stored,
      (dbBE_SGE_deserialize true (some sample_wire) 11 (some none) (some 0)).sge_out = some sge ∧
      (dbBE_SGE_extract_header true none 0 (some sample_wire) 11 (some none) (some 0)).sge_out
        = some stored ∧
      1 ≤ (dbBE_SGE_extract_header true none 0 (some sample_wire) 11 (some none) (some 0)).ret ∧
      (dbBE_SGE_extract_header true none 0 (some sample_wire) 11 (some none)
        (some 0)).ret.toNat ≤ sge.length ∧
      (∀ i, (sge.getD i default).iov_len = (stored.getD i default).iov_len) ∧
      (sge.getD 0 default).iov_base
        = (dbBE_SGE_extract_header true none 0 (some sample_wire) 11 (some none)
            (some 0)).parsed ∧
      (∀ i, i + 1 < (dbBE_SGE_extract_header true none 0 (some sample_wire) 11 (some none)
            (some 0)).ret.toNat →
          (sge.getD (i + 1) default).iov_base
            = to_size_t ((sge.getD i default).iov_base + (sge.getD i default).iov_len + 1)) ∧
      (∀ i, i < (dbBE_SGE_extract_header true none 0 (some sample_wire) 11 (some none)
            (some 0)).ret.toNat →
          (to_size_t ((sge.getD i default).iov_base + (sge.getD i default).iov_len)
              < sample_wire.length →
            (dbBE_SGE_deserialize true (some sample_wire) 11 (some none) (some 0)).data.getD
              (to_size_t ((sge.getD i default).iov_base + (sge.getD i default).iov_len)) 0
              = 0) ∧
          (sample_wire.length
              ≤ to_size_t ((sge.getD i default).iov_base + (sge.getD i default).iov_len) →
            to_size_t ((sge.getD i default).iov_base + (sge.getD i default).iov_len)
              ∈ (dbBE_SGE_deserialize true (some sample_wire) 11 (some none)
                  (some 0)).outside)) ∧
      (∀ x, (∀ i, i < (dbBE_SGE_extract_header true none 0 (some sample_wire) 11 (some none)
              (some 0)).ret.toNat →
            x ≠ to_size_t ((sge.getD i default).iov_base + (sge.getD i default).iov_len)) →
          (dbBE_SGE_deserialize true (some sample_wire) 11 (some none) (some 0)).data.getD x 0
            = sample_wire.getD x 0) ∧
      (∀ x, x ∈ (dbBE_SGE_deserialize true (some sample_wire) 11 (some none)
            (some 0)).outside → sample_wire.length ≤ x ∧
          ∃ i, i < (dbBE_SGE_extract_header true none 0 (some sample_wire) 11 (some none)
              (some 0)).ret.toNat ∧
            x = to_size_t ((sge.getD i default).iov_base + (sge.getD i default).iov_len)) ∧
      (dbBE_SGE_deserialize true (some sample_wire) 11 (some none) (some 0)).data.length
        = sample_wire.length :=
  deserialize_layout true sample_wire 11 none 0 _ _ rfl rfl (by simp) (by decide)

/-- The wrap of the positions on the buffer `"4\n1\n-4\nabcd\n"`, whose length
line reads `-4`: the length is stored as `2^64 - 4`, the base of the element
is 7, the `'\0'` is stored at offset 3 of the buffer, in the header, and no
store falls outside the buffer. -/
theorem deserialize_negative_length_wraps :
    dbBE_SGE_deserialize true (some [52, 10, 49, 10, 45, 52, 10, 97, 98, 99, 100, 10]) 12
      (some none) (some 0)
    = ⟨0, [52, 10, 49, 0, 45, 52, 10, 97, 98, 99, 100, 10],
        some [⟨7, 18446744073709551612⟩], []⟩ := by
  decide

/-! ## Serialize: the bytes written -/

theorem snprintf_fits (m0 mem : Int → Nat) (pre t : List Nat) (sp : Nat)
    (hm : ∀ k : Nat, k < pre.length → mem k = pre.getD k 0)
    (ho : ∀ a : Int, a < 0 ∨ (pre.length : Int) < a → mem a = m0 a)
    (hsp : t.length < sp) :
    (∀ k : Nat, k < (pre ++ t).length →
      snprintf mem pre.length sp t k = (pre ++ t).getD k 0) ∧
    (∀ a : Int, a < 0 ∨ ((pre ++ t).length : Int) < a →
      snprintf mem pre.length sp t a = m0 a) := by
  have hne : sp ≠ 0 := by omega
  have htake : t.take (sp - 1) = t := List.take_of_length_le (by omega)
  simp only [snprintf, if_neg hne, htake, store, List.length_append, List.length_singleton]
  constructor
  · intro k hk
    by_cases h1 : k < pre.length
    · rw [if_neg (by omega), List.getD_append pre t 0 k h1]
      exact hm k h1
    · rw [if_pos (by omega), List.getD_append_right pre t 0 k (by omega)]
      have e : ((k : Int) - (pre.length : Int)).toNat = k - pre.length := by omega
      rw [e, List.getD_append t [0] 0 (k - pre.length) (by omega)]
  · intro a ha
    rw [if_neg (by omega)]
    exact ho a (by omega)

theorem payload_length (src : Nat → Nat) (e : dbBE_sge_t) :
    (payload src e).length = e.iov_len := by
  simp [payload]

theorem payload_getD (src : Nat → Nat) (e : dbBE_sge_t) (k : Nat) (hk : k < e.iov_len) :
    (payload src e).getD k 0 = src (e.iov_base + k) := by
  rw [List.getD_eq_getElem _ _ (by rw [payload_length]; exact hk)]
  simp [payload]

theorem memcpy_fits (m0 mem : Int → Nat) (src : Nat → Nat) (pre : List Nat) (e : dbBE_sge_t)
    (hm : ∀ k : Nat, k < pre.length → mem k = pre.getD k 0)
    (ho : ∀ a : Int, a < 0 ∨ (pre.length : Int) < a → mem a = m0 a) :
    (∀ k : Nat, k < (pre ++ (payload src e ++ [10])).length →
      store (memcpy mem pre.length src e.iov_base e.iov_len)
        ((pre.length : Int) + (e.iov_len : Int)) [10] k
        = (pre ++ (payload src e ++ [10])).getD k 0) ∧
    (∀ a : Int, a < 0 ∨ ((pre ++ (payload src e ++ [10])).length : Int) < a →
      store (memcpy mem pre.length src e.iov_base e.iov_len)
        ((pre.length : Int) + (e.iov_len : Int)) [10] a = m0 a) := by
  simp only [store, memcpy, List.length_append, List.length_singleton, payload_length]
  constructor
  · intro k hk
    by_cases h1 : k < pre.length
    · rw [if_neg (by omega), if_neg (by omega), List.getD_append pre _ 0 k h1]
      exact hm k h1
    · rw [List.getD_append_right pre _ 0 k (by omega)]
      by_cases h2 : k < pre.length + e.iov_len
      · rw [if_neg (by omega), if_pos (by omega),
          List.getD_append (payload src e) [10] 0 _ (by rw [payload_length]; omega),
          payload_getD _ _ _ (by omega)]
        have e1 : ((k : Int) - (pre.length : Int)).toNat = k - pre.length := by omega
        rw [e1]
      · rw [if_pos (by omega),
          List.getD_append_right (payload src e) [10] 0 _ (by rw [payload_length]; omega),
          payload_length]
        have e1 : ((k : Int) - ((pre.length : Int) + (e.iov_len : Int))).toNat = 0 := by omega
        have e2 : k - pre.length - e.iov_len = 0 := by omega
        rw [e1, e2]
  · intro a ha
    rw [if_neg (by omega), if_neg (by omega)]
    exact ho a (by omega)

theorem print_int_nat (n : Nat) : print_int (n : Int) = dec n := by
  simp [print_int]

theorem to_long_nat (n : Nat) (h : n < 9223372036854775808) : to_long (n : Int) = n := by
  unfold to_long; omega

theorem to_int_nat (n : Nat) (h : n < 2147483648) : to_int (n : Int) = n := by
  unfold to_int; omega

theorem dec_length_le_ten (n : Nat) (h : n < 2147483648) : (dec n).length ≤ 10 :=
  dec_length_le 9 n (by omega)

theorem getD_append_cons (done rest : List dbBE_sge_t) (e : dbBE_sge_t) :
    (done ++ e :: rest).getD done.length default = e := by
  rw [List.getD_append_right _ _ _ _ (Nat.le_refl _)]
  simp

theorem wire_lens_cons (e : dbBE_sge_t) (rest : List dbBE_sge_t) :
    wire_lens (e :: rest) = (dec e.iov_len ++ [10]) ++ wire_lens rest := by
  simp [wire_lens]

theorem wire_payloads_cons (src : Nat → Nat) (e : dbBE_sge_t) (rest : List dbBE_sge_t) :
    wire_payloads src (e :: rest) = (payload src e ++ [10]) ++ wire_payloads src rest := by
  simp [wire_payloads]

theorem serialize_lens_inv (m0 : Int → Nat) (space : Nat) (hs : space < 18446744073709551616) :
    ∀ (todo done : List dbBE_sge_t) (pre : List Nat) (s : ser_state),
      (∀ e ∈ todo, e.iov_len < 2147483647) →
      ser_inv m0 space pre s →
      pre.length + (wire_lens todo).length < space →
      pre.length + (wire_lens todo).length < 4611686018427387904 →
      ∃ s', serialize_lens (done ++ todo) todo.length done.length s = (true, s') ∧
        ser_inv m0 space (pre ++ wire_lens todo) s' := by
  intro todo
  induction todo with
  | nil =>
    intro done pre s _ hinv _ _
    exact ⟨s, by simp [serialize_lens], by simpa [wire_lens] using hinv⟩
  | cons e rest ih =>
    intro done pre s hlen hinv hsp hbig
    obtain ⟨hpos, hspace, htotal, hm, ho⟩ := hinv
    have hel : e.iov_len < 2147483647 := hlen e (by simp)
    have hdl := dec_length_le_ten e.iov_len (by omega)
    rw [wire_lens_cons] at hsp hbig
    simp only [List.length_append, List.length_singleton] at hsp hbig
    have ht : print_int (to_long (e.iov_len : Int)) ++ [10] = dec e.iov_len ++ [10] := by
      rw [to_long_nat _ (by omega), print_int_nat]
    have hpl : to_int (((dec e.iov_len ++ [10]).length : Nat) : Int)
        = ((dec e.iov_len).length + 1 : Nat) := by
      rw [to_int_nat _ (by simp; omega)]; simp
    have hmem := snprintf_fits m0 s.mem pre (dec e.iov_len ++ [10]) s.space hm ho
      (by simp; omega)
    have hstep := ih (done ++ [e]) (pre ++ (dec e.iov_len ++ [10]))
      { pos := s.pos + ((dec e.iov_len).length + 1 : Nat)
        space := to_size_t (s.space - (((dec e.iov_len).length + 1 : Nat) : Int))
        total := to_long (s.total + (((dec e.iov_len).length + 1 : Nat) : Int))
        mem := snprintf s.mem s.pos s.space (dec e.iov_len ++ [10]) }
      (fun x hx => hlen x (by simp [hx]))
      (by
        refine ⟨?_, ?_, ?_, ?_, ?_⟩
        · simp only [List.length_append, List.length_singleton]; rw [hpos]; push_cast; omega
        · simp only [List.length_append, List.length_singleton, to_size_t]; omega
        · simp only [List.length_append, List.length_singleton, to_long]; omega
        · rw [hpos]; exact hmem.1
        · rw [hpos]; exact hmem.2)
      (by simp only [List.length_append, List.length_singleton]; omega)
      (by simp only [List.length_append, List.length_singleton]; omega)
    obtain ⟨s', hs1, hs2⟩ := hstep
    refine ⟨s', ?_, ?_⟩
    · have hsp0 : s.space > 0 := by omega
      have hnle : ¬ (((dec e.iov_len).length + 1 : Nat) : Int) ≤ 0 := by omega
      rw [List.length_cons, serialize_lens]
      simp only [getD_append_cons, ht, hpl, if_pos hsp0, if_neg hnle]
      have e1 : done ++ e :: rest = done ++ [e] ++ rest := by simp
      have e2 : done.length + 1 = (done ++ [e]).length := by simp
      rw [e1, e2]
      exact hs1
    · rw [wire_lens_cons, ← List.append_assoc]
      exact hs2

theorem serialize_payloads_inv (src : Nat → Nat) (m0 : Int → Nat) (space : Nat)
    (hs : space < 18446744073709551616) :
    ∀ (todo done : List dbBE_sge_t) (pre : List Nat) (s : ser_state),
      (∀ e ∈ todo, e.iov_len < 2147483647) →
      ser_inv m0 space pre s →
      pre.length + (wire_payloads src todo).length < space →
      pre.length + (wire_payloads src todo).length < 4611686018427387904 →
      ser_inv m0 space (pre ++ wire_payloads src todo)
        (serialize_payloads src (done ++ todo) todo.length done.length s) := by
  intro todo
  induction todo with
  | nil =>
    intro done pre s _ hinv _ _
    simpa [serialize_payloads, wire_payloads] using hinv
  | cons e rest ih =>
    intro done pre s hlen hinv hsp hbig
    obtain ⟨hpos, hspace, htotal, hm, ho⟩ := hinv
    have hel : e.iov_len < 2147483647 := hlen e (by simp)
    rw [wire_payloads_cons] at hsp hbig
    simp only [List.length_append, List.length_singleton, payload_length] at hsp hbig
    have hpl : to_int (e.iov_len : Int) = e.iov_len := to_int_nat _ (by omega)
    have hpl1 : to_int ((e.iov_len : Int) + 1) = ((e.iov_len + 1 : Nat) : Int) := by
      unfold to_int; omega
    have hsz : to_size_t (e.iov_len : Int) = e.iov_len := by unfold to_size_t; omega
    have hmem := memcpy_fits m0 s.mem src pre e hm ho
    have hstep := ih (done ++ [e]) (pre ++ (payload src e ++ [10]))
      { pos := s.pos + ((e.iov_len + 1 : Nat) : Int)
        space := to_size_t (s.space - ((e.iov_len + 1 : Nat) : Int))
        total := to_long (s.total + ((e.iov_len + 1 : Nat) : Int))
        mem := store (memcpy s.mem s.pos src e.iov_base e.iov_len)
          (s.pos + (e.iov_len : Int)) [10] }
      (fun x hx => hlen x (by simp [hx]))
      (by
        refine ⟨?_, ?_, ?_, ?_, ?_⟩
        · simp only [List.length_append, List.length_singleton, payload_length]
          rw [hpos]; push_cast; omega
        · simp only [List.length_append, List.length_singleton, payload_length, to_size_t]
          omega
        · simp only [List.length_append, List.length_singleton, payload_length, to_long]
          omega
        · rw [hpos]; exact hmem.1
        · rw [hpos]; exact hmem.2)
      (by simp only [List.length_append, List.length_singleton, payload_length]; omega)
      (by simp only [List.length_append, List.length_singleton, payload_length]; omega)
    have hsp0 : s.space > 0 := by omega
    rw [List.length_cons, serialize_payloads]
    simp only [getD_append_cons, hpl, hpl1, hsz, if_pos hsp0]
    have e1 : done ++ e :: rest = done ++ [e] ++ rest := by simp
    have e2 : done.length + 1 = (done ++ [e]).length := by simp
    rw [e1, e2, wire_payloads_cons, ← List.append_assoc]
    exact hstep

theorem get_len_loop_eq (S : List dbBE_sge_t) : ∀ k acc, k ≤ S.length →
    acc + ((S.take k).map (fun e => e.iov_len)).sum < 18446744073709551616 →
    get_len_loop S k acc = acc + ((S.take k).map (fun e => e.iov_len)).sum := by
  intro k
  induction k with
  | zero => intro acc _ _; simp [get_len_loop]
  | succ k ih =>
    intro acc hk hb
    have hget : S.getD k default = S[k] := List.getD_eq_getElem _ _ (by omega)
    have htake : S.take (k + 1) = S.take k ++ [S[k]] := by
      rw [List.take_succ, List.getElem?_eq_getElem (by omega)]; rfl
    rw [htake] at hb ⊢
    simp only [List.map_append, List.sum_append, List.map_cons, List.map_nil, List.sum_cons,
      List.sum_nil, Nat.add_zero] at hb ⊢
    rw [get_len_loop, hget]
    have e : to_size_t ((acc : Int) + (S[k].iov_len : Int)) = acc + S[k].iov_len := by
      unfold to_size_t; omega
    rw [e, ih _ (by omega) (by omega)]
    omega

theorem sum_lens_le (S : List dbBE_sge_t) (B : Nat) (h : ∀ e ∈ S, e.iov_len < B) :
    (S.map (fun e => e.iov_len)).sum ≤ S.length * B := by
  induction S with
  | nil => simp
  | cons e rest ih =>
    have h1 := h e (by simp)
    have h2 := ih (fun x hx => h x (by simp [hx]))
    simp only [List.map_cons, List.sum_cons, List.length_cons]
    rw [Nat.add_mul]
    omega

theorem wire_lens_length_le (S : List dbBE_sge_t) (h : ∀ e ∈ S, e.iov_len < 2147483647) :
    (wire_lens S).length ≤ S.length * 11 := by
  induction S with
  | nil => simp [wire_lens]
  | cons e rest ih =>
    have h1 := dec_length_le_ten e.iov_len (by have := h e (by simp); omega)
    have h2 := ih (fun x hx => h x (by simp [hx]))
    rw [wire_lens_cons]
    simp only [List.length_append, List.length_cons, List.length_nil]
    rw [Nat.add_mul]
    omega

theorem wire_payloads_length (src : Nat → Nat) (S : List dbBE_sge_t) :
    (wire_payloads src S).length = (S.map (fun e => e.iov_len)).sum + S.length := by
  induction S with
  | nil => simp [wire_payloads]
  | cons e rest ih =>
    rw [wire_payloads_cons]
    simp only [List.length_append, List.length_cons, List.length_nil, payload_length, ih,
      List.map_cons, List.sum_cons]
    omega

theorem buffer_bytes_eq (m : Int → Nat) (l : List Nat)
    (h : ∀ k : Nat, k < l.length → m k = l.getD k 0) : buffer_bytes m l.length = l := by
  apply List.ext_getElem
  · simp [buffer_bytes]
  · intro n h1 h2
    simp only [buffer_bytes, List.getElem_map, List.getElem_range]
    have := h n h2
    rw [List.getD_eq_getElem _ _ h2] at this
    exact this

theorem wire_header_eq (S : List dbBE_sge_t) (h256 : S.length ≤ 256)
    (hlen : ∀ e ∈ S, e.iov_len < 2147483647) :
    print_int (to_long (dbBE_SGE_get_len (some S) (S.length : Int))) ++ [10]
      ++ print_int (S.length : Int) ++ [10] = wire_header S ∧ (wire_header S).length ≤ 17 := by
  have hsum := sum_lens_le S 2147483647 hlen
  have hsum2 : (S.map (fun e => e.iov_len)).sum < 1000000000000 := by
    have : S.length * 2147483647 ≤ 256 * 2147483647 := Nat.mul_le_mul_right _ h256
    omega
  have hget : dbBE_SGE_get_len (some S) (S.length : Int) = (S.map (fun e => e.iov_len)).sum := by
    simp only [dbBE_SGE_get_len, Int.toNat_ofNat]
    rw [get_len_loop_eq S S.length 0 (Nat.le_refl _) (by simp; omega)]
    simp
  have hd1 := dec_length_le 11 (S.map (fun e => e.iov_len)).sum (by omega)
  have hd2 := dec_length_le 2 S.length (by omega)
  constructor
  · rw [hget, to_long_nat _ (by omega), print_int_nat, print_int_nat]
    rfl
  · simp only [wire_header, List.length_append, List.length_cons, List.length_nil]
    omega

theorem serialize_wire_bytes (src : Nat → Nat) (m : Int → Nat) (S : List dbBE_sge_t)
    (space : Nat) (h1 : 1 ≤ S.length) (h256 : S.length ≤ 256)
    (hlen : ∀ e ∈ S, e.iov_len < 2147483647)
    (hsp : (wire src S).length < space) (hs : space < 18446744073709551616) :
    (dbBE_SGE_serialize src (some S) (S.length : Int) (some m) space).ret
      = (wire src S).length ∧
    buffer_bytes (dbBE_SGE_serialize src (some S) (S.length : Int) (some m) space).mem
      ((wire src S).length + 1) = wire src S ++ [0] ∧
    ∀ a : Int, a < 0 ∨ ((wire src S).length : Int) < a →
      (dbBE_SGE_serialize src (some S) (S.length : Int) (some m) space).mem a = m a := by
  obtain ⟨hhdr, hhl⟩ := wire_header_eq S h256 hlen
  have hll := wire_lens_length_le S hlen
  have hpl := wire_payloads_length src S
  have hsum := sum_lens_le S 2147483647 hlen
  have hmul1 : S.length * 2147483647 ≤ 256 * 2147483647 := Nat.mul_le_mul_right _ h256
  have hmul2 : S.length * 11 ≤ 256 * 11 := Nat.mul_le_mul_right _ h256
  have hwl : (wire src S).length
      = (wire_header S).length + (wire_lens S).length + (wire_payloads src S).length := by
    simp [wire, Nat.add_assoc]
  have hcount : ¬ ((S.length : Int) < 1 ∨ (S.length : Int) > DBBE_SGE_MAX) := by
    simp only [DBBE_SGE_MAX]; omega
  have hplen : to_int ((wire_header S).length : Int) = (wire_header S).length :=
    to_int_nat _ (by omega)
  have hpos : ¬ (((wire_header S).length : Nat) : Int) ≤ 0 := by
    have : 0 < (wire_header S).length := by simp [wire_header]
    omega
  have hmem0 := snprintf_fits m m [] (wire_header S) space (by simp) (by simp) (by omega)
  simp only [List.nil_append, List.length_nil, Nat.cast_zero] at hmem0
  have hinv0 : ser_inv m space (wire_header S)
      { pos := ((wire_header S).length : Int),
        space := to_size_t ((space : Int) - ((wire_header S).length : Int)),
        total := ((wire_header S).length : Int),
        mem := snprintf m 0 space (wire_header S) } := by
    refine ⟨rfl, ?_, rfl, hmem0.1, hmem0.2⟩
    simp only [to_size_t]; omega
  obtain ⟨s1, hs1, hinv1⟩ := serialize_lens_inv m space hs S [] (wire_header S) _ hlen hinv0
    (by omega) (by omega)
  have hinv2 := serialize_payloads_inv src m space hs S [] (wire_header S ++ wire_lens S) s1
    hlen hinv1 (by simp only [List.length_append]; omega)
    (by simp only [List.length_append]; omega)
  simp only [List.nil_append, List.length_nil] at hs1 hinv2
  have hw : wire_header S ++ wire_lens S ++ wire_payloads src S = wire src S := rfl
  rw [hw] at hinv2
  obtain ⟨h2pos, h2space, h2total, h2m, h2o⟩ := hinv2
  have hsp2 : (serialize_payloads src S S.length 0 s1).space ≠ 0 := by omega
  have hres : dbBE_SGE_serialize src (some S) (S.length : Int) (some m) space
      = ⟨(serialize_payloads src S S.length 0 s1).total,
          store (serialize_payloads src S S.length 0 s1).mem
            (serialize_payloads src S S.length 0 s1).pos [0]⟩ := by
    simp only [dbBE_SGE_serialize, if_neg hcount, hhdr, hplen, if_neg hpos, Int.toNat_ofNat, hs1,
      Bool.true_eq_false, if_false, if_neg hsp2]
  rw [hres]
  refine ⟨h2total, ?_, ?_⟩
  · have hl : (wire src S ++ [0]).length = (wire src S).length + 1 := by simp
    rw [← hl]
    apply buffer_bytes_eq
    intro k hk
    rw [hl] at hk
    simp only [store, h2pos, List.length_singleton]
    by_cases hk2 : k < (wire src S).length
    · rw [if_neg (by omega), List.getD_append _ _ _ _ hk2]
      exact h2m k hk2
    · have e : k = (wire src S).length := by omega
      subst e
      rw [if_pos (by omega), List.getD_append_right _ _ _ _ (Nat.le_refl _)]
      simp
  · intro a ha
    simp only [store, h2pos, List.length_singleton]
    rw [if_neg (by omega)]
    exact h2o a ha

/-! ## Header extraction on the wire form -/

theorem takeWhile_isspace_dec (n : Nat) (rest : List Nat) :
    (dec n ++ rest).takeWhile isspace = [] := by
  cases h : dec n with
  | nil => exact absurd h (dec_ne_nil n)
  | cons d t =>
    have hd : isdigit d = true := dec_digits n d (by rw [h]; simp)
    have hs := isspace_of_isdigit hd
    simp [hs]

theorem takeWhile_isspace_wire_lens (todo : List dbBE_sge_t) (rest : List Nat)
    (hr : rest.takeWhile isspace = []) : (wire_lens todo ++ rest).takeWhile isspace = [] := by
  cases todo with
  | nil => simpa [wire_lens] using hr
  | cons e t =>
    rw [wire_lens_cons, List.append_assoc, List.append_assoc]
    exact takeWhile_isspace_dec _ _

theorem dec_length_le_19 (n : Nat) (h : n < 9223372036854775808) : (dec n).length ≤ 19 :=
  dec_length_le 18 n (by omega)

theorem peek_nat (data : List Nat) (k : Nat) : peek data (k : Int) = data.getD k 0 := by
  simp [peek]

theorem extract_lens_lines : ∀ (todo : List dbBE_sge_t) (extra i : Nat) (pre rest : List Nat)
    (sp parsed : Nat) (arr : List dbBE_sge_t),
    (∀ e ∈ todo, e.iov_len < 9223372036854775808) →
    rest.takeWhile isspace = [] →
    (wire_lens todo).length ≤ sp → sp < 18446744073709551616 →
    parsed + (wire_lens todo).length < 18446744073709551616 →
    extract_lens (pre ++ (wire_lens todo ++ rest)) (todo.length + extra)
        { i := i, pos := pre.length, space := sp, parsed := parsed, sge := arr }
      = extract_lens (pre ++ (wire_lens todo ++ rest)) extra
        { i := i + todo.length, pos := ((pre.length + (wire_lens todo).length : Nat) : Int),
          space := sp - (wire_lens todo).length,
          parsed := parsed + (wire_lens todo).length,
          sge := write_lens i arr (todo.map (fun e => e.iov_len)) } := by
  intro todo
  induction todo with
  | nil =>
    intro extra i pre rest sp parsed arr _ _ _ _ _
    simp [wire_lens, write_lens]
  | cons e t ih =>
    intro extra i pre rest sp parsed arr hlen hr hsp hs hparsed
    have hel := hlen e (by simp)
    have hdl := dec_length_le_19 e.iov_len hel
    have hdp := dec_length_pos e.iov_len
    rw [wire_lens_cons] at hsp hparsed
    simp only [List.length_append, List.length_cons, List.length_nil] at hsp hparsed
    have hdata : pre ++ (wire_lens (e :: t) ++ rest)
        = (pre ++ (dec e.iov_len ++ [10])) ++ (wire_lens t ++ rest) := by
      rw [wire_lens_cons]; simp
    have hdrop : (pre ++ (wire_lens (e :: t) ++ rest)).drop pre.length
        = print_int (e.iov_len : Int) ++ 10 :: (wire_lens t ++ rest) := by
      rw [wire_lens_cons, List.drop_left, print_int_nat]; simp
    have hws := takeWhile_isspace_wire_lens t rest hr
    have hscan : sscanf_len ((pre ++ (wire_lens (e :: t) ++ rest)).drop pre.length)
        = ⟨1, e.iov_len, (((dec e.iov_len).length + 1 : Nat) : Int)⟩ := by
      rw [hdrop, sscanf_len_print, hws, print_int_nat]
      simp only [List.length_nil, Nat.add_zero]
      rw [to_int_nat _ (by omega), sat_long_of_range _ (by omega) (by omega)]
      simp [to_size_t]
      omega
    have hpeek : peek (pre ++ (wire_lens (e :: t) ++ rest))
        ((pre.length : Int) + (((dec e.iov_len).length + 1 : Nat) : Int) - 1) = 10 := by
      have e1 : (pre.length : Int) + (((dec e.iov_len).length + 1 : Nat) : Int) - 1
          = ((pre.length + (dec e.iov_len).length : Nat) : Int) := by push_cast; omega
      rw [e1, peek_nat, hdata, List.getD_append _ _ _ _ (by simp),
        List.getD_append_right _ _ _ _ (by omega),
        List.getD_append_right _ _ _ _ (by omega)]
      simp
    have hoff : to_size_t (((dec e.iov_len).length + 1 : Nat) : Int)
        = (dec e.iov_len).length + 1 := by
      simp only [to_size_t]; omega
    have hstep := ih extra (i + 1) (pre ++ (dec e.iov_len ++ [10])) rest
      (sp - ((dec e.iov_len).length + 1)) (parsed + ((dec e.iov_len).length + 1))
      (arr.set i { arr.getD i default with iov_len := e.iov_len })
      (fun x hx => hlen x (by simp [hx])) hr (by omega) (by omega) (by omega)
    have hsp1 : sp > 1 := by omega
    have hn : (e :: t).length + extra = (t.length + extra) + 1 := by
      simp only [List.length_cons]; omega
    rw [hn, extract_lens]
    simp only [Int.toNat_ofNat, hscan, hpeek, hoff, if_pos hsp1]
    have hc1 : ¬ ((1 : Int) < 1 ∨ (dec e.iov_len).length + 1 > sp) := by omega
    rw [if_neg hc1, if_neg (by simp)]
    rw [← hdata] at hstep
    have e2 : to_size_t ((sp : Int) - (((dec e.iov_len).length + 1 : Nat) : Int))
        = sp - ((dec e.iov_len).length + 1) := by
      simp only [to_size_t]; omega
    have e3 : to_size_t ((parsed : Int) + (((dec e.iov_len).length + 1 : Nat) : Int))
        = parsed + ((dec e.iov_len).length + 1) := by
      simp only [to_size_t]; omega
    have e4 : (pre.length : Int) + (((dec e.iov_len).length + 1 : Nat) : Int)
        = ((pre ++ (dec e.iov_len ++ [10])).length : Nat) := by
      simp only [List.length_append, List.length_cons, List.length_nil]; push_cast; omega
    rw [e2, e3, e4, hstep, wire_lens_cons]
    simp only [List.length_append, List.length_cons, List.length_nil, List.map_cons, write_lens]
    congr 2
    · omega
    · push_cast; omega
    · omega
    · omega

theorem extract_header_on_lines (calloc_ok : Bool) (sge_in : Option (List dbBE_sge_t))
    (sge_count : Int) (space : Nat) (o0 : Option (List dbBE_sge_t)) (p0 : Nat)
    (T n : Nat) (L : List dbBE_sge_t) (rest : List Nat)
    (hT1 : 4 ≤ T) (hT2 : T < 9223372036854775808) (hn1 : 1 ≤ n) (hn2 : n < 2147483648)
    (hL : L.length ≤ n) (hlen : ∀ e ∈ L, e.iov_len < 9223372036854775808)
    (hr : rest.takeWhile isspace = [])
    (hsp1 : 2 * n ≤ space)
    (hsp2 : (dec T).length + 1 + (dec n).length + 1 + (wire_lens L).length ≤ space)
    (hs : space < 18446744073709551616)
    (harg : (sge_in = none ∧ sge_count = 0 ∧ calloc_ok = true) ∨
      (∃ a, sge_in = some a ∧ (n : Int) ≤ sge_count)) :
    dbBE_SGE_extract_header calloc_ok sge_in sge_count
        (some ((dec T ++ 10 :: (dec n ++ [10])) ++ (wire_lens L ++ rest))) space
        (some o0) (some p0)
      = extract_tail n
          (extract_lens ((dec T ++ 10 :: (dec n ++ [10])) ++ (wire_lens L ++ rest))
            (n - L.length)
            { i := 0 + L.length,
              pos := (((dec T ++ 10 :: (dec n ++ [10])).length + (wire_lens L).length : Nat) : Int),
              space := (space - (dec T ++ 10 :: (dec n ++ [10])).length) - (wire_lens L).length,
              parsed := (dec T ++ 10 :: (dec n ++ [10])).length + (wire_lens L).length,
              sge := write_lens 0 (work_array sge_in n) (L.map (fun e => e.iov_len)) }) := by
  have hdT := dec_length_le_19 T hT2
  have hdn := dec_length_le_ten n hn2
  have hdTp := dec_length_pos T
  have hdnp := dec_length_pos n
  have hhl : (dec T ++ 10 :: (dec n ++ [10])).length = (dec T).length + 1 + (dec n).length + 1 := by
    simp; omega
  have hdata : (dec T ++ 10 :: (dec n ++ [10])) ++ (wire_lens L ++ rest)
      = print_int (T : Int) ++ 10 :: (print_int (n : Int) ++ 10 :: (wire_lens L ++ rest)) := by
    simp [print_int_nat]
  have hws := takeWhile_isspace_wire_lens L rest hr
  have hscan : sscanf_header ((dec T ++ 10 :: (dec n ++ [10])) ++ (wire_lens L ++ rest))
      = ⟨2, T, n, (((dec T ++ 10 :: (dec n ++ [10])).length : Nat) : Int)⟩ := by
    rw [hdata, sscanf_header_print, hws, print_int_nat, print_int_nat,
      sat_long_of_range _ (by omega) (by omega), sat_long_of_range _ (by omega) (by omega),
      to_int_nat n hn2, to_int_nat _ (by simp; omega)]
    simp only [List.length_nil, Nat.add_zero, hhl]
    congr 1
    · simp [to_size_t]; omega
    · congr 1; omega
  have hinv : ¬ (space < 4 ∨ (sge_in.isSome = true ∧ sge_count < 1)
      ∨ (sge_in.isNone = true ∧ sge_count ≠ 0)) := by
    rcases harg with ⟨h1, h2, _⟩ | ⟨a, h1, h2⟩
    · subst h1; subst h2; simp; omega
    · subst h1; simp; omega
  have hoff : to_size_t (((dec T ++ 10 :: (dec n ++ [10])).length : Nat) : Int)
      = (dec T ++ 10 :: (dec n ++ [10])).length := by
    simp only [to_size_t]; omega
  have hun : to_unsigned ((to_unsigned (n : Int) : Nat) * 2 : Int) = 2 * n := by
    simp only [to_unsigned]; omega
  have hbad : ¬ ((2 : Int) < 2 ∨ (((dec T ++ 10 :: (dec n ++ [10])).length : Nat) : Int) < 0
      ∨ (dec T ++ 10 :: (dec n ++ [10])).length > space ∨ (n : Int) < 1 ∨ T < 4
      ∨ space < 2 * n) := by
    omega
  have hsz : to_size_t (n : Int) = n := by simp only [to_size_t]; omega
  have hsp3 : to_size_t ((space : Int) - (((dec T ++ 10 :: (dec n ++ [10])).length : Nat) : Int))
      = space - (dec T ++ 10 :: (dec n ++ [10])).length := by
    simp only [to_size_t]; omega
  have hlines := extract_lens_lines L (n - L.length) 0 (dec T ++ 10 :: (dec n ++ [10])) rest
    (space - (dec T ++ 10 :: (dec n ++ [10])).length) (dec T ++ 10 :: (dec n ++ [10])).length
    (work_array sge_in n) hlen hr (by omega) (by omega) (by omega)
  have hcnt : L.length + (n - L.length) = n := by omega
  rw [hcnt] at hlines
  unfold dbBE_SGE_extract_header
  simp only [if_neg hinv, hscan, hoff, hun, if_neg hbad, hsz, hsp3, Int.toNat_ofNat]
  rcases harg with ⟨h1, h2, h3⟩ | ⟨a, h1, h2⟩
  · subst h1; subst h2; subst h3
    simp only [work_array] at hlines
    simp only [if_true, Option.isSome_none, Bool.false_eq_true, false_and, if_false, hlines,
      extract_tail, work_array]
  · subst h1
    simp only [work_array] at hlines
    have h3 : ¬ (sge_count < (n : Int)) := by omega
    simp only [Option.isSome_some, true_and, if_neg h3, hlines, extract_tail, work_array]

theorem buffer_bytes_succ (m : Int → Nat) (n : Nat) :
    buffer_bytes m (n + 1) = buffer_bytes m n ++ [m n] := by
  simp [buffer_bytes, List.range_succ]

theorem buffer_bytes_length (m : Int → Nat) (n : Nat) : (buffer_bytes m n).length = n := by
  simp [buffer_bytes]

theorem serialize_wire (src : Nat → Nat) (m : Int → Nat) (S : List dbBE_sge_t)
    (space : Nat) (h1 : 1 ≤ S.length) (h256 : S.length ≤ 256)
    (hlen : ∀ e ∈ S, e.iov_len < 2147483647)
    (hsp : (wire src S).length < space) (hs : space < 18446744073709551616) :
    (dbBE_SGE_serialize src (some S) (S.length : Int) (some m) space).ret.toNat
      = (wire src S).length ∧
    buffer_bytes (dbBE_SGE_serialize src (some S) (S.length : Int) (some m) space).mem
      (wire src S).length = wire src S := by
  obtain ⟨hret, hbytes, _⟩ := serialize_wire_bytes src m S space h1 h256 hlen hsp hs
  refine ⟨by rw [hret]; simp, ?_⟩
  rw [buffer_bytes_succ] at hbytes
  have := congrArg (List.take (wire src S).length) hbytes
  rw [List.take_left' (buffer_bytes_length _ _), List.take_left' rfl] at this
  exact this

theorem wire_lens_append (A B : List dbBE_sge_t) :
    wire_lens (A ++ B) = wire_lens A ++ wire_lens B := by
  simp [wire_lens]

theorem wire_take (src : Nat → Nat) (S : List dbBE_sge_t) (i r : Nat) (hi : i < S.length)
    (hr : r ≤ (dec (S.getD i default).iov_len).length) :
    (wire src S).take ((wire_header S).length + (wire_lens (S.take i)).length + r)
      = wire_header S ++ (wire_lens (S.take i)
          ++ (dec (S.getD i default).iov_len).take r) := by
  have hS : S = S.take i ++ S.getD i default :: S.drop (i + 1) := by
    rw [List.getD_eq_getElem _ _ hi]
    simp
  have hw : wire src S = wire_header S ++ (wire_lens (S.take i)
      ++ (dec (S.getD i default).iov_len
        ++ ([10] ++ wire_lens (S.drop (i + 1)) ++ wire_payloads src S))) := by
    conv_lhs => rw [wire, hS, wire_lens_append, wire_lens_cons]
    rw [← hS]
    simp
  rw [hw, Nat.add_assoc, List.take_append, List.take_append,
    List.take_append_of_le_length hr]

theorem takeWhile_isspace_digits (l : List Nat) (h : ∀ c ∈ l, isdigit c = true) :
    l.takeWhile isspace = [] := by
  cases l with
  | nil => rfl
  | cons d t => simp [isspace_of_isdigit (h d (by simp))]

theorem extract_lens_cut (pre cut : List Nat) (N : Int) (m i parsed : Nat)
    (arr : List dbBE_sge_t) (hcut : ∀ c ∈ cut, isdigit c = true) (h1 : cut.length ≠ 1)
    (h2 : cut.length < 2147483648) (hi : (i : Int) < N) :
    (extract_tail N (extract_lens (pre ++ cut) (m + 1)
      { i := i, pos := (pre.length : Int), space := cut.length, parsed := parsed,
        sge := arr })).ret = -EAGAIN := by
  cases cut with
  | nil =>
    simp [extract_lens, extract_tail, hi]
  | cons d t =>
    have hlen : (d :: t).length = t.length + 1 := rfl
    rw [hlen] at h1 h2
    have hdrop : (pre ++ d :: t).drop pre.length = d :: t ++ [] := by
      rw [List.drop_left]; simp
    have hscan : scan_int (d :: t ++ [])
        = conv.ok (sat_long (digits_value (d :: t))) (t.length + 1) :=
      scan_int_digits d t [] hcut (by simp)
    have hdd : (d :: t ++ []).drop (t.length + 1) = [] := by simp
    have hsl : sscanf_len ((pre ++ d :: t).drop pre.length)
        = ⟨1, to_size_t (sat_long (digits_value (d :: t))), ((t.length + 1 : Nat) : Int)⟩ := by
      rw [hdrop]
      unfold sscanf_len
      simp only [hscan, hdd, List.takeWhile_nil, List.length_nil, Nat.add_zero, Nat.cast_zero,
        add_zero]
      rw [to_int_nat _ h2]
    have hoff : to_size_t ((t.length + 1 : Nat) : Int) = t.length + 1 := by
      simp only [to_size_t]; omega
    have hlast : isdigit ((d :: t).getD t.length 0) = true := by
      apply hcut
      rw [List.getD_eq_getElem _ _ (by simp)]
      exact List.getElem_mem _
    have hpeek : peek (pre ++ d :: t) ((pre.length : Int) + ((t.length + 1 : Nat) : Int) - 1)
        ≠ 10 := by
      have e1 : (pre.length : Int) + ((t.length + 1 : Nat) : Int) - 1
          = ((pre.length + t.length : Nat) : Int) := by push_cast; omega
      rw [e1, peek_nat, List.getD_append_right _ _ _ _ (by omega)]
      have e2 : pre.length + t.length - pre.length = t.length := by omega
      rw [e2]
      intro h
      rw [h] at hlast
      simp [isdigit] at hlast
    have hsp1 : t.length + 1 > 1 := by omega
    have hc1 : ¬ ((1 : Int) < 1 ∨ t.length + 1 > t.length + 1) := by omega
    rw [extract_lens]
    simp only [Int.toNat_ofNat, hlen, hsl, hoff, if_pos hsp1, if_neg hc1, if_pos hpeek,
      extract_tail]

/-- C4 (amended): let `B` be the buffer written by `dbBE_SGE_serialize` for a
list `S` with a total length of at least 4, and `B1` its first `k` bytes,
where `B1` holds the two header lines, the first `i` length lines (`i < |S|`)
and `r` digits of the next one, `r` different from 1, and `k` is at least
`2 * |S|`.  Then `dbBE_SGE_extract_header` on `B1` (terminated by `'\0'`,
`space = k`, no caller array or one of at least `|S|` entries) returns
`-EAGAIN`. -/
theorem extract_header_cut_EAGAIN (src : Nat → Nat) (m : Int → Nat) (S : List dbBE_sge_t)
    (space : Nat) (calloc_ok : Bool) (sge_in : Option (List dbBE_sge_t)) (sge_count : Int)
    (o0 : Option (List dbBE_sge_t)) (p0 i r : Nat)
    (h1 : 1 ≤ S.length) (h256 : S.length ≤ 256)
    (hlen : ∀ e ∈ S, e.iov_len < 2147483647)
    (hsp : (wire src S).length < space) (hs : space < 18446744073709551616)
    (hsum : 4 ≤ (S.map (fun e => e.iov_len)).sum)
    (hi : i < S.length) (hr : r ≤ (dec (S.getD i default).iov_len).length) (hr1 : r ≠ 1)
    (hk2 : 2 * S.length ≤ (wire_header S).length + (wire_lens (S.take i)).length + r)
    (harg : (sge_in = none ∧ sge_count = 0 ∧ calloc_ok = true) ∨
      (∃ a, sge_in = some a ∧ (S.length : Int) ≤ sge_count)) :
    (dbBE_SGE_extract_header calloc_ok sge_in sge_count
      (some ((buffer_bytes (dbBE_SGE_serialize src (some S) (S.length : Int) (some m) space).mem
          (dbBE_SGE_serialize src (some S) (S.length : Int) (some m) space).ret.toNat).take
        ((wire_header S).length + (wire_lens (S.take i)).length + r)))
      ((wire_header S).length + (wire_lens (S.take i)).length + r) (some o0) (some p0)).ret
      = -EAGAIN := by
  obtain ⟨hret, hbytes⟩ := serialize_wire src m S space h1 h256 hlen hsp hs
  rw [hret, hbytes, wire_take src S i r hi hr]
  have hsumle := sum_lens_le S 2147483647 hlen
  have hmul1 : S.length * 2147483647 ≤ 256 * 2147483647 := Nat.mul_le_mul_right _ h256
  have hll := wire_lens_length_le (S.take i) (fun e he => hlen e (List.mem_of_mem_take he))
  have hti : (S.take i).length = i := by simp; omega
  have hmul2 : i * 11 ≤ 256 * 11 := Nat.mul_le_mul_right _ (by omega)
  rw [hti] at hll
  have hdl := dec_length_le_ten (S.getD i default).iov_len (by
    have := hlen (S.getD i default) (by
      rw [List.getD_eq_getElem _ _ hi]; exact List.getElem_mem _)
    omega)
  have hcutd : ∀ c ∈ (dec (S.getD i default).iov_len).take r, isdigit c = true :=
    fun c hc => dec_digits _ c (List.mem_of_mem_take hc)
  have hcutl : ((dec (S.getD i default).iov_len).take r).length = r := by
    rw [List.length_take]; exact Nat.min_eq_left hr
  have hh : wire_header S
      = dec (S.map (fun (e : dbBE_sge_t) => e.iov_len)).sum ++ 10 :: (dec S.length ++ [10]) := by
    simp [wire_header]
  have hhl : (wire_header S).length ≤ 17 := (wire_header_eq S h256 hlen).2
  rw [hh] at hk2 hhl ⊢
  have hhl2 : (dec (S.map (fun (e : dbBE_sge_t) => e.iov_len)).sum ++ 10 :: (dec S.length ++ [10])).length
      = (dec (S.map (fun (e : dbBE_sge_t) => e.iov_len)).sum).length + 1 + (dec S.length).length + 1 := by
    simp; omega
  rw [extract_header_on_lines calloc_ok sge_in sge_count _ o0 p0
    (S.map (fun (e : dbBE_sge_t) => e.iov_len)).sum S.length (S.take i)
    ((dec (S.getD i default).iov_len).take r) hsum (by omega) h1 (by omega) (by omega)
    (fun e he => by have := hlen e (List.mem_of_mem_take he); omega)
    (takeWhile_isspace_digits _ hcutd) hk2 (by omega) (by omega) harg]
  obtain ⟨j, hj⟩ : ∃ j, S.length - (S.take i).length = j + 1 := ⟨S.length - i - 1, by omega⟩
  rw [hj]
  have hsp3 : (dec (S.map (fun (e : dbBE_sge_t) => e.iov_len)).sum ++ 10 :: (dec S.length ++ [10])).length
        + (wire_lens (S.take i)).length + r
        - (dec (S.map (fun (e : dbBE_sge_t) => e.iov_len)).sum ++ 10 :: (dec S.length ++ [10])).length
        - (wire_lens (S.take i)).length
      = ((dec (S.getD i default).iov_len).take r).length := by
    rw [hcutl]; omega
  have hpre : (((dec (S.map (fun (e : dbBE_sge_t) => e.iov_len)).sum ++ 10 :: (dec S.length ++ [10])).length
        + (wire_lens (S.take i)).length : Nat) : Int)
      = (((dec (S.map (fun (e : dbBE_sge_t) => e.iov_len)).sum ++ 10 :: (dec S.length ++ [10]))
          ++ wire_lens (S.take i)).length : Int) := by
    simp only [List.length_append]
  rw [hsp3, hpre, ← List.append_assoc]
  exact extract_lens_cut _ _ _ _ _ _ _ hcutd (by rw [hcutl]; exact hr1)
    (by rw [hcutl]; omega) (by rw [hti]; omega)

/-- The theorem `extract_header_cut_EAGAIN` at one element of 12 bytes, whose
serialized form starts `"12\n1\n12\n"`, cut behind the two digits of the
length line (7 bytes). -/
theorem extract_header_cut_EAGAIN_witness :
    (dbBE_SGE_extract_header true none 0
      (some ((buffer_bytes (dbBE_SGE_serialize (mem_of [97, 98, 99, 100, 101, 102, 103, 104, 105,
            106, 107, 108]) (some [⟨0, 12⟩]) (([⟨0, 12⟩] : List dbBE_sge_t).length : Int)
            (some (fun _ => 255)) 64).mem
          (dbBE_SGE_serialize (mem_of [97, 98, 99, 100, 101, 102, 103, 104, 105, 106, 107, 108])
            (some [⟨0, 12⟩]) (([⟨0, 12⟩] : List dbBE_sge_t).length : Int)
            (some (fun _ => 255)) 64).ret.toNat).take
        ((wire_header [⟨0, 12⟩]).length + (wire_lens (([⟨0, 12⟩] : List dbBE_sge_t).take 0)).length
          + 2)))
      ((wire_header [⟨0, 12⟩]).length + (wire_lens (([⟨0, 12⟩] : List dbBE_sge_t).take 0)).length
        + 2) (some none) (some 0)).ret = -EAGAIN :=
  extract_header_cut_EAGAIN (mem_of [97, 98, 99, 100, 101, 102, 103, 104, 105, 106, 107, 108])
    (fun _ => 255) [⟨0, 12⟩] 64 true none 0 none 0 0 2 (by decide) (by decide) (by decide)
    (by decide) (by decide) (by decide) (by decide) (by decide) (by decide) (by decide)
    (Or.inl ⟨rfl, rfl, rfl⟩)

/-- C4: four prefixes of serialized buffers, each of at least 4 bytes and
ending before the last length line is complete, on which
`dbBE_SGE_extract_header` does not return `-EAGAIN`: the first 4 bytes
`"2\n1\n"` for the list `["ab"]` (total length below 4) give `-EBADMSG`; the
first 4 bytes `"100\n"` for one element of 100 bytes (count line missing) give
`-EBADMSG`; the first 4 bytes `"4\n3\n"` for three elements of 2, 1 and 1
bytes (fewer than 2 bytes per element) give `-EBADMSG`; the first 5 bytes
`"4\n1\n4"` for the list `["abcd"]` (one byte behind the header) give the
count 1. -/
theorem extract_header_prefix_not_EAGAIN :
    (dbBE_SGE_extract_header true none 0
      (some ((buffer_bytes (dbBE_SGE_serialize (mem_of [97, 98]) (some [⟨0, 2⟩]) 1
          (some (fun _ => 255)) 64).mem
        (dbBE_SGE_serialize (mem_of [97, 98]) (some [⟨0, 2⟩]) 1
          (some (fun _ => 255)) 64).ret.toNat).take 4)) 4 (some none) (some 0)).ret
      = -EBADMSG ∧
    (dbBE_SGE_extract_header true none 0
      (some ((buffer_bytes (dbBE_SGE_serialize (fun _ => 97) (some [⟨0, 100⟩]) 1
          (some (fun _ => 255)) 256).mem
        (dbBE_SGE_serialize (fun _ => 97) (some [⟨0, 100⟩]) 1
          (some (fun _ => 255)) 256).ret.toNat).take 4)) 4 (some none) (some 0)).ret
      = -EBADMSG ∧
    (dbBE_SGE_extract_header true none 0
      (some ((buffer_bytes (dbBE_SGE_serialize (mem_of [97, 98, 99, 100])
          (some [⟨0, 2⟩, ⟨2, 1⟩, ⟨3, 1⟩]) 3 (some (fun _ => 255)) 64).mem
        (dbBE_SGE_serialize (mem_of [97, 98, 99, 100])
          (some [⟨0, 2⟩, ⟨2, 1⟩, ⟨3, 1⟩]) 3 (some (fun _ => 255)) 64).ret.toNat).take 4)) 4
      (some none) (some 0)).ret
      = -EBADMSG ∧
    (dbBE_SGE_extract_header true none 0
      (some ((buffer_bytes (dbBE_SGE_serialize (mem_of [97, 98, 99, 100]) (some [⟨0, 4⟩]) 1
          (some (fun _ => 255)) 64).mem
        (dbBE_SGE_serialize (mem_of [97, 98, 99, 100]) (some [⟨0, 4⟩]) 1
          (some (fun _ => 255)) 64).ret.toNat).take 5)) 5 (some none) (some 0)).ret
      = 1 := by
  refine ⟨?_, ?_, ?_, ?_⟩ <;> decide

/-! ## Round trip -/

theorem to_size_t_nat (n : Nat) (h : n < 18446744073709551616) : to_size_t (n : Int) = n := by
  unfold to_size_t
  omega

theorem write_lens_before : ∀ (w : List Nat) (k : Nat) (b : List dbBE_sge_t) (i : Nat), i < k →
    (write_lens k b w).getD i default = b.getD i default := by
  intro w
  induction w with
  | nil => intro k b i _; rfl
  | cons l w ih =>
    intro k b i hk
    simp only [write_lens]
    rw [ih _ _ _ (by omega), getD_set_sge, if_neg (by omega)]

theorem write_lens_getD : ∀ (w : List Nat) (i : Nat) (a : List dbBE_sge_t) (j : Nat),
    j < w.length → i + j < a.length →
    ((write_lens i a w).getD (i + j) default).iov_len = w.getD j 0 := by
  intro w
  induction w with
  | nil => intro i a j hj; simp at hj
  | cons l w ih =>
    intro i a j hj ha
    simp only [write_lens]
    cases j with
    | zero =>
      simp only [Nat.add_zero] at ha ⊢
      rw [write_lens_before _ _ _ _ (by omega), getD_set_sge, if_pos ⟨rfl, ha⟩]
      rfl
    | succ j =>
      have := ih (i + 1) (a.set i { a.getD i default with iov_len := l }) j
        (by simpa using hj) (by simp; omega)
      have e : i + 1 + j = i + (j + 1) := by omega
      rw [e] at this
      rw [this]
      rfl

theorem deserialize_loop_payloads (src : Nat → Nat) (tail : List Nat) :
    ∀ (todo : List dbBE_sge_t) (i : Nat) (pre : List Nat) (arr : List dbBE_sge_t),
    (∀ j, j < todo.length →
      (arr.getD (i + j) default).iov_len = (todo.getD j default).iov_len) →
    i + todo.length ≤ arr.length →
    (pre ++ (wire_payloads src todo ++ tail)).length < 18446744073709551616 →
    (∀ x, x < pre.length →
      (deserialize_loop todo.length i pre.length
        (pre ++ (wire_payloads src todo ++ tail)) arr).1.getD x 0
      = (pre ++ (wire_payloads src todo ++ tail)).getD x 0) ∧
    ∀ j, j < todo.length →
      ((deserialize_loop todo.length i pre.length
          (pre ++ (wire_payloads src todo ++ tail)) arr).2.getD (i + j) default).iov_len
        = (todo.getD j default).iov_len ∧
      ∀ k, k < (todo.getD j default).iov_len →
        (deserialize_loop todo.length i pre.length
          (pre ++ (wire_payloads src todo ++ tail)) arr).1.getD
          (((deserialize_loop todo.length i pre.length
            (pre ++ (wire_payloads src todo ++ tail)) arr).2.getD (i + j) default).iov_base + k) 0
        = src ((todo.getD j default).iov_base + k) := by
  intro todo
  induction todo with
  | nil =>
    intro i pre arr _ _ _
    refine ⟨fun x _ => by simp [deserialize_loop], ?_⟩
    intro j hj
    simp at hj
  | cons e t ih =>
    intro i pre arr harr hcap hbound
    have h0 := harr 0 (by simp)
    simp only [Nat.add_zero, List.getD_cons_zero] at h0
    have hwl : (pre ++ (wire_payloads src (e :: t) ++ tail)).length
        = pre.length + (e.iov_len + 1 + ((wire_payloads src t).length + tail.length)) := by
      rw [wire_payloads_cons]
      simp only [List.length_append, List.length_cons, List.length_nil, payload_length]
      omega
    have hoff : to_size_t ((pre.length : Int) + (e.iov_len : Int)) = pre.length + e.iov_len := by
      unfold to_size_t
      omega
    have hnext : to_size_t ((pre.length : Int) + (e.iov_len : Int) + 1)
        = pre.length + e.iov_len + 1 := by
      unfold to_size_t
      omega
    have hdata : (pre ++ (wire_payloads src (e :: t) ++ tail)).set (pre.length + e.iov_len) 0
        = (pre ++ (payload src e ++ [0])) ++ (wire_payloads src t ++ tail) := by
      rw [wire_payloads_cons]
      rw [List.set_append_right _ _ (by omega)]
      simp only [List.append_assoc]
      congr 1
      have e1 : pre.length + e.iov_len - pre.length = (payload src e).length := by
        rw [payload_length]; omega
      rw [e1, List.set_append_right _ _ (Nat.le_refl _)]
      simp
    have hpl : pre.length + e.iov_len + 1 = (pre ++ (payload src e ++ [0])).length := by
      simp [payload_length]; omega
    have hbound2 : ((pre ++ (payload src e ++ [0])) ++ (wire_payloads src t ++ tail)).length
        < 18446744073709551616 := by
      rw [← hdata, List.length_set]
      exact hbound
    obtain ⟨hbelow, hstep⟩ := ih (i + 1) (pre ++ (payload src e ++ [0]))
      (arr.set i { arr.getD i default with iov_base := pre.length })
      (by
        intro j hj
        rw [getD_set_sge, if_neg (by omega)]
        have := harr (j + 1) (by simp; omega)
        simp only [List.getD_cons_succ] at this
        have e2 : i + 1 + j = i + (j + 1) := by omega
        rw [e2]; exact this)
      (by simp at hcap ⊢; omega) hbound2
    have hunf : deserialize_loop (e :: t).length i pre.length
        (pre ++ (wire_payloads src (e :: t) ++ tail)) arr
        = deserialize_loop t.length (i + 1) (pre ++ (payload src e ++ [0])).length
          ((pre ++ (payload src e ++ [0])) ++ (wire_payloads src t ++ tail))
          (arr.set i { arr.getD i default with iov_base := pre.length }) := by
      rw [List.length_cons, deserialize_loop_succ, h0, hoff, hnext, hdata, hpl]
    rw [hunf]
    constructor
    · intro x hx
      rw [hbelow x (by rw [← hpl]; omega)]
      rw [List.append_assoc, List.getD_append _ _ _ _ hx, List.getD_append _ _ _ _ hx]
    · intro j hj
      cases j with
      | zero =>
        simp only [Nat.add_zero, List.getD_cons_zero]
        rw [deserialize_loop_before _ _ _ _ _ _ (by omega), getD_set_sge,
          if_pos ⟨rfl, by simp at hcap; omega⟩]
        refine ⟨h0, ?_⟩
        intro k hk
        simp only
        rw [hbelow _ (by rw [← hpl]; omega)]
        rw [List.append_assoc, List.getD_append_right _ _ _ _ (by omega)]
        have e3 : pre.length + k - pre.length = k := by omega
        rw [e3, List.append_assoc, List.getD_append _ _ _ _ (by rw [payload_length]; exact hk),
          payload_getD _ _ _ hk]
      | succ j =>
        have := hstep j (by simpa using hj)
        have e2 : i + 1 + j = i + (j + 1) := by omega
        rw [e2] at this
        simpa using this

theorem payload_head (src : Nat → Nat) (e : dbBE_sge_t) (h : 0 < e.iov_len) :
    ∃ t, payload src e = src e.iov_base :: t := by
  obtain ⟨n, hn⟩ : ∃ n, e.iov_len = n + 1 := ⟨e.iov_len - 1, by omega⟩
  refine ⟨(List.range n).map (fun k => src (e.iov_base + (k + 1))), ?_⟩
  simp only [payload, hn, List.range_succ_eq_map, List.map_cons, List.map_map, Nat.add_zero]
  rfl

theorem takeWhile_isspace_payloads (src : Nat → Nat) (S : List dbBE_sge_t) (tail : List Nat)
    (h1 : 1 ≤ S.length)
    (hfirst : 0 < (S.getD 0 default).iov_len ∧ isspace (src (S.getD 0 default).iov_base) = false) :
    (wire_payloads src S ++ tail).takeWhile isspace = [] := by
  cases S with
  | nil => simp at h1
  | cons e t =>
    simp only [List.getD_cons_zero] at hfirst
    obtain ⟨p, hp⟩ := payload_head src e hfirst.1
    rw [wire_payloads_cons, hp]
    simp [hfirst.2]

theorem wire_lens_length_ge (S : List dbBE_sge_t) : 2 * S.length ≤ (wire_lens S).length := by
  induction S with
  | nil => simp
  | cons e t ih =>
    have := dec_length_pos e.iov_len
    rw [wire_lens_cons]
    simp only [List.length_append, List.length_cons, List.length_nil]
    omega

theorem extract_header_wire (src : Nat → Nat) (S : List dbBE_sge_t) (tail : List Nat)
    (space : Nat) (calloc_ok : Bool) (sge_in : Option (List dbBE_sge_t)) (sge_count : Int)
    (o0 : Option (List dbBE_sge_t)) (p0 : Nat)
    (h1 : 1 ≤ S.length) (h256 : S.length ≤ 256)
    (hlen : ∀ e ∈ S, e.iov_len < 2147483647)
    (hsum : 4 ≤ (S.map (fun e => e.iov_len)).sum)
    (hfirst : 0 < (S.getD 0 default).iov_len ∧ isspace (src (S.getD 0 default).iov_base) = false)
    (hsp : (wire_header S).length + (wire_lens S).length ≤ space)
    (hs : space < 18446744073709551616)
    (harg : (sge_in = none ∧ sge_count = 0 ∧ calloc_ok = true) ∨
      (∃ a, sge_in = some a ∧ (S.length : Int) ≤ sge_count)) :
    dbBE_SGE_extract_header calloc_ok sge_in sge_count (some (wire src S ++ tail)) space
        (some o0) (some p0)
      = ⟨S.length, some (write_lens 0 (work_array sge_in S.length) (S.map (fun e => e.iov_len))),
          (wire_header S).length + (wire_lens S).length⟩ := by
  have hsumle := sum_lens_le S 2147483647 hlen
  have hmul1 : S.length * 2147483647 ≤ 256 * 2147483647 := Nat.mul_le_mul_right _ h256
  have hh : wire_header S
      = dec (S.map (fun (e : dbBE_sge_t) => e.iov_len)).sum ++ 10 :: (dec S.length ++ [10]) := by
    simp [wire_header]
  have hhl2 : (dec (S.map (fun (e : dbBE_sge_t) => e.iov_len)).sum
        ++ 10 :: (dec S.length ++ [10])).length
      = (dec (S.map (fun (e : dbBE_sge_t) => e.iov_len)).sum).length + 1
          + (dec S.length).length + 1 := by
    simp; omega
  have hdata : wire src S ++ tail = (dec (S.map (fun (e : dbBE_sge_t) => e.iov_len)).sum
      ++ 10 :: (dec S.length ++ [10])) ++ (wire_lens S ++ (wire_payloads src S ++ tail)) := by
    rw [← hh]; simp [wire]
  have hll := wire_lens_length_ge S
  rw [hh] at hsp
  rw [hdata, extract_header_on_lines calloc_ok sge_in sge_count space o0 p0
    (S.map (fun (e : dbBE_sge_t) => e.iov_len)).sum S.length S (wire_payloads src S ++ tail)
    hsum (by omega) h1 (by omega) (Nat.le_refl _)
    (fun e he => by have := hlen e he; omega)
    (takeWhile_isspace_payloads src S tail h1 hfirst) (by omega) (by omega) hs harg]
  simp only [Nat.sub_self, extract_lens, extract_tail, Nat.zero_add, Nat.cast_lt, lt_self_iff_false,
    false_and, if_false, hh]

theorem work_array_length (sge_in : Option (List dbBE_sge_t)) (n : Nat) (c : Int)
    (harg : (sge_in = none ∧ c = 0) ∨
      (∃ a, sge_in = some a ∧ (n : Int) ≤ c ∧ c ≤ a.length)) :
    n ≤ (work_array sge_in n).length ∧ (sge_in = none → (work_array sge_in n).length = n) := by
  rcases harg with ⟨h, _⟩ | ⟨a, h, h2, h3⟩
  · subst h; simp [work_array]
  · subst h; simp [work_array]; omega

theorem deserialize_wire (src : Nat → Nat) (S : List dbBE_sge_t) (tail : List Nat)
    (space : Nat) (calloc_ok : Bool) (o : Option (List dbBE_sge_t)) (c : Int)
    (h1 : 1 ≤ S.length) (h256 : S.length ≤ 256)
    (hlen : ∀ e ∈ S, e.iov_len < 2147483647)
    (hsum : 4 ≤ (S.map (fun e => e.iov_len)).sum)
    (hfirst : 0 < (S.getD 0 default).iov_len ∧ isspace (src (S.getD 0 default).iov_base) = false)
    (hsp : (wire_header S).length + (wire_lens S).length < space)
    (hs : space < 18446744073709551616)
    (hdlen : (wire src S ++ tail).length < 18446744073709551616)
    (harg : (o = none ∧ c = 0 ∧ calloc_ok = true) ∨
      (∃ a, o = some a ∧ (S.length : Int) ≤ c ∧ c ≤ a.length)) :
    (dbBE_SGE_deserialize calloc_ok (some (wire src S ++ tail)) space (some o) (some c)).ret = 0 ∧
    ∃ sge, (dbBE_SGE_deserialize calloc_ok (some (wire src S ++ tail)) space (some o)
        (some c)).sge_out = some sge ∧
      S.length ≤ sge.length ∧ (o = none → sge.length = S.length) ∧
      ∀ j, j < S.length →
        (sge.getD j default).iov_len = (S.getD j default).iov_len ∧
        ∀ k, k < (S.getD j default).iov_len →
          (dbBE_SGE_deserialize calloc_ok (some (wire src S ++ tail)) space (some o)
            (some c)).data.getD ((sge.getD j default).iov_base + k) 0
          = src ((S.getD j default).iov_base + k) := by
  have harg1 : (o = none ∧ c = 0 ∧ calloc_ok = true) ∨
      (∃ a, o = some a ∧ (S.length : Int) ≤ c) := by
    rcases harg with h | ⟨a, h, h2, _⟩
    · exact Or.inl h
    · exact Or.inr ⟨a, h, h2⟩
  have harg2 : (o = none ∧ c = 0) ∨
      (∃ a, o = some a ∧ (S.length : Int) ≤ c ∧ c ≤ a.length) := by
    rcases harg with ⟨h, h2, _⟩ | h
    · exact Or.inl ⟨h, h2⟩
    · exact Or.inr h
  obtain ⟨hwa1, hwa2⟩ := work_array_length o S.length c harg2
  have hhdr := extract_header_wire src S tail space calloc_ok o c o 0 h1 h256 hlen hsum hfirst
    (by omega) hs harg1
  have hb : ¬ ((S.length : Int) = -EBADMSG) := by simp only [EBADMSG]; omega
  have ha : ¬ ((S.length : Int) = -EAGAIN) := by simp only [EAGAIN]; omega
  have hlt : ¬ ((S.length : Int) < 0) := by omega
  have hsp1 : ¬ to_size_t ((space : Int)
      - (((wire_header S ++ wire_lens S).length : Nat) : Int)) = 0 := by
    simp only [to_size_t, List.length_append]; omega
  have hdata : wire src S ++ tail
      = (wire_header S ++ wire_lens S) ++ (wire_payloads src S ++ tail) := by
    simp [wire]
  have hpos : (wire_header S).length + (wire_lens S).length
      = (wire_header S ++ wire_lens S).length := by simp
  have hloop := deserialize_loop_payloads src tail S 0 (wire_header S ++ wire_lens S)
    (write_lens 0 (work_array o S.length) (S.map (fun e => e.iov_len)))
    (by
      intro j hj
      rw [write_lens_getD _ _ _ _ (by simpa using hj) (by omega)]
      rw [List.getD_eq_getElem _ _ (by simpa using hj), List.getD_eq_getElem _ _ hj]
      simp)
    (by rw [write_lens_length]; omega) (by rw [← hdata]; exact hdlen)
  have hres : dbBE_SGE_deserialize calloc_ok (some (wire src S ++ tail)) space (some o) (some c)
      = ⟨0, (deserialize_loop S.length 0 (wire_header S ++ wire_lens S).length
            ((wire_header S ++ wire_lens S) ++ (wire_payloads src S ++ tail))
            (write_lens 0 (work_array o S.length) (S.map (fun e => e.iov_len)))).1,
          some (deserialize_loop S.length 0 (wire_header S ++ wire_lens S).length
            ((wire_header S ++ wire_lens S) ++ (wire_payloads src S ++ tail))
            (write_lens 0 (work_array o S.length) (S.map (fun e => e.iov_len)))).2,
          deserialize_outside S.length 0 (wire_header S ++ wire_lens S).length
            ((wire_header S ++ wire_lens S) ++ (wire_payloads src S ++ tail)).length
            (write_lens 0 (work_array o S.length) (S.map (fun e => e.iov_len)))⟩ := by
    simp only [dbBE_SGE_deserialize, hhdr, if_neg hb, if_neg ha, if_neg hlt, if_neg hsp1,
      Int.toNat_ofNat, hpos, Nat.cast_zero]
    rw [hdata]
  rw [hres]
  refine ⟨rfl, _, rfl, ?_, ?_, ?_⟩
  · rw [(deserialize_loop_length _ _ _ _ _).2, write_lens_length]; exact hwa1
  · intro ho
    rw [(deserialize_loop_length _ _ _ _ _).2, write_lens_length]; exact hwa2 ho
  · intro j hj
    have := hloop.2 j hj
    simpa using this

/-- C1 (amended): SGE round trip.  For every SGE list `S` with
`1 ≤ |S| ≤ 256`, every `len_i ≤ 2^20`, a total length of at least 4 and a
first element that is not empty and does not begin with a white-space byte,
and a buffer large enough for the serialized form, `dbBE_SGE_deserialize`
applied to the bytes written by `dbBE_SGE_serialize` (with `space` the
returned length; no caller array, or one with room for `|S|` entries)
succeeds, the header extraction reports `|S|` elements, and element `i` of
the result has the length of `S[i]` and addresses bytes equal to those of
`S[i]`. -/
theorem deserialize_after_serialize (src : Nat → Nat) (m : Int → Nat) (S : List dbBE_sge_t)
    (space : Nat) (calloc_ok : Bool) (o : Option (List dbBE_sge_t)) (c : Int)
    (h1 : 1 ≤ S.length) (h256 : S.length ≤ 256)
    (hlen : ∀ e ∈ S, e.iov_len ≤ 1048576)
    (hsp : (wire src S).length < space) (hs : space < 18446744073709551616)
    (hsum : 4 ≤ (S.map (fun e => e.iov_len)).sum)
    (hfirst : 0 < (S.getD 0 default).iov_len ∧ isspace (src (S.getD 0 default).iov_base) = false)
    (harg : (o = none ∧ c = 0 ∧ calloc_ok = true) ∨
      (∃ a, o = some a ∧ (S.length : Int) ≤ c ∧ c ≤ a.length)) :
    0 ≤ (dbBE_SGE_deserialize calloc_ok
      (some (buffer_bytes (dbBE_SGE_serialize src (some S) (S.length : Int) (some m) space).mem
        ((dbBE_SGE_serialize src (some S) (S.length : Int) (some m) space).ret.toNat + 1)))
      (dbBE_SGE_serialize src (some S) (S.length : Int) (some m) space).ret.toNat
      (some o) (some c)).ret ∧
    (dbBE_SGE_extract_header calloc_ok o c
      (some (buffer_bytes (dbBE_SGE_serialize src (some S) (S.length : Int) (some m) space).mem
        ((dbBE_SGE_serialize src (some S) (S.length : Int) (some m) space).ret.toNat + 1)))
      (dbBE_SGE_serialize src (some S) (S.length : Int) (some m) space).ret.toNat
      (some o) (some 0)).ret = S.length ∧
    ∃ sge, (dbBE_SGE_deserialize calloc_ok
      (some (buffer_bytes (dbBE_SGE_serialize src (some S) (S.length : Int) (some m) space).mem
        ((dbBE_SGE_serialize src (some S) (S.length : Int) (some m) space).ret.toNat + 1)))
      (dbBE_SGE_serialize src (some S) (S.length : Int) (some m) space).ret.toNat
      (some o) (some c)).sge_out = some sge ∧
      S.length ≤ sge.length ∧ (o = none → sge.length = S.length) ∧
      ∀ j, j < S.length →
        (sge.getD j default).iov_len = (S.getD j default).iov_len ∧
        ∀ k, k < (S.getD j default).iov_len →
          (dbBE_SGE_deserialize calloc_ok
            (some (buffer_bytes
              (dbBE_SGE_serialize src (some S) (S.length : Int) (some m) space).mem
              ((dbBE_SGE_serialize src (some S) (S.length : Int) (some m) space).ret.toNat + 1)))
            (dbBE_SGE_serialize src (some S) (S.length : Int) (some m) space).ret.toNat
            (some o) (some c)).data.getD ((sge.getD j default).iov_base + k) 0
          = src ((S.getD j default).iov_base + k) := by
  have hlen2 : ∀ e ∈ S, e.iov_len < 2147483647 := fun e he => by
    have := hlen e he; omega
  obtain ⟨hret, hbytes, _⟩ := serialize_wire_bytes src m S space h1 h256 hlen2 hsp hs
  have hrt : (dbBE_SGE_serialize src (some S) (S.length : Int) (some m) space).ret.toNat
      = (wire src S).length := by rw [hret]; simp
  rw [hrt, hbytes]
  have hpl := wire_payloads_length src S
  have hwl : (wire src S).length
      = (wire_header S).length + (wire_lens S).length + (wire_payloads src S).length := by
    simp [wire, Nat.add_assoc]
  have hspw : (wire_header S).length + (wire_lens S).length < (wire src S).length := by omega
  have hsw : (wire src S).length < 18446744073709551616 := by omega
  obtain ⟨hr0, hrest⟩ := deserialize_wire src S [0] (wire src S).length calloc_ok o c h1 h256
    hlen2 hsum hfirst hspw hsw
    (by simp only [List.length_append, List.length_cons, List.length_nil]; omega) harg
  have harg1 : (o = none ∧ c = 0 ∧ calloc_ok = true) ∨
      (∃ a, o = some a ∧ (S.length : Int) ≤ c) := by
    rcases harg with h | ⟨a, h, h2, _⟩
    · exact Or.inl h
    · exact Or.inr ⟨a, h, h2⟩
  have hhdr := extract_header_wire src S [0] (wire src S).length calloc_ok o c o 0 h1 h256 hlen2
    hsum hfirst (by omega) hsw harg1
  refine ⟨by rw [hr0], by rw [hhdr], hrest⟩

/-- The theorem `deserialize_after_serialize` at the list `["abcd"]` and a
buffer of 12 bytes, with no caller array. -/
theorem deserialize_after_serialize_witness :
    0 ≤ (dbBE_SGE_deserialize true
      (some (buffer_bytes (dbBE_SGE_serialize (mem_of [97, 98, 99, 100]) (some [⟨0, 4⟩])
          (([⟨0, 4⟩] : List dbBE_sge_t).length : Int) (some (fun _ => 255)) 12).mem
        ((dbBE_SGE_serialize (mem_of [97, 98, 99, 100]) (some [⟨0, 4⟩])
          (([⟨0, 4⟩] : List dbBE_sge_t).length : Int) (some (fun _ => 255)) 12).ret.toNat + 1)))
      (dbBE_SGE_serialize (mem_of [97, 98, 99, 100]) (some [⟨0, 4⟩])
        (([⟨0, 4⟩] : List dbBE_sge_t).length : Int) (some (fun _ => 255)) 12).ret.toNat
      (some none) (some 0)).ret :=
  (deserialize_after_serialize (mem_of [97, 98, 99, 100]) (fun _ => 255) [⟨0, 4⟩] 12 true none 0
    (by decide) (by decide) (by decide) (by decide) (by decide) (by decide) (by decide)
    (Or.inl ⟨rfl, rfl, rfl⟩)).1

/-- C1: three lists within the bounds of the claim whose serialized form is
not read back.  For `["ab"]` (total length 2) deserialize returns
`-EBADMSG`; for `[" abc"]`, whose payload begins with a blank, it returns
`-EAGAIN`; for `["", "abcd"]`, whose first element is empty, it succeeds with
the bases 9 and 10 where the payloads lie at 8 and 9, so that the second
element addresses `"bcd\n"` and the `'a'` is overwritten with `'\0'`. -/
theorem deserialize_after_serialize_fails :
    (dbBE_SGE_deserialize true
      (some (buffer_bytes (dbBE_SGE_serialize (mem_of [97, 98]) (some [⟨0, 2⟩]) 1
          (some (fun _ => 255)) 64).mem
        ((dbBE_SGE_serialize (mem_of [97, 98]) (some [⟨0, 2⟩]) 1
          (some (fun _ => 255)) 64).ret.toNat + 1)))
      (dbBE_SGE_serialize (mem_of [97, 98]) (some [⟨0, 2⟩]) 1
        (some (fun _ => 255)) 64).ret.toNat (some none) (some 0)).ret = -EBADMSG ∧
    (dbBE_SGE_deserialize true
      (some (buffer_bytes (dbBE_SGE_serialize (mem_of [32, 97, 98, 99]) (some [⟨0, 4⟩]) 1
          (some (fun _ => 255)) 64).mem
        ((dbBE_SGE_serialize (mem_of [32, 97, 98, 99]) (some [⟨0, 4⟩]) 1
          (some (fun _ => 255)) 64).ret.toNat + 1)))
      (dbBE_SGE_serialize (mem_of [32, 97, 98, 99]) (some [⟨0, 4⟩]) 1
        (some (fun _ => 255)) 64).ret.toNat (some none) (some 0)).ret = -EAGAIN ∧
    dbBE_SGE_deserialize true
      (some (buffer_bytes (dbBE_SGE_serialize (mem_of [97, 98, 99, 100])
          (some [⟨0, 0⟩, ⟨0, 4⟩]) 2 (some (fun _ => 255)) 64).mem
        ((dbBE_SGE_serialize (mem_of [97, 98, 99, 100])
          (some [⟨0, 0⟩, ⟨0, 4⟩]) 2 (some (fun _ => 255)) 64).ret.toNat + 1)))
      (dbBE_SGE_serialize (mem_of [97, 98, 99, 100])
        (some [⟨0, 0⟩, ⟨0, 4⟩]) 2 (some (fun _ => 255)) 64).ret.toNat (some none) (some 0)
      = ⟨0, [52, 10, 50, 10, 48, 10, 52, 10, 10, 0, 98, 99, 100, 10, 0],
          some [⟨9, 0⟩, ⟨10, 4⟩], []⟩ := by
  refine ⟨?_, ?_, ?_⟩ <;> decide

/-! ## Serialize: the postcondition -/

/-- The serialize postcondition within the range of `int`: for an SGE list of
1 to 256 elements with `len_i + 1 < 2^31`, and a buffer whose space is larger
than the serialized size, `dbBE_SGE_serialize` returns the length of the wire
form, the buffer holds the wire form (decimal total, `'\n'`, decimal count,
`'\n'`, each length line, each payload with its `'\n'`) followed by `'\0'`,
and no other byte of the memory is changed. -/
theorem serialize_writes_wire (src : Nat → Nat) (m : Int → Nat) (S : List dbBE_sge_t)
    (space : Nat) (h1 : 1 ≤ S.length) (h256 : S.length ≤ 256)
    (hlen : ∀ e ∈ S, e.iov_len < 2147483647)
    (hsp : (wire src S).length < space) (hs : space < 18446744073709551616) :
    (dbBE_SGE_serialize src (some S) (S.length : Int) (some m) space).ret
      = (wire src S).length ∧
    buffer_bytes (dbBE_SGE_serialize src (some S) (S.length : Int) (some m) space).mem
      ((wire src S).length + 1) = wire src S ++ [0] ∧
    ∀ a : Int, a < 0 ∨ ((wire src S).length : Int) < a →
      (dbBE_SGE_serialize src (some S) (S.length : Int) (some m) space).mem a = m a :=
  serialize_wire_bytes src m S space h1 h256 hlen hsp hs

/-- The theorem `serialize_writes_wire` at the list `["abcd"]` and a buffer
of 12 bytes filled with the byte 255. -/
theorem serialize_writes_wire_witness :
    (dbBE_SGE_serialize (mem_of [97, 98, 99, 100]) (some [⟨0, 4⟩])
        (([⟨0, 4⟩] : List dbBE_sge_t).length : Int) (some (fun _ => 255)) 12).ret
      = (wire (mem_of [97, 98, 99, 100]) [⟨0, 4⟩]).length ∧
    buffer_bytes (dbBE_SGE_serialize (mem_of [97, 98, 99, 100]) (some [⟨0, 4⟩])
        (([⟨0, 4⟩] : List dbBE_sge_t).length : Int) (some (fun _ => 255)) 12).mem
      ((wire (mem_of [97, 98, 99, 100]) [⟨0, 4⟩]).length + 1)
      = wire (mem_of [97, 98, 99, 100]) [⟨0, 4⟩] ++ [0] ∧
    ∀ a : Int, a < 0 ∨ ((wire (mem_of [97, 98, 99, 100]) [⟨0, 4⟩]).length : Int) < a →
      (dbBE_SGE_serialize (mem_of [97, 98, 99, 100]) (some [⟨0, 4⟩])
        (([⟨0, 4⟩] : List dbBE_sge_t).length : Int) (some (fun _ => 255)) 12).mem a = 255 :=
  serialize_writes_wire (mem_of [97, 98, 99, 100]) (fun _ => 255) [⟨0, 4⟩] 12
    (by decide) (by decide) (by decide) (by decide) (by decide)

/-- C2: one element of 2147483647 bytes (`INT_MAX`) and a buffer of 2^32
bytes, more than the 2147483672 bytes of the serialized form.  The length
passes through the `int` local `plen`, whose increment wraps to `INT_MIN`:
`dbBE_SGE_serialize` returns -2147483624, not the number of bytes of the
serialized form. -/
theorem serialize_int_max_element :
    (dbBE_SGE_serialize (fun _ => 97) (some [⟨0, 2147483647⟩]) 1 (some (fun _ => 0))
      4294967296).ret = -2147483624 := by
  decide

/-! ## Completion to error code: the opcode rules -/

open DBR_Errorcode_t dbBE_Opcode dbrRequest_status_t

theorem dbrSGE_extract_size_nonneg (req : dbBE_Request_t) : 0 ≤ dbrSGE_extract_size req := by
  unfold dbrSGE_extract_size
  exact Int.ofNat_nonneg _

/-- C11: for a GET or DIRECTORY request context whose completion has
`rc >= 0`, `dbrCheck_response` returns the completion status when that is not
`DBR_SUCCESS` (the context is left as it is); when it is `DBR_SUCCESS` it
returns `DBR_ERR_UBUFFER` if `rsize < rc` and `DBR_SUCCESS` otherwise, and
the cell behind a non-NULL `_rc` pointer holds `rc` afterwards. -/
theorem check_response_get_directory (x : dbrRequestContext_t)
    (hop : x._req._opcode = DBBE_OPCODE_GET ∨ x._req._opcode = DBBE_OPCODE_DIRECTORY)
    (hrc : 0 ≤ x._cpl._rc) :
    (x._cpl._status ≠ DBR_SUCCESS →
      dbrCheck_response (some x) = ⟨x._cpl._status, some x⟩) ∧
    (x._cpl._status = DBR_SUCCESS →
      dbrCheck_response (some x) =
        ⟨if dbrSGE_extract_size x._req < x._cpl._rc then DBR_ERR_UBUFFER else DBR_SUCCESS,
          some { x with _rc := x._rc.map (fun _ => x._cpl._rc) }⟩) := by
  have hearly : ¬ (x._req._opcode ≠ DBBE_OPCODE_READ ∧ x._cpl._rc < 0) := by
    intro h; omega
  have hnn : ¬ x._cpl._rc < 0 := by omega
  constructor
  · intro hst
    rcases hop with h | h <;>
      simp [dbrCheck_response, check_get, h, hst, hnn]
  · intro hst
    rcases hop with h | h <;>
      cases hout : x._rc <;>
        simp [dbrCheck_response, check_get, h, hst, hnn, hout]
    all_goals (cases x; simp_all)

/-- The theorem `check_response_get_directory` at the GET of the test suite:
126 bytes of buffer, a completion of 252 bytes with status `DBR_SUCCESS`. -/
theorem check_response_get_directory_witness :
    dbrCheck_response (some (sample_rctx DBBE_OPCODE_GET false 252 DBR_SUCCESS (some 0)
        dbrSTATUS_READY))
      = ⟨DBR_ERR_UBUFFER,
          some (sample_rctx DBBE_OPCODE_GET false 252 DBR_SUCCESS (some 252) dbrSTATUS_READY)⟩ :=
  (check_response_get_directory
    (sample_rctx DBBE_OPCODE_GET false 252 DBR_SUCCESS (some 0) dbrSTATUS_READY)
    (Or.inl rfl) (by decide)).2 rfl

/-- C12 (amended): for a GET request with the flag `PARTIAL` set whose
completion reports status `DBR_SUCCESS` and a size `rc` larger than the
request buffer size `rsize`, `dbrCheck_response` reports `DBR_ERR_UBUFFER`,
as it does without the flag (it does not read the flags); the stored
completion keeps `rc`, and the cell behind a non-NULL `_rc` pointer holds
that size afterwards. -/
theorem check_response_get_flag (x : dbrRequestContext_t)
    (hop : x._req._opcode = DBBE_OPCODE_GET)
    (hflag : x._req._flags.DBR_FLAGS_PARTIAL = true)
    (hst : x._cpl._status = DBR_SUCCESS)
    (hsize : dbrSGE_extract_size x._req < x._cpl._rc) :
    dbrCheck_response (some x) =
      ⟨DBR_ERR_UBUFFER, some { x with _rc := x._rc.map (fun _ => x._cpl._rc) }⟩ := by
  have hnn : ¬ x._cpl._rc < 0 := by
    have := dbrSGE_extract_size_nonneg x._req
    omega
  cases hout : x._rc <;>
    simp [dbrCheck_response, check_get, hop, hst, hnn, hout, hsize]
  all_goals (cases x; simp_all)

/-- The theorem `check_response_get_flag` at the GET of the test suite with
the flag set: 126 bytes of buffer, a completion of 252 bytes with status
`DBR_SUCCESS`. -/
theorem check_response_get_flag_witness :
    dbrCheck_response (some (sample_rctx DBBE_OPCODE_GET true 252 DBR_SUCCESS (some 0)
        dbrSTATUS_READY))
      = ⟨DBR_ERR_UBUFFER,
          some (sample_rctx DBBE_OPCODE_GET true 252 DBR_SUCCESS (some 252) dbrSTATUS_READY)⟩ :=
  check_response_get_flag
    (sample_rctx DBBE_OPCODE_GET true 252 DBR_SUCCESS (some 0) dbrSTATUS_READY)
    rfl rfl rfl (by decide)

/-- C12: the GET of the test suite with the flag `PARTIAL` set, 126 bytes of
buffer and a completion `{rc = 252, status = DBR_SUCCESS}`:
`dbrCheck_response` returns `DBR_ERR_UBUFFER`, not `DBR_SUCCESS`. -/
theorem check_response_get_flag_ubuffer :
    (dbrCheck_response (some (sample_rctx DBBE_OPCODE_GET true 252 DBR_SUCCESS (some 0)
      dbrSTATUS_READY))).ret = DBR_ERR_UBUFFER := by
  decide

/-- C13: for every request context whose opcode is not READ and whose
completion has `rc < 0`, `dbrCheck_response` returns
`dbrMapErrno_to_errorcode( -status )` and leaves the context as it is: no
opcode rule is applied and nothing is written through `_rc`. -/
theorem check_response_negative_rc (x : dbrRequestContext_t)
    (hop : x._req._opcode ≠ DBBE_OPCODE_READ) (hrc : x._cpl._rc < 0) :
    dbrCheck_response (some x) =
      ⟨dbrMapErrno_to_errorcode (-(errorcode_value x._cpl._status)), some x⟩ := by
  simp [dbrCheck_response, hop, hrc]

/-- The theorem `check_response_negative_rc` at a PUT whose completion has
`rc = -1` and status `DBR_ERR_NOCONNECT`. -/
theorem check_response_negative_rc_witness :
    dbrCheck_response (some (sample_rctx DBBE_OPCODE_PUT false (-1) DBR_ERR_NOCONNECT (some 7)
        dbrSTATUS_READY))
      = ⟨dbrMapErrno_to_errorcode (-(errorcode_value DBR_ERR_NOCONNECT)),
          some (sample_rctx DBBE_OPCODE_PUT false (-1) DBR_ERR_NOCONNECT (some 7)
            dbrSTATUS_READY)⟩ :=
  check_response_negative_rc
    (sample_rctx DBBE_OPCODE_PUT false (-1) DBR_ERR_NOCONNECT (some 7) dbrSTATUS_READY)
    (by decide) (by decide)

/-- C14: for a PUT request context whose completion has `rc >= 0`,
`dbrCheck_response` returns `DBR_ERR_UBUFFER` when `rc < 1` and `DBR_SUCCESS`
when `rc >= 1`; the context is left as it is. -/
theorem check_response_put (x : dbrRequestContext_t)
    (hop : x._req._opcode = DBBE_OPCODE_PUT) (hrc : 0 ≤ x._cpl._rc) :
    (x._cpl._rc < 1 → dbrCheck_response (some x) = ⟨DBR_ERR_UBUFFER, some x⟩) ∧
    (1 ≤ x._cpl._rc → dbrCheck_response (some x) = ⟨DBR_SUCCESS, some x⟩) := by
  have hnn : ¬ x._cpl._rc < 0 := by omega
  constructor
  · intro h
    simp [dbrCheck_response, hop, hnn, h]
  · intro h
    have h1 : ¬ x._cpl._rc < 1 := by omega
    simp [dbrCheck_response, hop, hnn, h1]

/-- The theorem `check_response_put` at the PUT of the test suite, completed
with `{rc = 1, status = DBR_SUCCESS}`. -/
theorem check_response_put_witness :
    dbrCheck_response (some (sample_rctx DBBE_OPCODE_PUT false 1 DBR_SUCCESS none
        dbrSTATUS_READY))
      = ⟨DBR_SUCCESS, some (sample_rctx DBBE_OPCODE_PUT false 1 DBR_SUCCESS none
          dbrSTATUS_READY)⟩ :=
  (check_response_put (sample_rctx DBBE_OPCODE_PUT false 1 DBR_SUCCESS none dbrSTATUS_READY)
    rfl (by decide)).2 (by decide)

/-- C15: for a READ request context whose completion has `rc < 0`,
`dbrCheck_response` stores 0 as the completion's `rc` and goes on with the
GET rules from the result `DBR_ERR_UNAVAIL`: with a completion status
`DBR_SUCCESS` it returns `DBR_ERR_UNAVAIL` and the cell behind a non-NULL
`_rc` pointer holds 0, with any other status it returns that status and
writes nothing through `_rc`. -/
theorem check_response_read_negative (x : dbrRequestContext_t)
    (hop : x._req._opcode = DBBE_OPCODE_READ) (hrc : x._cpl._rc < 0) :
    (x._cpl._status = DBR_SUCCESS →
      dbrCheck_response (some x) =
        ⟨DBR_ERR_UNAVAIL,
          some { x with _cpl := { x._cpl with _rc := 0 }, _rc := x._rc.map (fun _ => 0) }⟩) ∧
    (x._cpl._status ≠ DBR_SUCCESS →
      dbrCheck_response (some x) =
        ⟨x._cpl._status, some { x with _cpl := { x._cpl with _rc := 0 } }⟩) := by
  have hsz := dbrSGE_extract_size_nonneg x._req
  have hlt : ¬ dbrSGE_extract_size x._req < 0 := by omega
  constructor
  · intro hst
    cases hout : x._rc <;>
      simp [dbrCheck_response, check_get, hop, hrc, hst, hout, hlt]
  · intro hst
    simp [dbrCheck_response, check_get, hop, hrc, hst]

/-- The theorem `check_response_read_negative` at a READ whose completion has
`rc = -1` and status `DBR_SUCCESS`. -/
theorem check_response_read_negative_witness :
    dbrCheck_response (some (sample_rctx DBBE_OPCODE_READ false (-1) DBR_SUCCESS (some 7)
        dbrSTATUS_READY))
      = ⟨DBR_ERR_UNAVAIL,
          some (sample_rctx DBBE_OPCODE_READ false 0 DBR_SUCCESS (some 0) dbrSTATUS_READY)⟩ :=
  (check_response_read_negative
    (sample_rctx DBBE_OPCODE_READ false (-1) DBR_SUCCESS (some 7) dbrSTATUS_READY)
    rfl (by decide)).1 rfl

/-- C16 (amended): for an NSDELETE request context whose completion has
`rc >= 0`, `dbrCheck_response` returns `DBR_ERR_BE_GENERAL` when `rc != 0` and
the status is `DBR_SUCCESS`, the completion status when `rc != 0` and the
status is not `DBR_SUCCESS`, and `DBR_SUCCESS` when `rc = 0`, whatever the
status; the context is left as it is. -/
theorem check_response_nsdelete (x : dbrRequestContext_t)
    (hop : x._req._opcode = DBBE_OPCODE_NSDELETE) (hrc : 0 ≤ x._cpl._rc) :
    (x._cpl._rc ≠ 0 → x._cpl._status = DBR_SUCCESS →
      dbrCheck_response (some x) = ⟨DBR_ERR_BE_GENERAL, some x⟩) ∧
    (x._cpl._rc ≠ 0 → x._cpl._status ≠ DBR_SUCCESS →
      dbrCheck_response (some x) = ⟨x._cpl._status, some x⟩) ∧
    (x._cpl._rc = 0 → dbrCheck_response (some x) = ⟨DBR_SUCCESS, some x⟩) := by
  have hnn : ¬ x._cpl._rc < 0 := by omega
  refine ⟨?_, ?_, ?_⟩
  · intro h hst
    simp [dbrCheck_response, hop, hnn, h, hst]
  · intro h hst
    simp [dbrCheck_response, hop, hnn, h, hst]
  · intro h
    simp [dbrCheck_response, hop, h]

/-- The theorem `check_response_nsdelete` at an NSDELETE whose completion is
`{rc = 1, status = DBR_SUCCESS}`: the result is `DBR_ERR_BE_GENERAL`. -/
theorem check_response_nsdelete_witness :
    dbrCheck_response (some (sample_rctx DBBE_OPCODE_NSDELETE false 1 DBR_SUCCESS none
        dbrSTATUS_READY))
      = ⟨DBR_ERR_BE_GENERAL, some (sample_rctx DBBE_OPCODE_NSDELETE false 1 DBR_SUCCESS none
          dbrSTATUS_READY)⟩ :=
  (check_response_nsdelete
    (sample_rctx DBBE_OPCODE_NSDELETE false 1 DBR_SUCCESS none dbrSTATUS_READY)
    rfl (by decide)).1 (by decide) rfl

/-- C16: an NSDELETE whose completion is `{rc = 0, status = DBR_ERR_GENERIC}`:
`dbrCheck_response` returns `DBR_SUCCESS`, which is not the completion
status. -/
theorem check_response_nsdelete_rc_zero :
    (dbrCheck_response (some (sample_rctx DBBE_OPCODE_NSDELETE false 0 DBR_ERR_GENERIC none
      dbrSTATUS_READY))).ret = DBR_SUCCESS ∧
    (sample_rctx DBBE_OPCODE_NSDELETE false 0 DBR_ERR_GENERIC none dbrSTATUS_READY)._cpl._status
      ≠ DBR_SUCCESS := by
  decide

/-- C17 (amended): for every request context whose opcode is none of PUT,
READ, GET, DIRECTORY, MOVE, REMOVE, NSCREATE, NSADDUNITS, NSREMOVEUNITS,
NSATTACH, NSDETACH, NSDELETE, NSQUERY, `dbrCheck_response` returns
`DBR_ERR_INVALIDOP` for every completion with `rc >= 0`; for a completion with
`rc < 0` it returns `dbrMapErrno_to_errorcode( -status )`, as for the known
opcodes.  The context is left as it is. -/
theorem check_response_unknown_opcode (x : dbrRequestContext_t)
    (h1 : x._req._opcode ≠ DBBE_OPCODE_PUT) (h2 : x._req._opcode ≠ DBBE_OPCODE_READ)
    (h3 : x._req._opcode ≠ DBBE_OPCODE_GET) (h4 : x._req._opcode ≠ DBBE_OPCODE_DIRECTORY)
    (h5 : x._req._opcode ≠ DBBE_OPCODE_MOVE) (h6 : x._req._opcode ≠ DBBE_OPCODE_REMOVE)
    (h7 : x._req._opcode ≠ DBBE_OPCODE_NSCREATE) (h8 : x._req._opcode ≠ DBBE_OPCODE_NSADDUNITS)
    (h9 : x._req._opcode ≠ DBBE_OPCODE_NSREMOVEUNITS)
    (h10 : x._req._opcode ≠ DBBE_OPCODE_NSATTACH) (h11 : x._req._opcode ≠ DBBE_OPCODE_NSDETACH)
    (h12 : x._req._opcode ≠ DBBE_OPCODE_NSDELETE) (h13 : x._req._opcode ≠ DBBE_OPCODE_NSQUERY) :
    dbrCheck_response (some x) =
      ⟨if x._cpl._rc < 0 then dbrMapErrno_to_errorcode (-(errorcode_value x._cpl._status))
        else DBR_ERR_INVALIDOP, some x⟩ := by
  by_cases hrc : x._cpl._rc < 0
  · simp [dbrCheck_response, h2, hrc]
  · have hnn : ¬ x._cpl._rc < 0 := hrc
    cases hop : x._req._opcode <;> simp_all [dbrCheck_response]
    all_goals (rw [if_neg (by omega), if_neg (by omega)])

/-- The theorem `check_response_unknown_opcode` at an ITERATOR request whose
completion is `{rc = 1, status = DBR_SUCCESS}`: the result is
`DBR_ERR_INVALIDOP`. -/
theorem check_response_unknown_opcode_witness :
    dbrCheck_response (some (sample_rctx DBBE_OPCODE_ITERATOR false 1 DBR_SUCCESS none
        dbrSTATUS_READY))
      = ⟨DBR_ERR_INVALIDOP, some (sample_rctx DBBE_OPCODE_ITERATOR false 1 DBR_SUCCESS none
          dbrSTATUS_READY)⟩ :=
  check_response_unknown_opcode
    (sample_rctx DBBE_OPCODE_ITERATOR false 1 DBR_SUCCESS none dbrSTATUS_READY)
    (by decide) (by decide) (by decide) (by decide) (by decide) (by decide) (by decide)
    (by decide) (by decide) (by decide) (by decide) (by decide) (by decide)

/-- C17: an ITERATOR request whose completion is `{rc = -1, status =
DBR_SUCCESS}`: `dbrCheck_response` returns `DBR_SUCCESS`, not
`DBR_ERR_INVALIDOP`. -/
theorem check_response_iterator_negative_rc :
    (dbrCheck_response (some (sample_rctx DBBE_OPCODE_ITERATOR false (-1) DBR_SUCCESS none
      dbrSTATUS_READY))).ret = DBR_SUCCESS := by
  decide

/-! ## Processing a completion -/

theorem ENOENT_ne_ENOTCONN : (-ENOENT : Int) ≠ -ENOTCONN := by decide

/-- The heap after `dbrProcess_completion` has accepted a completion for the
context at `rctx`. -/
theorem process_completion_heap (h : ctx_heap) (rctx : Nat) (c : dbBE_Completion_t)
    (hctx : rctx ≠ 0) (hu : c._user = rctx) :
    dbrProcess_completion h rctx (some c) =
      ⟨DBR_SUCCESS, heap_set h rctx
        { h rctx with
          _cpl := { (h rctx)._cpl with
            _rc := if c._rc = -ENOENT ∨ c._rc = -ENOTCONN then -1 else c._rc
            _status := if c._rc = -ENOENT then DBR_ERR_UNAVAIL
              else if c._rc = -ENOTCONN then DBR_ERR_NOCONNECT else c._status }
          _status := dbrSTATUS_READY }⟩ := by
  unfold dbrProcess_completion
  simp only [if_neg hctx, hu, ne_eq, not_true_eq_false, if_false]
  by_cases h1 : c._rc = -ENOENT
  · simp only [h1, if_pos, true_or]
  · by_cases h2 : c._rc = -ENOTCONN
    · have h3 : (-ENOTCONN : Int) ≠ -ENOENT := fun e => ENOENT_ne_ENOTCONN e.symm
      simp only [h2, if_neg h3, if_pos, or_true]
    · have h12 : ¬ (c._rc = -ENOENT ∨ c._rc = -ENOTCONN) := fun e => e.elim h1 h2
      simp only [if_neg h1, if_neg h2, if_neg h12]

theorem heap_set_same (h : ctx_heap) (a : Nat) (v : dbrRequestContext_t) :
    heap_set h a v a = v := by
  simp [heap_set]

theorem heap_set_other (h : ctx_heap) (a b : Nat) (v : dbrRequestContext_t) (hb : b ≠ a) :
    heap_set h a v b = h b := by
  simp [heap_set, hb]

/-- The result of `dbrTest_request` when the backend yields a completion that
carries a user pointer. -/
theorem test_request_polled (req_offset : Nat) (test_any : Nat → Option dbBE_Completion_t)
    (h : ctx_heap) (ns : dbrName_space_t) (req_rctx : Nat) (c : dbBE_Completion_t)
    (hreq : req_rctx ≠ 0) (hpoll : test_any ns._be_ctx = some c) (hu : c._user ≠ 0) :
    dbrTest_request req_offset test_any h (some ns) req_rctx =
      ⟨if ((dbrProcess_completion h c._user (some c)).heap req_rctx)._status = dbrSTATUS_READY
          then ((dbrProcess_completion h c._user (some c)).heap req_rctx)._cpl._status
          else DBR_ERR_INPROGRESS,
        (dbrProcess_completion h c._user (some c)).heap⟩ := by
  have h0 : ¬ req_rctx + req_offset = 0 := by omega
  simp only [dbrTest_request, if_neg h0, hpoll, if_neg hu]

/-- The result of `dbrTest_request` when the backend yields no completion. -/
theorem test_request_idle (req_offset : Nat) (test_any : Nat → Option dbBE_Completion_t)
    (h : ctx_heap) (ns : dbrName_space_t) (req_rctx : Nat)
    (hreq : req_rctx ≠ 0) (hpoll : test_any ns._be_ctx = none) :
    dbrTest_request req_offset test_any h (some ns) req_rctx =
      ⟨if (h req_rctx)._status = dbrSTATUS_READY then (h req_rctx)._cpl._status
          else DBR_ERR_INPROGRESS, h⟩ := by
  have h0 : ¬ req_rctx + req_offset = 0 := by omega
  simp only [dbrTest_request, if_neg h0, hpoll]

/-- C19 (amended): with a name space and a target request context given, and
a user pointer in the completion that the backend yields, if any: whenever the
target request context is READY after the backend poll, `dbrTest_request`
returns the status stored in the completion of that context; it does not
apply `dbrCheck_response`. -/
theorem test_request_ready_status (req_offset : Nat)
    (test_any : Nat → Option dbBE_Completion_t) (h : ctx_heap) (ns : dbrName_space_t)
    (req_rctx : Nat) (hreq : req_rctx ≠ 0)
    (huser : ∀ c, test_any ns._be_ctx = some c → c._user ≠ 0)
    (hready : ((dbrTest_request req_offset test_any h (some ns) req_rctx).heap req_rctx)._status
      = dbrSTATUS_READY) :
    (dbrTest_request req_offset test_any h (some ns) req_rctx).ret =
      ((dbrTest_request req_offset test_any h (some ns) req_rctx).heap req_rctx)._cpl._status := by
  cases hpoll : test_any ns._be_ctx with
  | none =>
    rw [test_request_idle req_offset test_any h ns req_rctx hreq hpoll] at hready ⊢
    simp only [] at hready ⊢
    rw [if_pos hready]
  | some c =>
    rw [test_request_polled req_offset test_any h ns req_rctx c hreq hpoll (huser c hpoll)]
      at hready ⊢
    simp only [] at hready ⊢
    rw [if_pos hready]

/-- The theorem `test_request_ready_status` at a pending REMOVE context at
address 8 for which the backend yields the completion `{rc = 0, status =
DBR_ERR_UNAVAIL}`. -/
theorem test_request_ready_status_witness :
    (dbrTest_request 0 (fun _ => some ⟨0, DBR_ERR_UNAVAIL, 8⟩)
      (sample_heap (sample_rctx DBBE_OPCODE_REMOVE false 0 DBR_SUCCESS none dbrSTATUS_PENDING))
      (some ⟨1⟩) 8).ret =
    ((dbrTest_request 0 (fun _ => some ⟨0, DBR_ERR_UNAVAIL, 8⟩)
      (sample_heap (sample_rctx DBBE_OPCODE_REMOVE false 0 DBR_SUCCESS none dbrSTATUS_PENDING))
      (some ⟨1⟩) 8).heap 8)._cpl._status :=
  test_request_ready_status 0 (fun _ => some ⟨0, DBR_ERR_UNAVAIL, 8⟩)
    (sample_heap (sample_rctx DBBE_OPCODE_REMOVE false 0 DBR_SUCCESS none dbrSTATUS_PENDING))
    ⟨1⟩ 8 (by decide)
    (fun c hc => by
      have hc2 : c = ⟨0, DBR_ERR_UNAVAIL, 8⟩ := (Option.some.inj hc).symm
      rw [hc2]
      decide)
    (by decide)

/-- C19: a pending GET context at address 8 with 126 bytes of buffer, for
which the backend yields the completion `{rc = 252, status = DBR_SUCCESS}`:
the context is READY after the poll and `dbrTest_request` returns
`DBR_SUCCESS`, while `dbrCheck_response` assigns `DBR_ERR_UBUFFER` to the
context. -/
theorem test_request_not_check_response :
    (dbrTest_request 0 (fun _ => some ⟨252, DBR_SUCCESS, 8⟩)
      (sample_heap (sample_rctx DBBE_OPCODE_GET false 0 DBR_SUCCESS none dbrSTATUS_PENDING))
      (some ⟨1⟩) 8).ret = DBR_SUCCESS ∧
    ((dbrTest_request 0 (fun _ => some ⟨252, DBR_SUCCESS, 8⟩)
      (sample_heap (sample_rctx DBBE_OPCODE_GET false 0 DBR_SUCCESS none dbrSTATUS_PENDING))
      (some ⟨1⟩) 8).heap 8)._status = dbrSTATUS_READY ∧
    (dbrCheck_response (some ((dbrTest_request 0 (fun _ => some ⟨252, DBR_SUCCESS, 8⟩)
      (sample_heap (sample_rctx DBBE_OPCODE_GET false 0 DBR_SUCCESS none dbrSTATUS_PENDING))
      (some ⟨1⟩) 8).heap 8))).ret = DBR_ERR_UBUFFER := by
  decide

/-- C20 (amended): out-of-order completion.  When the backend yields a
completion whose user pointer is a request context other than the target,
`dbrTest_request` marks that other context READY with what
`dbrProcess_completion` records for the completion (the `rc` and status of
the completion, but `rc = -1` with `DBR_ERR_UNAVAIL` for an `rc` of `-ENOENT`
and `rc = -1` with `DBR_ERR_NOCONNECT` for an `rc` of `-ENOTCONN`), leaves the
target context as it is, and returns `DBR_ERR_INPROGRESS` if the target is
still PENDING. -/
theorem test_request_out_of_order (req_offset : Nat)
    (test_any : Nat → Option dbBE_Completion_t) (h : ctx_heap) (ns : dbrName_space_t)
    (req_rctx : Nat) (c : dbBE_Completion_t)
    (hreq : req_rctx ≠ 0) (hpoll : test_any ns._be_ctx = some c)
    (hu : c._user ≠ 0) (hother : c._user ≠ req_rctx) :
    ((dbrTest_request req_offset test_any h (some ns) req_rctx).heap c._user)._status
      = dbrSTATUS_READY ∧
    (c._rc ≠ -ENOENT → c._rc ≠ -ENOTCONN →
      ((dbrTest_request req_offset test_any h (some ns) req_rctx).heap c._user)._cpl._rc
        = c._rc ∧
      ((dbrTest_request req_offset test_any h (some ns) req_rctx).heap c._user)._cpl._status
        = c._status) ∧
    (c._rc = -ENOENT →
      ((dbrTest_request req_offset test_any h (some ns) req_rctx).heap c._user)._cpl._rc = -1 ∧
      ((dbrTest_request req_offset test_any h (some ns) req_rctx).heap c._user)._cpl._status
        = DBR_ERR_UNAVAIL) ∧
    (c._rc = -ENOTCONN →
      ((dbrTest_request req_offset test_any h (some ns) req_rctx).heap c._user)._cpl._rc = -1 ∧
      ((dbrTest_request req_offset test_any h (some ns) req_rctx).heap c._user)._cpl._status
        = DBR_ERR_NOCONNECT) ∧
    (dbrTest_request req_offset test_any h (some ns) req_rctx).heap req_rctx = h req_rctx ∧
    ((h req_rctx)._status = dbrSTATUS_PENDING →
      (dbrTest_request req_offset test_any h (some ns) req_rctx).ret = DBR_ERR_INPROGRESS) := by
  rw [test_request_polled req_offset test_any h ns req_rctx c hreq hpoll hu,
    process_completion_heap h c._user c hu rfl]
  have htarget : ∀ v, heap_set h c._user v req_rctx = h req_rctx :=
    fun v => heap_set_other h c._user req_rctx v (fun e => hother e.symm)
  refine ⟨?_, ?_, ?_, ?_, ?_, ?_⟩
  · simp only [heap_set_same]
  · intro h1 h2
    have h12 : ¬ (c._rc = -ENOENT ∨ c._rc = -ENOTCONN) := fun e => e.elim h1 h2
    simp only [heap_set_same, if_neg h1, if_neg h2, if_neg h12, and_self]
  · intro h1
    simp only [heap_set_same, h1, true_or, if_true, and_self]
  · intro h2
    have h3 : (-ENOTCONN : Int) ≠ -ENOENT := fun e => ENOENT_ne_ENOTCONN e.symm
    simp only [heap_set_same, h2, or_true, if_true, if_neg h3, and_self]
  · simp only [htarget]
  · intro hp
    have hnr : ¬ (h req_rctx)._status = dbrSTATUS_READY := by
      rw [hp]
      decide
    simp only [htarget, if_neg hnr]

/-- The theorem `test_request_out_of_order` at a pending target at address 8
and a pending context at address 16, for which the backend yields the
completion `{rc = 1, status = DBR_SUCCESS}`: the result is
`DBR_ERR_INPROGRESS`. -/
theorem test_request_out_of_order_witness :
    (dbrTest_request 0 (fun _ => some ⟨1, DBR_SUCCESS, 16⟩)
      (sample_heap2 (sample_rctx DBBE_OPCODE_GET false 0 DBR_SUCCESS none dbrSTATUS_PENDING)
        (sample_rctx DBBE_OPCODE_PUT false 0 DBR_SUCCESS none dbrSTATUS_PENDING))
      (some ⟨1⟩) 8).ret = DBR_ERR_INPROGRESS :=
  (test_request_out_of_order 0 (fun _ => some ⟨1, DBR_SUCCESS, 16⟩)
    (sample_heap2 (sample_rctx DBBE_OPCODE_GET false 0 DBR_SUCCESS none dbrSTATUS_PENDING)
      (sample_rctx DBBE_OPCODE_PUT false 0 DBR_SUCCESS none dbrSTATUS_PENDING))
    ⟨1⟩ 8 ⟨1, DBR_SUCCESS, 16⟩ (by decide) rfl (by decide) (by decide)).2.2.2.2.2 rfl

/-- C20: a pending target at address 8 and a pending context at address 16,
for which the backend yields the completion `{rc = -ENOENT, status =
DBR_SUCCESS}`: the context at 16 is READY afterwards with the completion
`{rc = -1, status = DBR_ERR_UNAVAIL}`, which has neither the `rc` nor the
status of the completion that came in. -/
theorem test_request_out_of_order_sentinel :
    ((dbrTest_request 0 (fun _ => some ⟨-ENOENT, DBR_SUCCESS, 16⟩)
      (sample_heap2 (sample_rctx DBBE_OPCODE_GET false 0 DBR_SUCCESS none dbrSTATUS_PENDING)
        (sample_rctx DBBE_OPCODE_PUT false 0 DBR_SUCCESS none dbrSTATUS_PENDING))
      (some ⟨1⟩) 8).heap 16)._status = dbrSTATUS_READY ∧
    ((dbrTest_request 0 (fun _ => some ⟨-ENOENT, DBR_SUCCESS, 16⟩)
      (sample_heap2 (sample_rctx DBBE_OPCODE_GET false 0 DBR_SUCCESS none dbrSTATUS_PENDING)
        (sample_rctx DBBE_OPCODE_PUT false 0 DBR_SUCCESS none dbrSTATUS_PENDING))
      (some ⟨1⟩) 8).heap 16)._cpl._rc = -1 ∧
    ((dbrTest_request 0 (fun _ => some ⟨-ENOENT, DBR_SUCCESS, 16⟩)
      (sample_heap2 (sample_rctx DBBE_OPCODE_GET false 0 DBR_SUCCESS none dbrSTATUS_PENDING)
        (sample_rctx DBBE_OPCODE_PUT false 0 DBR_SUCCESS none dbrSTATUS_PENDING))
      (some ⟨1⟩) 8).heap 16)._cpl._status = DBR_ERR_UNAVAIL ∧
    (-ENOENT : Int) ≠ -1 ∧ DBR_SUCCESS ≠ DBR_ERR_UNAVAIL := by
  decide

/-! ## Waiting for a request -/

/-- The loop of `dbrWait_request` leaves with the result of the poll of pass
`N` when the polls of the passes `i..N` report `DBR_ERR_INPROGRESS` and the
elapsed time reaches the timeout first after pass `N`. -/
theorem wait_loop_exit (req_offset : Nat) (backend : Nat → Nat → Option dbBE_Completion_t)
    (clock : Nat → timeval) (timeout_sec : Int) (cs : dbrName_space_t) (hdl : Nat)
    (enable_timeout : Int) (h : ctx_heap) (N : Nat) :
    ∀ (fuel i : Nat), i ≤ N → N - i < fuel →
      (∀ j, i ≤ j → j ≤ N →
        wait_poll req_offset backend clock cs hdl enable_timeout h j = DBR_ERR_INPROGRESS) →
      (∀ j, i ≤ j → j < N →
        (wait_after req_offset backend clock cs hdl enable_timeout h (j + 1)).elapsed_sec
          < timeout_sec) →
      timeout_sec ≤
        (wait_after req_offset backend clock cs hdl enable_timeout h (N + 1)).elapsed_sec →
      dbrWait_loop req_offset backend clock timeout_sec cs hdl enable_timeout fuel i
          (wait_after req_offset backend clock cs hdl enable_timeout h i)
        = some ⟨DBR_ERR_INPROGRESS,
            (wait_after req_offset backend clock cs hdl enable_timeout h (N + 1)).heap⟩ := by
  intro fuel
  induction fuel with
  | zero => intro i _ hf; omega
  | succ fuel ih =>
    intro i hi hf hpoll hbefore hafter
    have hp := hpoll i (Nat.le_refl i) hi
    unfold wait_poll at hp
    by_cases hiN : i = N
    · subst hiN
      have hnot : ¬ (wait_after req_offset backend clock cs hdl enable_timeout h (i + 1)).elapsed_sec
          < timeout_sec := by omega
      simp only [dbrWait_loop]
      simp only [wait_after] at hnot hafter ⊢
      rw [if_neg (fun hc => hnot hc.2), hp]
    · have hlt : i < N := by omega
      have hb := hbefore i (Nat.le_refl i) hlt
      simp only [dbrWait_loop]
      simp only [wait_after] at hb
      rw [if_pos ⟨hp, hb⟩]
      have := ih (i + 1) (by omega) (by omega)
        (fun j h1 h2 => hpoll j (by omega) h2)
        (fun j h1 h2 => hbefore j (by omega) h2) hafter
      simp only [wait_after] at this
      exact this

/-- A poll that finds no completion and a pending target reports
`DBR_ERR_INPROGRESS` and leaves the heap as it is. -/
theorem test_request_quiet (req_offset : Nat) (h : ctx_heap) (cs : dbrName_space_t) (hdl : Nat)
    (hhdl : hdl ≠ 0) (hpend : (h hdl)._status = dbrSTATUS_PENDING) :
    dbrTest_request req_offset (fun _ => none) h (some cs) hdl = ⟨DBR_ERR_INPROGRESS, h⟩ := by
  rw [test_request_idle req_offset (fun _ => none) h cs hdl hhdl rfl]
  have hnr : ¬ (h hdl)._status = dbrSTATUS_READY := by
    rw [hpend]
    decide
  rw [if_neg hnr]

/-- A pass of the loop of `dbrWait_request` whose poll reports
`DBR_ERR_INPROGRESS`, with timeouts enabled. -/
theorem wait_pass_inprogress (req_offset : Nat) (test_any : Nat → Option dbBE_Completion_t)
    (clock : Nat → timeval) (cs : dbrName_space_t) (hdl : Nat) (enable_timeout : Int)
    (st : wait_state) (h1 : ctx_heap) (hen : enable_timeout ≠ 0)
    (hq : dbrTest_request req_offset test_any st.heap (some cs) hdl = ⟨DBR_ERR_INPROGRESS, h1⟩) :
    wait_pass req_offset test_any clock cs hdl enable_timeout st =
      (DBR_ERR_INPROGRESS,
        if (st.timeloops + 1) % 18446744073709551616 % 65536 = 0 then
          { heap := h1,
            start_time := if st.start_time.tv_sec = 0 then clock st.clock_calls
              else st.start_time,
            elapsed_sec := elapsed_seconds (clock st.clock_calls)
              (if st.start_time.tv_sec = 0 then clock st.clock_calls else st.start_time),
            timeloops := (st.timeloops + 1) % 18446744073709551616,
            clock_calls := st.clock_calls + 1 }
        else { st with heap := h1, timeloops := (st.timeloops + 1) % 18446744073709551616 }) := by
  simp only [wait_pass, hq, hen, ne_eq, not_false_eq_true, and_self, if_true]
  split <;> rfl

/-- The state after pass `i` is the result of one pass on the state before
it. -/
theorem wait_after_succ (req_offset : Nat) (backend : Nat → Nat → Option dbBE_Completion_t)
    (clock : Nat → timeval) (cs : dbrName_space_t) (hdl : Nat) (enable_timeout : Int)
    (h : ctx_heap) (i : Nat) :
    wait_after req_offset backend clock cs hdl enable_timeout h (i + 1) =
      (wait_pass req_offset (backend i) clock cs hdl enable_timeout
        (wait_after req_offset backend clock cs hdl enable_timeout h i)).2 := rfl

/-- The state of the loop of `dbrWait_request` during the first 131071 passes
of a run in which the backend completes nothing, the target stays pending and
the clock is `sample_clock`. -/
theorem wait_after_quiet (req_offset : Nat) (h : ctx_heap) (cs : dbrName_space_t) (hdl : Nat)
    (hhdl : hdl ≠ 0) (hpend : (h hdl)._status = dbrSTATUS_PENDING) :
    ∀ i, i ≤ 131071 →
      wait_after req_offset (fun _ _ => none) sample_clock cs hdl 1 h i =
        { heap := h, start_time := if i < 65536 then ⟨0, 0⟩ else ⟨100, 0⟩, elapsed_sec := 0,
          timeloops := i, clock_calls := i / 65536 } := by
  intro i
  induction i with
  | zero =>
    intro _
    simp [wait_after, wait_start]
  | succ i ih =>
    intro hi
    have ih1 := ih (by omega)
    simp only [wait_after]
    rw [ih1]
    rw [wait_pass_inprogress req_offset (fun _ => none) sample_clock cs hdl 1 _ h (by decide)
      (test_request_quiet req_offset h cs hdl hhdl hpend)]
    have hmod : (i + 1) % 18446744073709551616 = i + 1 := by omega
    simp only [hmod]
    by_cases hk : (i + 1) % 65536 = 0
    · have hi0 : i = 65535 := by omega
      subst hi0
      simp [sample_clock, elapsed_seconds, to_long]
    · rw [if_neg hk]
      have hd : (i + 1) / 65536 = i / 65536 := by omega
      have hs : (i < 65536) = (i + 1 < 65536) := by
        apply propext
        constructor <;> intro hx <;> omega
      simp only [hd, hs]

/-- The poll of every pass up to pass 131071 of the quiet run reports
`DBR_ERR_INPROGRESS`. -/
theorem wait_poll_quiet (req_offset : Nat) (h : ctx_heap) (cs : dbrName_space_t) (hdl : Nat)
    (hhdl : hdl ≠ 0) (hpend : (h hdl)._status = dbrSTATUS_PENDING) (i : Nat) (hi : i ≤ 131071) :
    wait_poll req_offset (fun _ _ => none) sample_clock cs hdl 1 h i = DBR_ERR_INPROGRESS := by
  unfold wait_poll
  rw [wait_after_quiet req_offset h cs hdl hhdl hpend i hi]
  rw [wait_pass_inprogress req_offset (fun _ => none) sample_clock cs hdl 1 _ h (by decide)
    (test_request_quiet req_offset h cs hdl hhdl hpend)]

/-- After pass 131071 of the quiet run the clock has been read twice and five
seconds have elapsed. -/
theorem wait_after_quiet_last (req_offset : Nat) (h : ctx_heap) (cs : dbrName_space_t)
    (hdl : Nat) (hhdl : hdl ≠ 0) (hpend : (h hdl)._status = dbrSTATUS_PENDING) :
    wait_after req_offset (fun _ _ => none) sample_clock cs hdl 1 h 131072 =
      { heap := h, start_time := ⟨100, 0⟩, elapsed_sec := 5, timeloops := 131072,
        clock_calls := 2 } := by
  have hs : wait_after req_offset (fun _ _ => none) sample_clock cs hdl 1 h 131072 =
      (wait_pass req_offset (fun _ => none) sample_clock cs hdl 1
        (wait_after req_offset (fun _ _ => none) sample_clock cs hdl 1 h 131071)).2 :=
    wait_after_succ req_offset (fun _ _ => none) sample_clock cs hdl 1 h 131071
  rw [hs, wait_after_quiet req_offset h cs hdl hhdl hpend 131071 (Nat.le_refl _)]
  rw [wait_pass_inprogress req_offset (fun _ => none) sample_clock cs hdl 1 _ h (by decide)
    (test_request_quiet req_offset h cs hdl hhdl hpend)]
  have h1 : (131071 + 1) % 18446744073709551616 % 65536 = 0 := by norm_num
  have h2 : ¬ (131071 < 65536) := by norm_num
  have h3 : 131071 / 65536 = 1 := by norm_num
  have h4 : ¬ ((⟨100, 0⟩ : timeval).tv_sec = 0) := by decide
  have h5 : elapsed_seconds (sample_clock 1) ⟨100, 0⟩ = 5 := by decide
  have h6 : (131071 + 1) % 18446744073709551616 = 131072 := by norm_num
  simp only [if_pos h1, if_neg h2, h3, if_neg h4, h5, h6, if_true]

/-- The quiet run of `dbrWait_request`: timeouts enabled, a timeout of 3 s, a
backend that completes nothing, a pending target and the clock
`sample_clock`.  After 131072 passes five seconds have elapsed and the call
returns `DBR_ERR_INPROGRESS`. -/
theorem wait_request_quiet (req_offset : Nat) (h : ctx_heap) (cs : dbrName_space_t) (hdl : Nat)
    (hhdl : hdl ≠ 0) (hpend : (h hdl)._status = dbrSTATUS_PENDING) (fuel : Nat)
    (hfuel : 131072 ≤ fuel) :
    dbrWait_request req_offset (fun _ _ => none) sample_clock 3 fuel h (some cs) hdl 1
      = some ⟨DBR_ERR_INPROGRESS, h⟩ := by
  have hlast := wait_after_quiet_last req_offset h cs hdl hhdl hpend
  have hloop := wait_loop_exit req_offset (fun _ _ => none) sample_clock 3 cs hdl 1 h 131071
    fuel 0 (by omega) (by omega)
    (fun j _ hj => wait_poll_quiet req_offset h cs hdl hhdl hpend j hj)
    (fun j _ hj => by
      rw [wait_after_quiet req_offset h cs hdl hhdl hpend (j + 1) (by omega)]
      show (0 : Int) < 3
      decide)
    (by
      rw [hlast]
      show (3 : Int) ≤ 5
      decide)
  rw [hlast] at hloop
  simp only [dbrWait_request, if_neg hhdl]
  exact hloop

/-- C21 (amended): if the polls of the passes `0..N` of `dbrWait_request` all
report `DBR_ERR_INPROGRESS` and the elapsed time, as the loop computes it,
reaches the timeout `timeout_sec` of the name space first after pass `N`, then
`dbrWait_request` leaves its loop after pass `N` and returns the result of the
last poll, `DBR_ERR_INPROGRESS`; it never assigns `DBR_ERR_TIMEOUT`. -/
theorem wait_request_elapsed (req_offset : Nat)
    (backend : Nat → Nat → Option dbBE_Completion_t) (clock : Nat → timeval)
    (timeout_sec : Int) (fuel : Nat) (h : ctx_heap) (cs : dbrName_space_t) (hdl : Nat)
    (enable_timeout : Int) (N : Nat) (hhdl : hdl ≠ 0) (hfuel : N < fuel)
    (hpoll : ∀ j, j ≤ N →
      wait_poll req_offset backend clock cs hdl enable_timeout h j = DBR_ERR_INPROGRESS)
    (hbefore : ∀ j, j < N →
      (wait_after req_offset backend clock cs hdl enable_timeout h (j + 1)).elapsed_sec
        < timeout_sec)
    (hafter : timeout_sec ≤
      (wait_after req_offset backend clock cs hdl enable_timeout h (N + 1)).elapsed_sec) :
    dbrWait_request req_offset backend clock timeout_sec fuel h (some cs) hdl enable_timeout
      = some ⟨DBR_ERR_INPROGRESS,
          (wait_after req_offset backend clock cs hdl enable_timeout h (N + 1)).heap⟩ := by
  simp only [dbrWait_request, if_neg hhdl]
  exact wait_loop_exit req_offset backend clock timeout_sec cs hdl enable_timeout h N
    fuel 0 (Nat.zero_le N) (by omega) (fun j _ hj => hpoll j hj) (fun j _ hj => hbefore j hj)
    hafter

/-- The theorem `wait_request_elapsed` at the quiet run: a pending GET context
at address 8, timeouts enabled, a timeout of 3 s, the clock read at 100 s after
65536 passes and at 105 s after 131072 passes. -/
theorem wait_request_elapsed_witness :
    dbrWait_request 0 (fun _ _ => none) sample_clock 3 131072
        (sample_heap (sample_rctx DBBE_OPCODE_GET false 0 DBR_SUCCESS none dbrSTATUS_PENDING))
        (some ⟨1⟩) 8 1
      = some ⟨DBR_ERR_INPROGRESS,
          (wait_after 0 (fun _ _ => none) sample_clock ⟨1⟩ 8 1
            (sample_heap (sample_rctx DBBE_OPCODE_GET false 0 DBR_SUCCESS none
              dbrSTATUS_PENDING)) (131071 + 1)).heap⟩ :=
  wait_request_elapsed 0 (fun _ _ => none) sample_clock 3 131072
    (sample_heap (sample_rctx DBBE_OPCODE_GET false 0 DBR_SUCCESS none dbrSTATUS_PENDING))
    ⟨1⟩ 8 1 131071 (by decide) (by decide)
    (fun j hj => wait_poll_quiet 0 _ ⟨1⟩ 8 (by decide) rfl j hj)
    (fun j hj => by
      rw [wait_after_quiet 0 _ ⟨1⟩ 8 (by decide) rfl (j + 1) (by omega)]
      show (0 : Int) < 3
      decide)
    (by
      rw [wait_after_quiet_last 0 _ ⟨1⟩ 8 (by decide) rfl]
      show (3 : Int) ≤ 5
      decide)

/-- C21: timeouts enabled, a timeout of 3 s, a pending GET context at address
8, a backend that completes nothing, so that every poll reports
`DBR_ERR_INPROGRESS`, and a clock that shows 5 s elapsed at its second
reading: `dbrWait_request` returns `DBR_ERR_INPROGRESS`, not
`DBR_ERR_TIMEOUT`. -/
theorem wait_request_no_timeout_code :
    (dbrWait_request 0 (fun _ _ => none) sample_clock 3 200000
        (sample_heap (sample_rctx DBBE_OPCODE_GET false 0 DBR_SUCCESS none dbrSTATUS_PENDING))
        (some ⟨1⟩) 8 1).map (fun r => r.ret) = some DBR_ERR_INPROGRESS ∧
    DBR_ERR_INPROGRESS ≠ DBR_ERR_TIMEOUT := by
  rw [wait_request_quiet 0 _ ⟨1⟩ 8 (by decide) rfl 200000 (by decide)]
  exact ⟨rfl, by decide⟩

/-! ## The locator connection list -/

/-- The cells after the filling loop of `append`. -/
theorem append_fill_eq (v : Nat) (k : Nat) :
    ∀ (n : Int) (c : Int → Nat) (a : Int),
      append_fill v k n c a = if n ≤ a ∧ a < n + k then v else c a := by
  induction k with
  | zero =>
    intro n c a
    have h : ¬ (n ≤ a ∧ a < n + ((0 : Nat) : Int)) := by omega
    simp only [append_fill, if_neg h]
  | succ k ih =>
    intro n c a
    simp only [append_fill]
    rw [ih]
    unfold cell_set
    by_cases h1 : n + 1 ≤ a ∧ a < n + 1 + (k : Int)
    · have h2 : n ≤ a ∧ a < n + ((k + 1 : Nat) : Int) := by omega
      rw [if_pos h1, if_pos h2]
    · rw [if_neg h1]
      by_cases h3 : a = n
      · have h2 : n ≤ a ∧ a < n + ((k + 1 : Nat) : Int) := by omega
        rw [if_pos h3, if_pos h2]
      · have h2 : ¬ (n ≤ a ∧ a < n + ((k + 1 : Nat) : Int)) := by omega
        rw [if_neg h3, if_neg h2]

/-- The first loop of `append` finds the index exactly when a visited cell
holds it. -/
theorem append_find_iff (c : Int → Nat) (index : Nat) (k : Nat) :
    ∀ (n : Int), append_find c index k n = true ↔
      ∃ j : Int, n ≤ j ∧ j < n + k ∧ c j = index := by
  induction k with
  | zero =>
    intro n
    simp only [append_find]
    constructor
    · intro h; cases h
    · rintro ⟨j, h1, h2, _⟩; omega
  | succ k ih =>
    intro n
    simp only [append_find]
    by_cases h : c n = index
    · rw [if_pos h]
      constructor
      · intro _; exact ⟨n, by omega, by omega, h⟩
      · intro _; rfl
    · rw [if_neg h, ih]
      constructor
      · rintro ⟨j, h1, h2, h3⟩; exact ⟨j, by omega, by omega, h3⟩
      · rintro ⟨j, h1, h2, h3⟩
        have hj : j ≠ n := fun e => h (e ▸ h3)
        exact ⟨j, by omega, by omega, h3⟩

/-- C22: for every index `idx <= DBBE_REDIS_MAX_CONNECTIONS`, `append( idx )`
on a freshly initialised list (no array, `_active = 0`, `_size = 0`), with a
`malloc` that succeeds, returns 0 and leaves `_active = 1`, `_size = 5` and a
list whose `get_first` is `idx`; the four cells behind the first hold the
invalid index. -/
theorem append_on_initial (DBBE_REDIS_MAX_CONNECTIONS : Nat) (fresh : Int → Nat) (idx : Nat)
    (hidx : idx ≤ DBBE_REDIS_MAX_CONNECTIONS) :
    ∃ l, dbBE_Redis_locator_connection_list_append DBBE_REDIS_MAX_CONNECTIONS (some fresh)
        (dbBE_Redis_locator_connection_list_init (some lcl_initial)).lcl idx = some ⟨0, some l⟩ ∧
      l._active = 1 ∧ l._size = 5 ∧
      dbBE_Redis_locator_connection_list_get_first DBBE_REDIS_MAX_CONNECTIONS (some l)
        = some idx ∧
      lcl_cells l 5 = [idx, DBBE_REDIS_CONNECTION_INDEX_INVALID DBBE_REDIS_MAX_CONNECTIONS,
        DBBE_REDIS_CONNECTION_INDEX_INVALID DBBE_REDIS_MAX_CONNECTIONS,
        DBBE_REDIS_CONNECTION_INDEX_INVALID DBBE_REDIS_MAX_CONNECTIONS,
        DBBE_REDIS_CONNECTION_INDEX_INVALID DBBE_REDIS_MAX_CONNECTIONS] := by
  have hgt : ¬ idx > DBBE_REDIS_MAX_CONNECTIONS := by omega
  refine ⟨dbBE_Redis_locator_connection_list_t.mk (some (cell_set (append_fill
      (DBBE_REDIS_CONNECTION_INDEX_INVALID DBBE_REDIS_MAX_CONNECTIONS) 5 0 fresh) 0 idx)) 1 5,
      ?_, rfl, rfl, ?_, ?_⟩
  · simp [dbBE_Redis_locator_connection_list_append, dbBE_Redis_locator_connection_list_init,
      lcl_initial, hgt, DBBE_REDIS_CONN_LIST_SIZE_GRANULARITY]
  · simp [dbBE_Redis_locator_connection_list_get_first, cell_set]
  · simp [lcl_cells, List.range, List.range.loop, cell_set, append_fill_eq]

/-- The theorem `append_on_initial` at the call of the test of the sources:
`append( &lcl, 2 )` on the initialised list. -/
theorem append_on_initial_witness :
    ∃ l, dbBE_Redis_locator_connection_list_append sample_max (some sample_block)
        (dbBE_Redis_locator_connection_list_init (some lcl_initial)).lcl 2 = some ⟨0, some l⟩ ∧
      l._active = 1 ∧ l._size = 5 ∧
      dbBE_Redis_locator_connection_list_get_first sample_max (some l) = some 2 ∧
      lcl_cells l 5 = [2, DBBE_REDIS_CONNECTION_INDEX_INVALID sample_max,
        DBBE_REDIS_CONNECTION_INDEX_INVALID sample_max,
        DBBE_REDIS_CONNECTION_INDEX_INVALID sample_max,
        DBBE_REDIS_CONNECTION_INDEX_INVALID sample_max] :=
  append_on_initial sample_max sample_block 2 (by decide)

/-- C23: the list with the one member 2 (`_active = 1`, `_size = 5`, the cells
`[2, INVALID, INVALID, INVALID, INVALID]`) is not full, and `append( 3 )`
returns 0 on it, but `_active` becomes 3, the cell at the old `_active` keeps
the invalid index, the index 3 is stored in cell 2 and in cell 5, which lies
behind the block of five cells. -/
theorem append_not_full_skips_slot :
    lcl_view (dbBE_Redis_locator_connection_list_append sample_max none (some sample_lcl) 3) 6
      = some (0, some (3, 5, [2, 1025, 3, 1025, 1025, 3])) := by
  decide

/-- C25: from the initialised list, `append( 2 )` and `remove( 2 )` both
return 0 and leave `_active = 1` with the invalid index, which is above
`DBBE_REDIS_MAX_CONNECTIONS`, in the cell of the active prefix; `append( 2 )`
and `append( 3 )` leave `_active = 3` and the prefix `[2, INVALID, 3]`. -/
theorem run_leaves_invalid_in_prefix :
    lcl_run_view (lcl_run sample_max
        [lcl_call.append 2 (some sample_block), lcl_call.remove 2] lcl_initial) 1
      = some ([0, 0], 1, 5, [1025]) ∧
    lcl_run_view (lcl_run sample_max
        [lcl_call.append 2 (some sample_block), lcl_call.append 3 none] lcl_initial) 3
      = some ([0, 0], 3, 5, [2, 1025, 3]) ∧
    sample_max < 1025 := by
  decide

/-- C28: `get_first` on the list that `init` or `reset` leaves behind reads
the first cell of the array, which is a NULL pointer: the call has no result.
It returns the invalid index only for a NULL list. -/
theorem get_first_on_initial :
    dbBE_Redis_locator_connection_list_get_first sample_max
      (dbBE_Redis_locator_connection_list_init (some lcl_initial)).lcl = none ∧
    dbBE_Redis_locator_connection_list_get_first sample_max
      (dbBE_Redis_locator_connection_list_reset (some sample_lcl)).lcl = none ∧
    dbBE_Redis_locator_connection_list_get_first sample_max none
      = some (DBBE_REDIS_CONNECTION_INDEX_INVALID sample_max) := by
  decide

/-- C29: from the initialised list, `append( 2 )`, `append( 3 )` and
`remove( 2 )` all return 0; the member left, and so the front in the order of
insertion, is 3, but `get_first` returns the invalid index. -/
theorem get_first_not_front :
    (lcl_run sample_max [lcl_call.append 2 (some sample_block), lcl_call.append 3 none,
        lcl_call.remove 2] lcl_initial).map (fun p => (p.1,
          dbBE_Redis_locator_connection_list_get_first sample_max (some p.2)))
      = some ([0, 0, 0], some 1025) ∧
    spec_members [lcl_call.append 2 (some sample_block), lcl_call.append 3 none,
        lcl_call.remove 2] [] = [3] := by
  decide

/-- C24: `append` returns `-EINVAL` for a NULL list and for an index above
`DBBE_REDIS_MAX_CONNECTIONS`, the invalid index among them, and `-EALREADY`
for an index that a cell of the active prefix holds; in each of these cases
the list is left as it is. -/
theorem append_rejects (DBBE_REDIS_MAX_CONNECTIONS : Nat) (malloc : Option (Int → Nat))
    (l : dbBE_Redis_locator_connection_list_t) (idx : Nat) :
    dbBE_Redis_locator_connection_list_append DBBE_REDIS_MAX_CONNECTIONS malloc none idx
      = some ⟨-EINVAL, none⟩ ∧
    (idx > DBBE_REDIS_MAX_CONNECTIONS →
      dbBE_Redis_locator_connection_list_append DBBE_REDIS_MAX_CONNECTIONS malloc (some l) idx
        = some ⟨-EINVAL, some l⟩) ∧
    dbBE_Redis_locator_connection_list_append DBBE_REDIS_MAX_CONNECTIONS malloc (some l)
        (DBBE_REDIS_CONNECTION_INDEX_INVALID DBBE_REDIS_MAX_CONNECTIONS)
      = some ⟨-EINVAL, some l⟩ ∧
    (idx ≤ DBBE_REDIS_MAX_CONNECTIONS →
      ∀ c, l._connections = some c → (∃ n : Int, 0 ≤ n ∧ n < l._active ∧ c n = idx) →
        dbBE_Redis_locator_connection_list_append DBBE_REDIS_MAX_CONNECTIONS malloc (some l) idx
          = some ⟨-EALREADY, some l⟩) := by
  refine ⟨rfl, ?_, ?_, ?_⟩
  · intro h
    simp only [dbBE_Redis_locator_connection_list_append, if_pos h]
  · have h : DBBE_REDIS_CONNECTION_INDEX_INVALID DBBE_REDIS_MAX_CONNECTIONS
        > DBBE_REDIS_MAX_CONNECTIONS := by
      unfold DBBE_REDIS_CONNECTION_INDEX_INVALID
      omega
    simp only [dbBE_Redis_locator_connection_list_append, if_pos h]
  · intro h c hc hex
    have hgt : ¬ idx > DBBE_REDIS_MAX_CONNECTIONS := by omega
    have hfind : append_find c idx l._active.toNat 0 = true := by
      rw [append_find_iff]
      obtain ⟨n, h1, h2, h3⟩ := hex
      exact ⟨n, h1, by omega, h3⟩
    simp only [dbBE_Redis_locator_connection_list_append, if_neg hgt, hc, hfind, if_true]

/-- The theorem `append_rejects` at the list with the one member 2: a second
`append( 2 )` returns `-EALREADY` and changes nothing. -/
theorem append_rejects_witness :
    lcl_view (dbBE_Redis_locator_connection_list_append sample_max none (some sample_lcl) 2) 6
      = lcl_view (some ⟨-EALREADY, some sample_lcl⟩) 6 :=
  congrArg (fun r => lcl_view r 6)
    ((append_rejects sample_max none sample_lcl 2).2.2.2 (by decide) _ rfl
      ⟨0, by decide, by decide, by decide⟩)

/-- A call of `append` keeps the size invariant. -/
theorem append_sized (DBBE_REDIS_MAX_CONNECTIONS : Nat) (malloc : Option (Int → Nat))
    (l l1 : dbBE_Redis_locator_connection_list_t) (idx : Nat) (r : lcl_result)
    (hl : lcl_sized l)
    (hr : dbBE_Redis_locator_connection_list_append DBBE_REDIS_MAX_CONNECTIONS malloc (some l) idx
      = some r) (hl1 : r.lcl = some l1) : lcl_sized l1 := by
  obtain ⟨h0, h1, h5, h2⟩ := hl
  unfold dbBE_Redis_locator_connection_list_append at hr
  simp only [DBBE_REDIS_CONN_LIST_SIZE_GRANULARITY] at hr
  by_cases hgt : idx > DBBE_REDIS_MAX_CONNECTIONS
  · simp only [if_pos hgt, Option.some.injEq] at hr
    subst hr
    simp only [Option.some.injEq] at hl1
    subst hl1
    exact ⟨h0, h1, h5, h2⟩
  · simp only [if_neg hgt] at hr
    cases hc : l._connections with
    | none =>
      simp only [hc] at hr
      by_cases ha : 0 < l._active
      · simp only [if_pos ha] at hr
        cases hr
      · simp only [if_neg ha] at hr
        by_cases hs : l._active < l._size
        · simp only [if_pos hs] at hr
          cases hr
        · simp only [if_neg hs] at hr
          cases malloc with
          | none =>
            simp only [Option.some.injEq] at hr
            subst hr
            simp only [Option.some.injEq] at hl1
            subst hl1
            refine ⟨h0, ?_, ?_, ?_⟩
            · show l._active ≤ l._size + 5
              omega
            · show 5 ∣ l._size + 5
              omega
            · intro hx
              cases hx
          | some fresh =>
            have hneg : ¬ l._active < 0 := by omega
            simp only [if_neg hneg, Option.some.injEq] at hr
            subst hr
            simp only [Option.some.injEq] at hl1
            subst hl1
            refine ⟨?_, ?_, ?_, ?_⟩
            · show 0 ≤ l._active + 1
              omega
            · show l._active + 1 ≤ l._size + 5
              omega
            · show 5 ∣ l._size + 5
              omega
            · intro _
              show 2 ∣ l._size + 5 - (l._active + 1)
              omega
    | some tmp =>
      have h2e : 2 ∣ (l._size - l._active) := h2 (by rw [hc]; rfl)
      simp only [hc] at hr
      by_cases hf : append_find tmp idx l._active.toNat 0 = true
      · simp only [hf, if_true, Option.some.injEq] at hr
        subst hr
        simp only [Option.some.injEq] at hl1
        subst hl1
        exact ⟨h0, h1, h5, h2⟩
      · have hff : append_find tmp idx l._active.toNat 0 = false := by
          cases hx : append_find tmp idx l._active.toNat 0
          · rfl
          · exact absurd hx hf
        simp only [hff, Bool.false_eq_true, if_false] at hr
        by_cases hs : l._active < l._size
        · simp only [if_pos hs, Option.some.injEq] at hr
          subst hr
          simp only [Option.some.injEq] at hl1
          subst hl1
          refine ⟨?_, ?_, h5, ?_⟩
          · show 0 ≤ l._active + 1 + 1
            omega
          · show l._active + 1 + 1 ≤ l._size
            omega
          · intro _
            show 2 ∣ l._size - (l._active + 1 + 1)
            omega
        · simp only [if_neg hs] at hr
          cases malloc with
          | none =>
            simp only [Option.some.injEq] at hr
            subst hr
            simp only [Option.some.injEq] at hl1
            subst hl1
            refine ⟨h0, ?_, ?_, ?_⟩
            · show l._active ≤ l._size + 5
              omega
            · show 5 ∣ l._size + 5
              omega
            · intro hx
              cases hx
          | some fresh =>
            have hneg : ¬ l._active < 0 := by omega
            simp only [if_neg hneg, Option.some.injEq] at hr
            subst hr
            simp only [Option.some.injEq] at hl1
            subst hl1
            refine ⟨?_, ?_, ?_, ?_⟩
            · show 0 ≤ l._active + 1
              omega
            · show l._active + 1 ≤ l._size + 5
              omega
            · show 5 ∣ l._size + 5
              omega
            · intro _
              show 2 ∣ l._size + 5 - (l._active + 1)
              omega

/-- A call of `remove` keeps the size invariant: it changes neither counter. -/
theorem remove_sized (DBBE_REDIS_MAX_CONNECTIONS : Nat)
    (l l1 : dbBE_Redis_locator_connection_list_t) (idx : Nat) (r : lcl_result)
    (hl : lcl_sized l)
    (hr : dbBE_Redis_locator_connection_list_remove DBBE_REDIS_MAX_CONNECTIONS (some l) idx
      = some r) (hl1 : r.lcl = some l1) : lcl_sized l1 := by
  obtain ⟨h0, h1, h5, h2⟩ := hl
  unfold dbBE_Redis_locator_connection_list_remove at hr
  by_cases hgt : idx > DBBE_REDIS_MAX_CONNECTIONS
  · simp only [if_pos hgt, Option.some.injEq] at hr
    subst hr
    simp only [Option.some.injEq] at hl1
    subst hl1
    exact ⟨h0, h1, h5, h2⟩
  · simp only [if_neg hgt] at hr
    cases hc : l._connections with
    | none =>
      simp only [hc] at hr
      by_cases ha : 0 < l._active
      · simp only [if_pos ha] at hr
        cases hr
      · simp only [if_neg ha, Option.some.injEq] at hr
        subst hr
        simp only [Option.some.injEq] at hl1
        subst hl1
        exact ⟨h0, h1, h5, h2⟩
    | some c =>
      have h2e : 2 ∣ (l._size - l._active) := h2 (by rw [hc]; rfl)
      simp only [hc, Option.some.injEq] at hr
      subst hr
      simp only [Option.some.injEq] at hl1
      subst hl1
      exact ⟨h0, h1, h5, fun _ => h2e⟩

/-- Every sequence of calls keeps the size invariant. -/
theorem run_sized (DBBE_REDIS_MAX_CONNECTIONS : Nat) (calls : List lcl_call) :
    ∀ (l l1 : dbBE_Redis_locator_connection_list_t) (rets : List Int), lcl_sized l →
      lcl_run DBBE_REDIS_MAX_CONNECTIONS calls l = some (rets, l1) → lcl_sized l1 := by
  induction calls with
  | nil =>
    intro l l1 rets hl hr
    simp only [lcl_run, Option.some.injEq, Prod.mk.injEq] at hr
    rw [← hr.2]
    exact hl
  | cons call rest ih =>
    intro l l1 rets hl hr
    simp only [lcl_run] at hr
    cases hs : lcl_step DBBE_REDIS_MAX_CONNECTIONS call l with
    | none =>
      simp only [hs] at hr
      cases hr
    | some r =>
      simp only [hs] at hr
      cases hl2 : r.lcl with
      | none =>
        simp only [hl2] at hr
        cases hr
      | some l2 =>
        simp only [hl2] at hr
        have hinv : lcl_sized l2 := by
          cases call with
          | append index malloc =>
            exact append_sized DBBE_REDIS_MAX_CONNECTIONS malloc l l2 index r hl hs hl2
          | remove index =>
            exact remove_sized DBBE_REDIS_MAX_CONNECTIONS l l2 index r hl hs hl2
        cases hrest : lcl_run DBBE_REDIS_MAX_CONNECTIONS rest l2 with
        | none =>
          simp only [hrest] at hr
          cases hr
        | some p =>
          simp only [hrest, Option.some.injEq, Prod.mk.injEq] at hr
          exact ih l2 l1 p.1 hinv (by rw [hrest, ← hr.2])

/-- C26: after every finite sequence of `append` and `remove` calls from the
initialised list (every call of the sequence having a result),
`_active <= _size` and `_size` is a multiple of 5. -/
theorem run_active_le_size (DBBE_REDIS_MAX_CONNECTIONS : Nat) (calls : List lcl_call)
    (rets : List Int) (l : dbBE_Redis_locator_connection_list_t)
    (hrun : lcl_run DBBE_REDIS_MAX_CONNECTIONS calls lcl_initial = some (rets, l)) :
    l._active ≤ l._size ∧ 5 ∣ l._size := by
  have hinit : lcl_sized lcl_initial :=
    ⟨Int.le_refl 0, Int.le_refl 0, ⟨0, rfl⟩, fun hx => by cases hx⟩
  have h := run_sized DBBE_REDIS_MAX_CONNECTIONS calls lcl_initial l rets hinit hrun
  exact ⟨h.2.1, h.2.2.1⟩

/-- The theorem `run_active_le_size` at a run of five calls from the
initialised list. -/
theorem run_active_le_size_witness :
    ∃ rets l, lcl_run sample_max [lcl_call.append 2 (some sample_block), lcl_call.append 3 none,
        lcl_call.remove 2, lcl_call.append 4 none, lcl_call.append 5 (some sample_block)]
        lcl_initial = some (rets, l) ∧ l._active ≤ l._size ∧ 5 ∣ l._size := by
  have hs : (lcl_run sample_max [lcl_call.append 2 (some sample_block), lcl_call.append 3 none,
      lcl_call.remove 2, lcl_call.append 4 none, lcl_call.append 5 (some sample_block)]
      lcl_initial).isSome = true := by decide
  obtain ⟨p, hp⟩ := Option.isSome_iff_exists.mp hs
  exact ⟨p.1, p.2, hp, run_active_le_size sample_max _ p.1 p.2 hp⟩

/-- The loop of `remove` once `shift` is 1: every visited cell takes the value
of its right neighbour. -/
theorem remove_loop_shifted (index : Nat) (k : Nat) :
    ∀ (n : Int) (c : Int → Nat),
      remove_loop index k n 1 c = (1, fun a => if n ≤ a ∧ a < n + k then c (a + 1) else c a) := by
  induction k with
  | zero =>
    intro n c
    simp only [remove_loop]
    congr 1
    funext a
    have h : ¬ (n ≤ a ∧ a < n + ((0 : Nat) : Int)) := by omega
    rw [if_neg h]
  | succ k ih =>
    intro n c
    simp only [remove_loop, ite_self]
    rw [ih]
    congr 1
    funext a
    unfold cell_set
    by_cases h1 : n + 1 ≤ a ∧ a < n + 1 + (k : Int)
    · have h2 : n ≤ a ∧ a < n + ((k + 1 : Nat) : Int) := by omega
      have h3 : ¬ a + 1 = n := by omega
      rw [if_pos h1, if_pos h2, if_neg h3]
    · rw [if_neg h1]
      by_cases h3 : a = n
      · have h2 : n ≤ a ∧ a < n + ((k + 1 : Nat) : Int) := by omega
        rw [if_pos h3, if_pos h2, h3]
      · have h2 : ¬ (n ≤ a ∧ a < n + ((k + 1 : Nat) : Int)) := by omega
        rw [if_neg h3, if_neg h2]

/-- The loop of `remove` over cells that do not hold the index changes
nothing. -/
theorem remove_loop_absent (index : Nat) (k : Nat) :
    ∀ (n : Int) (c : Int → Nat), (∀ j : Int, n ≤ j → j < n + k → c j ≠ index) →
      remove_loop index k n 0 c = (0, c) := by
  induction k with
  | zero =>
    intro n c _
    simp only [remove_loop]
  | succ k ih =>
    intro n c h
    have hn : c n ≠ index := h n (by omega) (by omega)
    have hset : cell_set c n (c (n + 0)) = c := by
      funext a
      unfold cell_set
      by_cases ha : a = n
      · rw [if_pos ha, ha, Int.add_zero]
      · rw [if_neg ha]
    simp only [remove_loop, if_neg hn, hset]
    exact ih (n + 1) c (fun j h1 h2 => h j (by omega) (by omega))

/-- The loop of `remove` with the first match at `p`: the cells from `p` to
the last visited one take the value of their right neighbour. -/
theorem remove_loop_match (index : Nat) (c : Int → Nat) (p : Int) (k : Nat) :
    ∀ (n : Int), n ≤ p → p < n + k → c p = index →
      (∀ j : Int, n ≤ j → j < p → c j ≠ index) →
      remove_loop index k n 0 c
        = (1, fun a => if p ≤ a ∧ a < n + k then c (a + 1) else c a) := by
  induction k with
  | zero =>
    intro n h1 h2
    omega
  | succ k ih =>
    intro n h1 h2 hp hbefore
    by_cases hnp : n = p
    · subst hnp
      simp only [remove_loop, if_pos hp]
      rw [remove_loop_shifted]
      congr 1
      funext a
      unfold cell_set
      by_cases h3 : n + 1 ≤ a ∧ a < n + 1 + (k : Int)
      · have h4 : n ≤ a ∧ a < n + ((k + 1 : Nat) : Int) := by omega
        have h5 : ¬ a + 1 = n := by omega
        rw [if_pos h3, if_pos h4, if_neg h5]
      · rw [if_neg h3]
        by_cases h5 : a = n
        · have h4 : n ≤ a ∧ a < n + ((k + 1 : Nat) : Int) := by omega
          rw [if_pos h5, if_pos h4, h5]
        · have h4 : ¬ (n ≤ a ∧ a < n + ((k + 1 : Nat) : Int)) := by omega
          rw [if_neg h5, if_neg h4]
    · have hn : c n ≠ index := hbefore n (by omega) (by omega)
      have hset : cell_set c n (c (n + 0)) = c := by
        funext a
        unfold cell_set
        by_cases ha : a = n
        · rw [if_pos ha, ha, Int.add_zero]
        · rw [if_neg ha]
      simp only [remove_loop, if_neg hn, hset]
      rw [ih (n + 1) (by omega) (by omega) hp (fun j h3 h4 => hbefore j (by omega) h4)]
      congr 1
      funext a
      have he : (n + 1 + (k : Int)) = n + ((k + 1 : Nat) : Int) := by omega
      rw [he]

/-- Among the cells `n .. n + k - 1`, one that holds the index gives a first
one that holds it. -/
theorem first_match (index : Nat) (c : Int → Nat) (k : Nat) :
    ∀ (n : Int), (∃ j : Int, n ≤ j ∧ j < n + k ∧ c j = index) →
      ∃ p : Int, n ≤ p ∧ p < n + k ∧ c p = index ∧
        ∀ j : Int, n ≤ j → j < p → c j ≠ index := by
  induction k with
  | zero =>
    rintro n ⟨j, h1, h2, _⟩
    omega
  | succ k ih =>
    rintro n ⟨j, h1, h2, h3⟩
    by_cases hn : c n = index
    · exact ⟨n, by omega, by omega, hn, fun j h4 h5 => by omega⟩
    · have hj : j ≠ n := fun e => hn (e ▸ h3)
      obtain ⟨p, hp1, hp2, hp3, hp4⟩ := ih (n + 1) ⟨j, by omega, by omega, h3⟩
      refine ⟨p, by omega, by omega, hp3, ?_⟩
      intro i hi1 hi2
      by_cases hin : i = n
      · rw [hin]
        exact hn
      · exact hp4 i (by omega) hi2

/-- C27: for every list with an array and every index
`idx <= DBBE_REDIS_MAX_CONNECTIONS`, `remove( idx )` returns `-ENOENT` and
leaves the list as it is when no cell of the active prefix holds `idx`; when
one does it returns 0, and with `p` the first such position every cell from
`p` to the end of the active prefix takes the value of its right neighbour,
so that the entries behind `p` move one slot to the left in their order; the
other cells, `_active` and `_size` keep their values. -/
theorem remove_shifts_left (DBBE_REDIS_MAX_CONNECTIONS : Nat)
    (l : dbBE_Redis_locator_connection_list_t) (c : Int → Nat) (idx : Nat)
    (hc : l._connections = some c) (hidx : idx ≤ DBBE_REDIS_MAX_CONNECTIONS) :
    ((∀ n : Int, 0 ≤ n → n < l._active → c n ≠ idx) →
      dbBE_Redis_locator_connection_list_remove DBBE_REDIS_MAX_CONNECTIONS (some l) idx
        = some ⟨-ENOENT, some l⟩) ∧
    ((∃ n : Int, 0 ≤ n ∧ n < l._active ∧ c n = idx) →
      ∃ p : Int, 0 ≤ p ∧ p < l._active ∧ c p = idx ∧
        (∀ n : Int, 0 ≤ n → n < p → c n ≠ idx) ∧
        dbBE_Redis_locator_connection_list_remove DBBE_REDIS_MAX_CONNECTIONS (some l) idx
          = some ⟨0, some (dbBE_Redis_locator_connection_list_t.mk
              (some (fun a => if p ≤ a ∧ a < l._active then c (a + 1) else c a))
              l._active l._size)⟩) := by
  have hgt : ¬ idx > DBBE_REDIS_MAX_CONNECTIONS := by omega
  constructor
  · intro habs
    have hloop := remove_loop_absent idx l._active.toNat 0 c
      (fun j h1 h2 => habs j h1 (by omega))
    simp only [dbBE_Redis_locator_connection_list_remove, if_neg hgt, hc, hloop, if_true]
    cases l
    simp only at hc
    rw [hc]
  · rintro ⟨n, h1, h2, h3⟩
    obtain ⟨p, hp1, hp2, hp3, hp4⟩ := first_match idx c l._active.toNat 0
      ⟨n, h1, by omega, h3⟩
    refine ⟨p, hp1, by omega, hp3, hp4, ?_⟩
    have hloop := remove_loop_match idx c p l._active.toNat 0 hp1 hp2 hp3 hp4
    have hact : (0 : Int) + (l._active.toNat : Int) = l._active := by omega
    rw [hact] at hloop
    have h10 : ¬ ((1 : Int) = 0) := by decide
    simp only [dbBE_Redis_locator_connection_list_remove, if_neg hgt, hc, hloop, if_neg h10]

/-- The theorem `remove_shifts_left` at the list with the one member 2:
`remove( 2 )` returns 0, the cell of the member takes the invalid index of its
right neighbour and `_active` stays 1. -/
theorem remove_shifts_left_witness :
    lcl_view (dbBE_Redis_locator_connection_list_remove sample_max (some sample_lcl) 2) 5
      = some (0, some (1, 5, [1025, 1025, 1025, 1025, 1025])) ∧
    ∃ p : Int, 0 ≤ p ∧ p < sample_lcl._active ∧
      dbBE_Redis_locator_connection_list_remove sample_max (some sample_lcl) 2
        = some ⟨0, some (dbBE_Redis_locator_connection_list_t.mk
            (some (fun a => if p ≤ a ∧ a < sample_lcl._active
              then (fun (b : Int) => if b = 0 then 2
                else DBBE_REDIS_CONNECTION_INDEX_INVALID sample_max) (a + 1)
              else (fun (b : Int) => if b = 0 then 2
                else DBBE_REDIS_CONNECTION_INDEX_INVALID sample_max) a))
            sample_lcl._active sample_lcl._size)⟩ :=
  ⟨by decide,
    let ⟨p, h1, h2, _, _, h5⟩ := (remove_shifts_left sample_max sample_lcl
      (fun (b : Int) => if b = 0 then 2 else DBBE_REDIS_CONNECTION_INDEX_INVALID sample_max) 2
      rfl (by decide)).2 ⟨0, by decide, by decide, by decide⟩
    ⟨p, h1, h2, h5⟩⟩

/-! ## Sending a completion -/

/-- C30: a client context at address 8 with the pending queue `[16, 24]` and
`total_pending = 2`.  For the completion of the request context 24, which is
not the head of the queue, `dbrFShip_outbound` sends 10 bytes and returns 0
with `total_pending = 1`, but the queue is still `[16, 24]`: the context 24,
its fields set to NULL, is still a member.  For the completion of the head 16
the queue becomes `[24]`. -/
theorem outbound_keeps_inner_context :
    (dbrFShip_outbound (some ⟨1, DBR_SUCCESS, 24⟩) 10 10 sample_fship).map
        (fun r => (r.1, r.2.pending 8, r.2.total_pending, r.2.rctxs 24))
      = some (0, [16, 24], 1, ⟨0, 0, 0⟩) ∧
    (dbrFShip_outbound (some ⟨1, DBR_SUCCESS, 16⟩) 10 10 sample_fship).map
        (fun r => (r.1, r.2.pending 8, r.2.total_pending, r.2.rctxs 16))
      = some (0, [24], 1, ⟨0, 0, 0⟩) := by
  decide

/-! ## The wakeup callback -/

/-- C31 (amended): `dbrFShip_connection_wakeup`, given an event info with a
client context, a connection and a ready queue, pushes the connection onto
the ready queue for every event mask: with READ set, with TIMEOUT without
READ, and also with neither of the two, where it logs an invalid event type
and still pushes.  The mask decides the message only. -/
theorem wakeup_pushes_always (queue_push : List Nat → Nat → List Nat) (ev_type : Int)
    (cctx : dbrFShip_client_context_t) (queue : List Nat) (hconn : cctx._conn ≠ 0) :
    (dbrFShip_connection_wakeup queue_push ev_type (some ⟨some cctx, some queue⟩)).map
        (fun r => r.queue) = some (some (queue_push queue cctx._conn)) ∧
    (((ev_type % 65536).toNat &&& EV_TIMEOUT = 0 ∧ (ev_type % 65536).toNat &&& EV_READ = 0) →
      dbrFShip_connection_wakeup queue_push ev_type (some ⟨some cctx, some queue⟩)
        = some ⟨wakeup_log.invalid_event, some (queue_push queue cctx._conn)⟩) := by
  constructor
  · simp only [dbrFShip_connection_wakeup, if_neg hconn, Option.map_some']
  · rintro ⟨h1, h2⟩
    have h3 : ¬ ((ev_type % 65536).toNat &&& EV_TIMEOUT ≠ 0
        ∧ (ev_type % 65536).toNat &&& EV_READ = 0) := fun h => h.1 h1
    have h4 : ¬ ((ev_type % 65536).toNat &&& EV_READ ≠ 0) := fun h => h h2
    simp only [dbrFShip_connection_wakeup, if_neg hconn, if_neg h3, if_neg h4]

/-- The theorem `wakeup_pushes_always` at the event mask 2 (READ), the
connection 7 and an empty ready queue. -/
theorem wakeup_pushes_always_witness :
    (dbrFShip_connection_wakeup sample_push 2 (some ⟨some ⟨7⟩, some []⟩)).map
      (fun r => r.queue) = some (some (sample_push [] 7)) :=
  (wakeup_pushes_always sample_push 2 ⟨7⟩ [] (by decide)).1

/-- C31: the event mask 0, with neither READ nor TIMEOUT, the connection 7 and
an empty ready queue: `dbrFShip_connection_wakeup` logs the invalid event type
and pushes the connection, so that the queue holds it afterwards. -/
theorem wakeup_invalid_mask_pushes :
    dbrFShip_connection_wakeup sample_push 0 (some ⟨some ⟨7⟩, some []⟩)
      = some ⟨wakeup_log.invalid_event, some [7]⟩ := by
  decide

/-! ## The locator connection list: bounds and frame -/

/-- C32: two accesses outside the block.  On the list with the one member 2
(five cells, `_active = 1`) `append( 3 )` stores 3 in cell 5, the cell behind
the block of five cells, which held the invalid index before.  On a full list
of five cells `remove( 14 )` of the last member copies the cell behind the
block into cell 4: two lists that differ only behind the block end with
different cells. -/
theorem append_remove_leave_block :
    lcl_cells sample_lcl 6 = [2, 1025, 1025, 1025, 1025, 1025] ∧
    lcl_view (dbBE_Redis_locator_connection_list_append sample_max none (some sample_lcl) 3) 6
      = some (0, some (3, 5, [2, 1025, 3, 1025, 1025, 3])) ∧
    lcl_cells (sample_full_lcl 7) 5 = lcl_cells (sample_full_lcl 8) 5 ∧
    lcl_view (dbBE_Redis_locator_connection_list_remove sample_max (some (sample_full_lcl 7)) 14) 5
      = some (0, some (5, 5, [10, 11, 12, 13, 7])) ∧
    lcl_view (dbBE_Redis_locator_connection_list_remove sample_max (some (sample_full_lcl 8)) 14) 5
      = some (0, some (5, 5, [10, 11, 12, 13, 8])) :=
  ⟨by decide, by decide, by decide, by decide, by decide⟩

/-- C35: `remove` never changes `_active` or `_size`: whenever the call has a
result, `get_active` and `get_size` return after it what they returned before,
also when the index was found and the call returned 0; and the call has a
result for every list with an array. -/
theorem remove_keeps_counters (DBBE_REDIS_MAX_CONNECTIONS : Nat)
    (lcl : Option dbBE_Redis_locator_connection_list_t) (idx : Nat) :
    (∀ r, dbBE_Redis_locator_connection_list_remove DBBE_REDIS_MAX_CONNECTIONS lcl idx = some r →
      dbBE_Redis_locator_connection_list_get_active r.lcl
        = dbBE_Redis_locator_connection_list_get_active lcl ∧
      dbBE_Redis_locator_connection_list_get_size r.lcl
        = dbBE_Redis_locator_connection_list_get_size lcl) ∧
    (∀ l c, lcl = some l → l._connections = some c →
      ∃ r, dbBE_Redis_locator_connection_list_remove DBBE_REDIS_MAX_CONNECTIONS lcl idx
        = some r) := by
  constructor
  · intro r hr
    cases lcl with
    | none =>
      simp only [dbBE_Redis_locator_connection_list_remove, Option.some.injEq] at hr
      subst hr
      exact ⟨rfl, rfl⟩
    | some l =>
      unfold dbBE_Redis_locator_connection_list_remove at hr
      by_cases hgt : idx > DBBE_REDIS_MAX_CONNECTIONS
      · simp only [if_pos hgt, Option.some.injEq] at hr
        subst hr
        exact ⟨rfl, rfl⟩
      · simp only [if_neg hgt] at hr
        cases hc : l._connections with
        | none =>
          simp only [hc] at hr
          by_cases ha : 0 < l._active
          · simp only [if_pos ha] at hr
            cases hr
          · simp only [if_neg ha, Option.some.injEq] at hr
            subst hr
            exact ⟨rfl, rfl⟩
        | some c =>
          simp only [hc, Option.some.injEq] at hr
          subst hr
          exact ⟨rfl, rfl⟩
  · intro l c hl hc
    subst hl
    unfold dbBE_Redis_locator_connection_list_remove
    by_cases hgt : idx > DBBE_REDIS_MAX_CONNECTIONS
    · simp only [if_pos hgt]
      exact ⟨_, rfl⟩
    · simp only [if_neg hgt, hc]
      exact ⟨_, rfl⟩

/-- The theorem `remove_keeps_counters` at the list with the one member 2 and
`remove( 2 )`, which returns 0: `get_active` is still 1 and `get_size` still
5. -/
theorem remove_keeps_counters_witness :
    ∃ r, dbBE_Redis_locator_connection_list_remove sample_max (some sample_lcl) 2 = some r ∧
      r.ret = 0 ∧
      dbBE_Redis_locator_connection_list_get_active r.lcl = 1 ∧
      dbBE_Redis_locator_connection_list_get_size r.lcl = 5 := by
  obtain ⟨r, hr⟩ := (remove_keeps_counters sample_max (some sample_lcl) 2).2 sample_lcl _ rfl rfl
  have h := (remove_keeps_counters sample_max (some sample_lcl) 2).1 r hr
  have hret : (dbBE_Redis_locator_connection_list_remove sample_max (some sample_lcl) 2).map
      (fun x => x.ret) = some 0 := by decide
  rw [hr] at hret
  exact ⟨r, hr, Option.some.inj hret, h.1, h.2⟩

/-! ## Completion to error code: negative results and MOVE -/

/-- The errno mapping of the negated value of an error code: `DBR_SUCCESS`
for `DBR_SUCCESS`, `DBR_ERR_BE_GENERAL` for every other code, whose negated
value is below zero and matches no errno. -/
theorem map_negated_status (st : DBR_Errorcode_t) :
    dbrMapErrno_to_errorcode (-(errorcode_value st))
      = if st = DBR_SUCCESS then DBR_SUCCESS else DBR_ERR_BE_GENERAL := by
  cases st <;> decide

/-- C34: for every opcode other than READ and every completion with `rc < 0`,
`dbrCheck_response` returns `DBR_SUCCESS` when the status is `DBR_SUCCESS` and
`DBR_ERR_BE_GENERAL` for every other status of the enumeration; in particular
a completion that `dbrProcess_completion` recorded from `rc = -ENOENT` or
`rc = -ENOTCONN` (stored as `rc = -1` with `DBR_ERR_UNAVAIL` or
`DBR_ERR_NOCONNECT`) is reported as `DBR_ERR_BE_GENERAL`. -/
theorem check_response_negative_general (x : dbrRequestContext_t) (h : ctx_heap) (rctx : Nat)
    (c : dbBE_Completion_t)
    (hop : x._req._opcode ≠ DBBE_OPCODE_READ) (hrc : x._cpl._rc < 0)
    (hctx : rctx ≠ 0) (hu : c._user = rctx) (hsent : c._rc = -ENOENT ∨ c._rc = -ENOTCONN)
    (hop2 : (h rctx)._req._opcode ≠ DBBE_OPCODE_READ) :
    (dbrCheck_response (some x)).ret
      = (if x._cpl._status = DBR_SUCCESS then DBR_SUCCESS else DBR_ERR_BE_GENERAL) ∧
    (dbrCheck_response (some ((dbrProcess_completion h rctx (some c)).heap rctx))).ret
      = DBR_ERR_BE_GENERAL := by
  constructor
  · simp only [dbrCheck_response, hop, hrc, ne_eq, not_false_eq_true, and_self, if_true]
    exact map_negated_status x._cpl._status
  · rw [process_completion_heap h rctx c hctx hu]
    simp only [heap_set_same]
    have h3 : (-ENOTCONN : Int) ≠ -ENOENT := fun e => ENOENT_ne_ENOTCONN e.symm
    rcases hsent with h1 | h2
    · simp only [dbrCheck_response, h1, hop2, true_or, if_true, ne_eq, not_false_eq_true,
        true_and]
      rw [if_pos (by decide)]
      exact map_negated_status DBR_ERR_UNAVAIL
    · simp only [dbrCheck_response, h2, hop2, or_true, if_true, if_neg h3, ne_eq,
        not_false_eq_true, true_and]
      rw [if_pos (by decide)]
      exact map_negated_status DBR_ERR_NOCONNECT

/-- The theorem `check_response_negative_general` at a PUT context whose
completion is `{rc = -1, status = DBR_ERR_NOCONNECT}` and at a pending REMOVE
context at address 8 that receives a completion with `rc = -ENOENT`. -/
theorem check_response_negative_general_witness :
    (dbrCheck_response (some (sample_rctx DBBE_OPCODE_PUT false (-1) DBR_ERR_NOCONNECT none
      dbrSTATUS_READY))).ret = DBR_ERR_BE_GENERAL ∧
    (dbrCheck_response (some ((dbrProcess_completion
      (sample_heap (sample_rctx DBBE_OPCODE_REMOVE false 0 DBR_SUCCESS none dbrSTATUS_PENDING))
      8 (some ⟨-ENOENT, DBR_SUCCESS, 8⟩)).heap 8))).ret = DBR_ERR_BE_GENERAL :=
  check_response_negative_general
    (sample_rctx DBBE_OPCODE_PUT false (-1) DBR_ERR_NOCONNECT none dbrSTATUS_READY)
    (sample_heap (sample_rctx DBBE_OPCODE_REMOVE false 0 DBR_SUCCESS none dbrSTATUS_PENDING))
    8 ⟨-ENOENT, DBR_SUCCESS, 8⟩ (by decide) (by decide) (by decide) rfl (Or.inl rfl) (by decide)

/-- C36: for a MOVE request context whose completion has `rc >= 0`,
`dbrCheck_response` returns `DBR_SUCCESS` whatever the completion status is,
and leaves the context, the cell behind `_rc` included, as it is. -/
theorem check_response_move (x : dbrRequestContext_t)
    (hop : x._req._opcode = DBBE_OPCODE_MOVE) (hrc : 0 ≤ x._cpl._rc) :
    dbrCheck_response (some x) = ⟨DBR_SUCCESS, some x⟩ := by
  have hnn : ¬ x._cpl._rc < 0 := by omega
  simp [dbrCheck_response, hop, hnn]

/-- The theorem `check_response_move` at a MOVE context whose completion is
`{rc = 0, status = DBR_ERR_GENERIC}` and whose `_rc` cell holds 7. -/
theorem check_response_move_witness :
    dbrCheck_response (some (sample_rctx DBBE_OPCODE_MOVE false 0 DBR_ERR_GENERIC (some 7)
        dbrSTATUS_READY))
      = ⟨DBR_SUCCESS, some (sample_rctx DBBE_OPCODE_MOVE false 0 DBR_ERR_GENERIC (some 7)
          dbrSTATUS_READY)⟩ :=
  check_response_move
    (sample_rctx DBBE_OPCODE_MOVE false 0 DBR_ERR_GENERIC (some 7) dbrSTATUS_READY)
    rfl (by decide)

/-! ## Round trip without a caller array -/

/-- The conditional round trip within the range of `int`.  For every SGE
list `S` with `1 <= |S| <= 256`, element lengths with `len_i + 1 < 2^31`, a
total length of at least 4 and a first payload that
is not empty and does not begin with a white-space byte, and a buffer larger
than the serialized form: `dbBE_SGE_deserialize` over the bytes written by
`dbBE_SGE_serialize` (with `space` the returned length, no caller array, count
0, an allocation that succeeds) returns a value that is not negative and
produces `|S|` elements; element `i` has the length of `S[i]` and addresses
bytes equal to those of `S[i]`; the header length reported by
`dbBE_SGE_extract_header` is the length of the two header lines plus the
length lines. -/
theorem deserialize_serialize_conditional (src : Nat → Nat) (m : Int → Nat)
    (S : List dbBE_sge_t) (space : Nat)
    (h1 : 1 ≤ S.length) (h256 : S.length ≤ 256)
    (hlen : ∀ e ∈ S, e.iov_len + 1 < 2147483648)
    (hsp : (wire src S).length < space) (hs : space < 18446744073709551616)
    (hsum : 4 ≤ (S.map (fun e => e.iov_len)).sum)
    (hfirst : 0 < (S.getD 0 default).iov_len ∧ isspace (src (S.getD 0 default).iov_base) = false) :
    0 ≤ (dbBE_SGE_deserialize true
      (some (buffer_bytes (dbBE_SGE_serialize src (some S) (S.length : Int) (some m) space).mem
        ((dbBE_SGE_serialize src (some S) (S.length : Int) (some m) space).ret.toNat + 1)))
      (dbBE_SGE_serialize src (some S) (S.length : Int) (some m) space).ret.toNat
      (some none) (some 0)).ret ∧
    (dbBE_SGE_extract_header true none 0
      (some (buffer_bytes (dbBE_SGE_serialize src (some S) (S.length : Int) (some m) space).mem
        ((dbBE_SGE_serialize src (some S) (S.length : Int) (some m) space).ret.toNat + 1)))
      (dbBE_SGE_serialize src (some S) (S.length : Int) (some m) space).ret.toNat
      (some none) (some 0)).parsed = (wire_header S).length + (wire_lens S).length ∧
    ∃ sge, (dbBE_SGE_deserialize true
      (some (buffer_bytes (dbBE_SGE_serialize src (some S) (S.length : Int) (some m) space).mem
        ((dbBE_SGE_serialize src (some S) (S.length : Int) (some m) space).ret.toNat + 1)))
      (dbBE_SGE_serialize src (some S) (S.length : Int) (some m) space).ret.toNat
      (some none) (some 0)).sge_out = some sge ∧
      sge.length = S.length ∧
      ∀ j, j < S.length →
        (sge.getD j default).iov_len = (S.getD j default).iov_len ∧
        ∀ k, k < (S.getD j default).iov_len →
          (dbBE_SGE_deserialize true
            (some (buffer_bytes
              (dbBE_SGE_serialize src (some S) (S.length : Int) (some m) space).mem
              ((dbBE_SGE_serialize src (some S) (S.length : Int) (some m) space).ret.toNat + 1)))
            (dbBE_SGE_serialize src (some S) (S.length : Int) (some m) space).ret.toNat
            (some none) (some 0)).data.getD ((sge.getD j default).iov_base + k) 0
          = src ((S.getD j default).iov_base + k) := by
  have hlen2 : ∀ e ∈ S, e.iov_len < 2147483647 := fun e he => by
    have := hlen e he; omega
  obtain ⟨hret, hbytes, _⟩ := serialize_wire_bytes src m S space h1 h256 hlen2 hsp hs
  have hrt : (dbBE_SGE_serialize src (some S) (S.length : Int) (some m) space).ret.toNat
      = (wire src S).length := by rw [hret]; simp
  rw [hrt, hbytes]
  have hpl := wire_payloads_length src S
  have hwl : (wire src S).length
      = (wire_header S).length + (wire_lens S).length + (wire_payloads src S).length := by
    simp [wire, Nat.add_assoc]
  have hspw : (wire_header S).length + (wire_lens S).length < (wire src S).length := by omega
  have hsw : (wire src S).length < 18446744073709551616 := by omega
  obtain ⟨hr0, sge, hsge, _, hl, hrest⟩ := deserialize_wire src S [0] (wire src S).length true
    none 0 h1 h256 hlen2 hsum hfirst hspw hsw
    (by simp only [List.length_append, List.length_cons, List.length_nil]; omega)
    (Or.inl ⟨rfl, rfl, rfl⟩)
  have hhdr := extract_header_wire src S [0] (wire src S).length true none 0 none 0 h1 h256 hlen2
    hsum hfirst (by omega) hsw (Or.inl ⟨rfl, rfl, rfl⟩)
  refine ⟨by rw [hr0], by rw [hhdr], sge, hsge, hl rfl, hrest⟩

/-- The theorem `deserialize_serialize_conditional` at the list `["abcd"]` and
a buffer of 12 bytes: the header length reported is 6, the length of
`"4\n1\n4\n"`. -/
theorem deserialize_serialize_conditional_witness :
    (dbBE_SGE_extract_header true none 0
      (some (buffer_bytes (dbBE_SGE_serialize (mem_of [97, 98, 99, 100]) (some [⟨0, 4⟩])
          (([⟨0, 4⟩] : List dbBE_sge_t).length : Int) (some (fun _ => 255)) 12).mem
        ((dbBE_SGE_serialize (mem_of [97, 98, 99, 100]) (some [⟨0, 4⟩])
          (([⟨0, 4⟩] : List dbBE_sge_t).length : Int) (some (fun _ => 255)) 12).ret.toNat + 1)))
      (dbBE_SGE_serialize (mem_of [97, 98, 99, 100]) (some [⟨0, 4⟩])
        (([⟨0, 4⟩] : List dbBE_sge_t).length : Int) (some (fun _ => 255)) 12).ret.toNat
      (some none) (some 0)).parsed
      = (wire_header [⟨0, 4⟩]).length + (wire_lens [⟨0, 4⟩]).length :=
  (deserialize_serialize_conditional (mem_of [97, 98, 99, 100]) (fun _ => 255) [⟨0, 4⟩] 12
    (by decide) (by decide) (by decide) (by decide) (by decide) (by decide) (by decide)).2.1

/-- C33: one element of 4294967301 bytes (`2^32 + 5`) of the letter `a` and a
buffer of 64 bytes.  The length passes through the `int` local `plen` and
becomes 5: `dbBE_SGE_serialize` writes the length line `4294967301` and five
bytes of payload and returns 30.  `dbBE_SGE_deserialize` over these bytes
returns 0 with one element of length 4294967301 at base 24, but the byte at
`base + 5` is the line feed behind the five bytes, not the sixth `a` of the
payload, and the `'\0'` of the element is stored at offset 4294967325, outside
the buffer of 31 bytes. -/
theorem deserialize_after_serialize_long_element :
    (dbBE_SGE_serialize (fun _ => 97) (some [⟨0, 4294967301⟩]) 1 (some (fun _ => 0)) 64).ret
      = 30 ∧
    (dbBE_SGE_deserialize true
      (some (buffer_bytes (dbBE_SGE_serialize (fun _ => 97) (some [⟨0, 4294967301⟩]) 1
        (some (fun _ => 0)) 64).mem 31)) 30 (some none) (some 0)).ret = 0 ∧
    (dbBE_SGE_deserialize true
      (some (buffer_bytes (dbBE_SGE_serialize (fun _ => 97) (some [⟨0, 4294967301⟩]) 1
        (some (fun _ => 0)) 64).mem 31)) 30 (some none) (some 0)).sge_out
      = some [⟨24, 4294967301⟩] ∧
    (dbBE_SGE_deserialize true
      (some (buffer_bytes (dbBE_SGE_serialize (fun _ => 97) (some [⟨0, 4294967301⟩]) 1
        (some (fun _ => 0)) 64).mem 31)) 30 (some none) (some 0)).data.getD (24 + 5) 0 = 10 ∧
    (dbBE_SGE_deserialize true
      (some (buffer_bytes (dbBE_SGE_serialize (fun _ => 97) (some [⟨0, 4294967301⟩]) 1
        (some (fun _ => 0)) 64).mem 31)) 30 (some none) (some 0)).outside = [4294967325] :=
  ⟨by decide, by decide, by decide, by decide, by decide⟩

end DataBroker
